import Mathlib

/-!
The ad-spot service: rate limiter, expiry and handlers.

A shallow embedding of `ratelimit.go` (`TokenBucket`, `RateLimiter`, the middleware),
of `types.go` (`Placement`, `AdSpot`, `IsExpired`) and of the handlers of `routes.go`.

Modelling conventions.

* `time.Time` is an `Int`: nanoseconds on the clock the program reads.  A
  `time.Duration` is an `int64` number of nanoseconds, and `Time.Sub` saturates at the ends
  of that range.  Every `time.Now()` of the source is an explicit argument of the embedded
  function, in the order in which the source reads the clock.
* Go's `int` is `int64`: an `Int`, with the result of an addition or a multiplication that
  can leave the range wrapped around (`wrapInt64`): the sum `tb.tokens += tokensToAdd`, the
  product `config.RequestsPerSecond * 2`, the product `time.Duration(ttl) * time.Minute`.
* `float64` is modelled exactly (`Float64`): a value is the rational number it is, and
  `float64(n)`, `+`, `*`, `/` round the exact result to the nearest value with a 53-bit
  significand, ties to even.  `Duration.Seconds` and the product `elapsed * float64(rate)`
  are computed as the source computes them, and `int(..)` truncates toward zero (for a value
  outside the `int64` range the result is the one of amd64).
* A `*TokenBucket` held in the registry is the bucket value stored under its
  key; a mutation through the pointer is a store under the same key.
* In the sequential embedding the mutexes are not modelled: every operation runs
  as one atomic step.  Concurrent calls are embedded apart (`System`): a step is
  one critical section of one call or one run of the reclaimer, and a schedule is an
  interleaving.
* An `ISO8601` value is the instant it denotes, in nanoseconds since the Unix epoch.  What
  is stored passes through its text form, which keeps whole seconds (`ISO8601.Value`).
* What lies outside the repository is an argument of the embedded function: the
  two functions of package `net` (`Net`), the rows or the error that a storage
  call returns (`find`, `dbErr`), the decoded JSON payload, the fresh UUID.  The
  table behind the storage adapter is the list of its rows.
-/

namespace Adspots

set_option maxRecDepth 8192

/-- Nanoseconds in a second (`time.Second`). -/
def Second : Int := 1000000000

/-- The largest `int64` (Go's `int` on the 64-bit platforms the service is built for). -/
def MaxInt64 : Int := 9223372036854775807

/-- The smallest `int64`. -/
def MinInt64 : Int := -9223372036854775808

/-- The result of an `int64` computation whose exact value is `x`: `x` wrapped into
`[-2^63, 2^63)`. -/
def wrapInt64 (x : Int) : Int :=
  (x + 9223372036854775808) % 18446744073709551616 - 9223372036854775808

/-! ## The `float64` arithmetic of `Allow`

A finite `float64` is a rational number with a power of two as denominator.  An operation
gives the exact result rounded to the nearest number with a 53-bit significand, ties to the
even significand (IEEE 754 binary64, round to nearest even).  The values that `Allow`
computes are zero or lie between `10^-9` and `10^29` in magnitude, far from the subnormal
range and from overflow, so the exponent is not bounded here. -/

/-- The position of the highest set bit of `n` (the floor of its binary logarithm), or 0 for
`n = 0`; `fuel` bounds the number of halvings. -/
def bitLog : Nat → Nat → Nat
  | 0, _ => 0
  | fuel + 1, n => if n < 2 then 0 else bitLog fuel (n / 2) + 1

/-- A finite `float64`: the number `num / den`, where `den` is a power of two. -/
structure Float64 where
  num : Int
  den : Nat
  deriving DecidableEq

/-- The rational number that a `float64` is. -/
def Float64.toRat (x : Float64) : ℚ := (x.num : ℚ) / (x.den : ℚ)

/-- The number `y` is `x` after `k` roundings: within the relative error `(1 ± 2^-53)^k`. -/
def Float64.approx (k : Nat) (y x : ℚ) : Prop :=
  x * (1 - 1 / 2 ^ 53) ^ k ≤ y ∧ y ≤ x * (1 + 1 / 2 ^ 53) ^ k

/-- The binary exponent of the unit in the last place of the `float64` nearest to `p / q`:
`e` with `2^52 ≤ (p / q) / 2^e < 2^53`. -/
def Float64.exponent (p q : Nat) : Int :=
  let a := bitLog p p
  let b := bitLog q q
  (if q * 2 ^ a ≤ p * 2 ^ b then (a : Int) - (b : Int) else (a : Int) - (b : Int) - 1) - 52

/-- The integer nearest to `n / d`, a tie going to the even one. -/
def Float64.roundDiv (n d : Nat) : Nat :=
  let m := n / d
  let r := n % d
  if 2 * r < d then m
  else if d < 2 * r then m + 1
  else if m % 2 = 0 then m else m + 1

/-- The `float64` nearest to `p / q`, for `p` and `q` positive: numerator and denominator. -/
def Float64.roundPos (p q : Nat) : Nat × Nat :=
  let e := Float64.exponent p q
  (Float64.roundDiv (p * 2 ^ (-e).toNat) (q * 2 ^ e.toNat) * 2 ^ e.toNat, 2 ^ (-e).toNat)

/-- The `float64` nearest to the exact value `n / q` (with `q` positive): what an operation
whose exact result is `n / q` returns. -/
def Float64.ofRatio (n : Int) (q : Nat) : Float64 :=
  if n = 0 then ⟨0, 1⟩
  else
    let r := Float64.roundPos n.natAbs q
    ⟨if n < 0 then -(r.1 : Int) else (r.1 : Int), r.2⟩

/-- The conversion `float64(n)` of an integer. -/
def Float64.ofInt (n : Int) : Float64 := Float64.ofRatio n 1

/-- The sum `x + y` of two `float64`. -/
def Float64.add (x y : Float64) : Float64 :=
  Float64.ofRatio (x.num * y.den + y.num * x.den) (x.den * y.den)

/-- The product `x * y` of two `float64`. -/
def Float64.mul (x y : Float64) : Float64 :=
  Float64.ofRatio (x.num * y.num) (x.den * y.den)

/-- The quotient `x / y` of two `float64`, for `y` not zero. -/
def Float64.div (x y : Float64) : Float64 :=
  Float64.ofRatio (x.num * y.den * Int.sign y.num) (x.den * y.num.natAbs)

/-- The conversion `int(x)`: the value truncated toward zero.  When that is not an `int64` the
Go specification leaves the result to the implementation; on amd64 it is the smallest
`int64`. -/
def Float64.toInt (x : Float64) : Int :=
  let t := Int.tdiv x.num x.den
  if MinInt64 ≤ t ∧ t ≤ MaxInt64 then t else MinInt64

/-- `t.Sub(u)` of package `time`: the duration `t - u` in nanoseconds, which is the largest
(smallest) `int64` when the difference is above (below) the `int64` range. -/
def Time.Sub (t u : Int) : Int :=
  if MaxInt64 < t - u then MaxInt64
  else if t - u < MinInt64 then MinInt64
  else t - u

/-- `d.Seconds()` of package `time`: `float64(sec) + float64(nsec)/1e9` for the whole seconds
`sec := d / Second` and the rest `nsec := d % Second` (Go's `/` and `%` truncate toward
zero). -/
def Duration.Seconds (d : Int) : Float64 :=
  let sec := Int.tdiv d Second
  let nsec := Int.tmod d Second
  Float64.add (Float64.ofInt sec) (Float64.div (Float64.ofInt nsec) ⟨1000000000, 1⟩)

/-- The struct `TokenBucket` (without its mutex).  The fields are Go `int`, which is `int64`
on the 64-bit platforms the service is built for. -/
structure TokenBucket where
  capacity : Int
  tokens : Int
  refillRate : Int
  lastRefill : Int
  deriving DecidableEq

/-- `NewTokenBucket(capacity, refillRate)`, reading the clock at `now`. -/
def NewTokenBucket (capacity refillRate : Int) (now : Int) : TokenBucket :=
  { capacity := capacity
    tokens := capacity
    refillRate := refillRate
    lastRefill := now }

/-- The two lines `elapsed := now.Sub(tb.lastRefill).Seconds()` and
`tokensToAdd := int(elapsed * float64(tb.refillRate))` of `Allow`. -/
def TokenBucket.tokensToAdd (tb : TokenBucket) (now : Int) : Int :=
  let elapsed := Duration.Seconds (Time.Sub now tb.lastRefill)
  Float64.toInt (Float64.mul elapsed (Float64.ofInt tb.refillRate))

/-- The refill block of `Allow` (the `if tokensToAdd > 0 { ... }`); the sum
`tb.tokens += tokensToAdd` is an `int64` sum and wraps around. -/
def TokenBucket.refill (tb : TokenBucket) (now : Int) : TokenBucket :=
  let tokensToAdd := tb.tokensToAdd now
  if tokensToAdd > 0 then
    let tokens := wrapInt64 (tb.tokens + tokensToAdd)
    { tb with
      tokens := if tokens > tb.capacity then tb.capacity else tokens
      lastRefill := now }
  else tb

/-- `(tb *TokenBucket) Allow()`, reading the clock at `now`: the returned flag
and the bucket as the call leaves it. -/
def TokenBucket.Allow (tb : TokenBucket) (now : Int) : Bool × TokenBucket :=
  let tb1 := tb.refill now
  if tb1.tokens > 0 then
    (true, { tb1 with tokens := tb1.tokens - 1 })
  else
    (false, tb1)

/-- A sequence of `Allow` calls on one bucket, at the given clock readings:
the flags in call order and the final bucket. -/
def TokenBucket.run (tb : TokenBucket) : List Int → List Bool × TokenBucket
  | [] => ([], tb)
  | now :: rest =>
    let r := tb.Allow now
    let rs := TokenBucket.run r.2 rest
    (r.1 :: rs.1, rs.2)

/-- The step of the bucket as the specification words it: `floor` of the
elapsed seconds times the rate, `min` with the capacity, then the decrement. -/
def allowSpec (tb : TokenBucket) (now : Int) : Bool × TokenBucket :=
  let tokensToAdd := ((now - tb.lastRefill) * tb.refillRate) / Second
  let tokens := if tokensToAdd > 0 then min tb.capacity (tb.tokens + tokensToAdd) else tb.tokens
  let lastRefill := if tokensToAdd > 0 then now else tb.lastRefill
  if tokens > 0 then
    (true, { tb with tokens := tokens - 1, lastRefill := lastRefill })
  else
    (false, { tb with tokens := tokens, lastRefill := lastRefill })

/-- The credit of a bucket at the instant `x`, in billionths of a token: the tokens it
holds (none when the count is negative) and the refill that the time elapsed since
`lastRefill` is worth. -/
def credit (tb : TokenBucket) (x : Int) : Int :=
  Second * max tb.tokens 0 + (x - tb.lastRefill) * tb.refillRate

/-- The tokens that the refill blocks of a run of `Allow` calls add: `tokensToAdd` of every
call whose refill block runs (the sum of the `tb.tokens += tokensToAdd`, before the cap). -/
def TokenBucket.added (tb : TokenBucket) : List Int → Int
  | [] => 0
  | now :: rest =>
    (if tb.tokensToAdd now > 0 then tb.tokensToAdd now else 0) +
      TokenBucket.added (tb.Allow now).2 rest

/-- The first value stored under `k` in a list of map entries. -/
def lookupEntry (k : String) : List (String × TokenBucket) → Option TokenBucket
  | [] => none
  | e :: rest => if e.1 = k then some e.2 else lookupEntry k rest

/-- The Go map `map[string]*TokenBucket`: its entries in some iteration order,
no key twice. -/
structure BucketMap where
  entries : List (String × TokenBucket)
  nodupKeys : (entries.map Prod.fst).Nodup

/-- The map made by `make(map[string]*TokenBucket)`. -/
def BucketMap.empty : BucketMap :=
  { entries := []
    nodupKeys := List.nodup_nil }

/-- The comma-ok read `bucket, exists := m[k]`. -/
def BucketMap.get (m : BucketMap) (k : String) : Option TokenBucket :=
  lookupEntry k m.entries

/-- The builtin `delete(m, k)`. -/
def BucketMap.delete (m : BucketMap) (k : String) : BucketMap :=
  { entries := m.entries.filter (fun e => decide (e.1 ≠ k))
    nodupKeys := (List.Sublist.map Prod.fst (List.filter_sublist m.entries)).nodup m.nodupKeys }

/-- The assignment `m[k] = bucket`; also the write through the pointer stored under `k`. -/
def BucketMap.set (m : BucketMap) (k : String) (bucket : TokenBucket) : BucketMap :=
  { entries := (k, bucket) :: (m.delete k).entries
    nodupKeys := by
      rw [List.map_cons, List.nodup_cons]
      refine ⟨?_, (m.delete k).nodupKeys⟩
      intro hmem
      rcases List.mem_map.1 hmem with ⟨e, he, hk⟩
      have hne := (List.mem_filter.1 he).2
      exact (of_decide_eq_true hne) hk }

/-- The struct `RateLimiter` (without its lock); `cleanup` in nanoseconds. -/
structure RateLimiter where
  buckets : BucketMap
  capacity : Int
  refillRate : Int
  cleanup : Int

/-- The struct `RateLimiterConfig`; `CleanupInterval` in nanoseconds. -/
structure RateLimiterConfig where
  RequestsPerSecond : Int
  BurstSize : Int
  CleanupInterval : Int
  deriving DecidableEq

/-- `NewRateLimiter(config)`: the limiter it returns (the reclaimer it starts is
`cleanupOldBuckets`, run at each tick).  The product `config.RequestsPerSecond * 2` is an
`int64` product and wraps around. -/
def NewRateLimiter (config : RateLimiterConfig) : RateLimiter :=
  let config :=
    if config.RequestsPerSecond ≤ 0 then { config with RequestsPerSecond := 10 } else config
  let config :=
    if config.BurstSize ≤ 0 then
      { config with BurstSize := wrapInt64 (config.RequestsPerSecond * 2) }
    else config
  let config :=
    if config.CleanupInterval ≤ 0 then { config with CleanupInterval := 5 * (60 * Second) }
    else config
  { buckets := BucketMap.empty
    capacity := config.BurstSize
    refillRate := config.RequestsPerSecond
    cleanup := config.CleanupInterval }

/-- `(rl *RateLimiter) GetBucket(clientID)`: the bucket it returns and the limiter
afterwards.  The clock is read (at `now`) only when a bucket is made. -/
def RateLimiter.GetBucket (rl : RateLimiter) (clientID : String) (now : Int) :
    TokenBucket × RateLimiter :=
  match rl.buckets.get clientID with
  | some bucket => (bucket, rl)
  | none =>
    match rl.buckets.get clientID with
    | some bucket => (bucket, rl)
    | none =>
      let bucket := NewTokenBucket rl.capacity rl.refillRate now
      (bucket, { rl with buckets := rl.buckets.set clientID bucket })

/-- `(rl *RateLimiter) Allow(clientID)`: `nowGet` is the clock reading of `GetBucket`,
`nowAllow` the later one of `bucket.Allow()`, whose write goes to the bucket registered
under `clientID`. -/
def RateLimiter.Allow (rl : RateLimiter) (clientID : String) (nowGet nowAllow : Int) :
    Bool × RateLimiter :=
  let g := rl.GetBucket clientID nowGet
  let r := g.1.Allow nowAllow
  (r.1, { g.2 with buckets := g.2.buckets.set clientID r.2 })

/-- A sequence of `rl.Allow` calls, each given as client id and the two clock readings:
the flags in call order and the final limiter. -/
def RateLimiter.run (rl : RateLimiter) : List (String × Int × Int) → List Bool × RateLimiter
  | [] => ([], rl)
  | c :: rest =>
    let r := rl.Allow c.1 c.2.1 c.2.2
    let rs := RateLimiter.run r.2 rest
    (r.1 :: rs.1, rs.2)

/-- The flags that the calls of `clientID` got in a run: `flags` are the results of
`calls`, position by position. -/
def resultsOf (clientID : String) (calls : List (String × Int × Int)) (flags : List Bool) :
    List Bool :=
  ((calls.zip flags).filter (fun p => decide (p.1.1 = clientID))).map Prod.snd

/-- The calls that one client makes at the given pairs of clock readings. -/
def callsOf (clientID : String) (readings : List (Int × Int)) : List (String × Int × Int) :=
  readings.map (fun c => (clientID, c.1, c.2))

/-- The body of the `range` loop of `cleanupOldBuckets` for one entry. -/
def cleanupStep (cutoff : Int) (m : BucketMap) (e : String × TokenBucket) : BucketMap :=
  if e.2.lastRefill < cutoff then m.delete e.1 else m

/-- `(rl *RateLimiter) cleanupOldBuckets()`, reading the clock at `now`: the loop
visits the entries the map has when it starts. -/
def RateLimiter.cleanupOldBuckets (rl : RateLimiter) (now : Int) : RateLimiter :=
  let cutoff := now + (-rl.cleanup)
  { rl with buckets := rl.buckets.entries.foldl (cleanupStep cutoff) rl.buckets }

/-! ## The ad-spot model (`types.go`) -/

/-- Nanoseconds in a minute (`time.Minute`). -/
def Minute : Int := 60 * Second

/-- The type `Placement` (`type Placement int`). -/
structure Placement where
  code : Int
  deriving DecidableEq

/-- The constant `PlacementHomeScreen`. -/
def PlacementHomeScreen : Placement := ⟨1⟩

/-- The constant `PlacementRideSummary`. -/
def PlacementRideSummary : Placement := ⟨2⟩

/-- The constant `PlacementMapView`. -/
def PlacementMapView : Placement := ⟨3⟩

/-- The two error values of `types.go`. -/
inductive Error where
  | InvalidPlacement
  | InvalidStatus
  deriving DecidableEq

/-- `(p *Placement) Parse(value)`: the returned error (`none` for `nil`) and the value
of `*p` afterwards. -/
def Placement.Parse (p : Placement) (value : String) : Option Error × Placement :=
  if value = "home_screen" then (none, PlacementHomeScreen)
  else if value = "ride_summary" then (none, PlacementRideSummary)
  else if value = "map_view" then (none, PlacementMapView)
  else (some Error.InvalidPlacement, p)

/-- `(p Placement) String()`. -/
def Placement.String (p : Placement) : String :=
  if p = PlacementHomeScreen then "home_screen"
  else if p = PlacementRideSummary then "ride_summary"
  else if p = PlacementMapView then "map_view"
  else "invalid"

/-- `(tm ISO8601) Value()`, read back by `Scan`: the instant that the stored text
`tm.String()` denotes.  The layout `2006-01-02T15:04:05-0700` keeps the whole seconds of `tm`
and drops the rest (instants are nanoseconds since the Unix epoch, zone offsets whole
minutes). -/
def ISO8601.Value (tm : Int) : Int :=
  tm / Second * Second

/-- The struct `AdSpot`.  An `ISO8601` value is the instant it denotes, in nanoseconds; a nil
pointer is `none`. -/
structure AdSpot where
  ID : String
  Title : String
  ImageURL : String
  Placement : Placement
  Status : Option Bool
  TTLMinutes : Option Int
  CreatedAt : Int
  DeactivatedAt : Option Int
  deriving DecidableEq

/-- The struct `CreatePayload`, as `Decode` fills it: a field that the JSON object does
not have (or has as `null`) is a nil pointer, `none`. -/
structure CreatePayload where
  Title : Option String
  ImageURL : Option String
  Placement : Option String
  TTLMinutes : Option Int
  deriving DecidableEq

/-- `(a AdSpot) IsExpired()`, reading the clock at `now`.  `time.Duration` is an `int64`, so
the product `time.Duration(*a.TTLMinutes) * time.Minute` wraps around. -/
def AdSpot.IsExpired (a : AdSpot) (now : Int) : Bool :=
  match a.TTLMinutes with
  | none => false
  | some ttl =>
    if ttl = 0 then false
    else
      let expirationTime := a.CreatedAt + wrapInt64 (ttl * Minute)
      decide (expirationTime < now)

/-- The expiry predicate as the specification words it: the TTL is present, not zero, and
`t > createdAt + ttlMinutes` minutes. -/
def expiredSpec (a : AdSpot) (t : Int) : Prop :=
  ∃ ttl : Int, a.TTLMinutes = some ttl ∧ ttl ≠ 0 ∧ a.CreatedAt + ttl * Minute < t

/-! ## Requests and responses -/

/-- A value of a JSON object that a handler answers with: a string or a list of strings. -/
inductive Field where
  | str (s : String)
  | list (xs : List String)
  deriving DecidableEq

/-- What a handler writes as the body of its response. -/
inductive Body where
  | empty
  | object (fields : List (String × Field))
  | spot (a : AdSpot)
  | spots (rows : List AdSpot)
  | text (s : String)
  deriving DecidableEq

/-- The `http.ResponseWriter` as the handlers use it: the header map, the status code
(200 unless `WriteHeader` sets another) and the body. -/
structure ResponseWriter where
  header : List (String × String)
  status : Nat
  body : Body
  deriving DecidableEq

/-- A writer that nothing was written to. -/
def ResponseWriter.fresh : ResponseWriter :=
  { header := []
    status := 200
    body := Body.empty }

/-- `w.Header().Set(key, value)`. -/
def ResponseWriter.Set (w : ResponseWriter) (key value : String) : ResponseWriter :=
  { w with header := (key, value) :: w.header.filter (fun e => decide (e.1 ≠ key)) }

/-- The first value stored under `key` in a list of headers, the empty string when there
is none. -/
def headerValue (key : String) : List (String × String) → String
  | [] => ""
  | e :: rest => if e.1 = key then e.2 else headerValue key rest

/-- `w.Header().Get(key)`: the empty string when the key is not set. -/
def ResponseWriter.Get (w : ResponseWriter) (key : String) : String :=
  headerValue key w.header

/-- Modelled from the spec: `JSONError(w, body, status)` is not among the source files.  By
the error envelope of the specification it answers with the given status and the given JSON
object, content type `application/json; charset=utf-8`; the headers set before stay, as
`TestRateLimitMiddleware` reads them on the 429 response. -/
def JSONError (w : ResponseWriter) (body : List (String × Field)) (status : Nat) :
    ResponseWriter :=
  { (w.Set "Content-Type" "application/json; charset=utf-8") with
    status := status
    body := Body.object body }

/-- The `http.Request` as `getClientIP` reads it: `Header` is `r.Header.Get`. -/
structure Request where
  Header : String → String
  RemoteAddr : String

/-- The two functions of Go's package `net` that `getClientIP` calls.  The package is
outside the repository, so they are parameters: `ParseIP s` is the text `ip.String()` of
`net.ParseIP(s)`, and `none` when that is nil; `SplitHostPort s` is the host that
`net.SplitHostPort(s)` returns, and `none` when it returns an error. -/
structure Net where
  ParseIP : String → Option String
  SplitHostPort : String → Option String

/-- The values of the two `net` functions on the addresses of the scenarios evaluated
below (an IPv6 literal is rendered in lower case).  On every other string this table says
nothing about Go, and nothing below applies it there. -/
def netFacts : Net where
  ParseIP := fun s =>
    if s = "192.168.1.1" then some "192.168.1.1"
    else if s = "10.0.0.7" then some "10.0.0.7"
    else if s = "2001:DB8::1" then some "2001:db8::1"
    else none
  SplitHostPort := fun s =>
    if s = "192.168.1.1:12345" then some "192.168.1.1"
    else none

/-- `getClientIP(r)`. -/
def getClientIP (net : Net) (r : Request) : String :=
  let xff := r.Header "X-Forwarded-For"
  match (if xff ≠ "" then net.ParseIP xff else none) with
  | some ip => ip
  | none =>
    let xri := r.Header "X-Real-IP"
    match (if xri ≠ "" then net.ParseIP xri else none) with
    | some ip => ip
    | none =>
      match net.SplitHostPort r.RemoteAddr with
      | none => r.RemoteAddr
      | some host => host

/-- What one request does to the middleware: the response, whether `next.ServeHTTP` was
called, and the limiter afterwards. -/
structure Served where
  response : ResponseWriter
  nextCalled : Bool
  limiter : RateLimiter

/-- The handler that `(rl *RateLimiter) RateLimitMiddleware(next)` returns, applied to the
writer `w` and the request `r`.  The inner handler `next` is a function of the writer it is
given and the request; `nowGet` and `nowAllow` are the clock readings of `rl.Allow`,
`nowGet2` the one of the second `rl.GetBucket`. -/
def RateLimiter.RateLimitMiddleware (rl : RateLimiter) (net : Net)
    (next : ResponseWriter → Request → ResponseWriter) (w : ResponseWriter) (r : Request)
    (nowGet nowAllow nowGet2 : Int) : Served :=
  let clientIP := getClientIP net r
  let a := rl.Allow clientIP nowGet nowAllow
  if !a.1 then
    let w := w.Set "X-RateLimit-Limit" (toString rl.refillRate)
    let w := w.Set "X-RateLimit-Remaining" "0"
    let w := w.Set "Retry-After" "1"
    { response := JSONError w
        [("what", Field.str "Rate limit exceeded"),
          ("message", Field.str "Too many requests. Please try again later.")] 429
      nextCalled := false
      limiter := a.2 }
  else
    let g := a.2.GetBucket clientIP nowGet2
    let remaining := g.1.tokens
    let w := w.Set "X-RateLimit-Limit" (toString rl.refillRate)
    let w := w.Set "X-RateLimit-Remaining" (toString remaining)
    { response := next w r
      nextCalled := true
      limiter := g.2 }

/-- A sequence of requests through the middleware, each on a fresh writer and with its three
clock readings: the responses in order. -/
def RateLimiter.serve (rl : RateLimiter) (net : Net)
    (next : ResponseWriter → Request → ResponseWriter) :
    List (Request × Int × Int × Int) → List ResponseWriter
  | [] => []
  | q :: rest =>
    let s := rl.RateLimitMiddleware net next ResponseWriter.fresh q.1 q.2.1 q.2.2.1 q.2.2.2
    s.response :: RateLimiter.serve s.limiter net next rest

/-! ## The handlers (`routes.go`) and the storage they call -/

/-- `w.WriteHeader(status)`. -/
def ResponseWriter.WriteHeader (w : ResponseWriter) (status : Nat) : ResponseWriter :=
  { w with status := status }

/-- `json.NewEncoder(w).Encode(v)`: the value handed to the encoder becomes the body. -/
def ResponseWriter.Encode (w : ResponseWriter) (v : Body) : ResponseWriter :=
  { w with body := v }

/-- How a handler ends: it returns, or it panics before it returns. -/
inductive Outcome (α : Type) where
  | panic
  | done (a : α)
  deriving DecidableEq

/-- `slices.DeleteFunc(s, del)`: the elements for which `del` is false, in order.  `del` is
called once for each element, in order; it is given the position of the element (counted
from `i`), which stands for the moment of that call. -/
def DeleteFunc {α : Type} (del : Nat → α → Bool) : Nat → List α → List α
  | _, [] => []
  | i, a :: rest =>
    if del i a then DeleteFunc del (i + 1) rest else a :: DeleteFunc del (i + 1) rest

/-- Modelled from the spec: the storage adapter (gorm over sqlite) is outside the repository;
by its contract (section 4.5) the table is the list of its rows, and the query returns the rows
that match the optional equality filters on `placement` and `status`, ordered by `createdAt`
descending. -/
def Store.find (db : List AdSpot) (placement : Option Placement) (status : Option Bool) :
    List AdSpot :=
  (db.filter (fun a =>
    (match placement with
      | none => true
      | some p => decide (a.Placement = p)) &&
    (match status with
      | none => true
      | some s => decide (a.Status = some s)))).insertionSort
    (fun a b => b.CreatedAt ≤ a.CreatedAt)

/-- Modelled from the spec: the conditional update of the storage adapter (section 4.5),
`Where("id = ? AND status = ?", id, true).Updates(AdSpot{Status: StatusInactive,
DeactivatedAt: &now})`: the number of rows matched and the table afterwards, in which the
matched rows have the two attributes set and nothing else is changed.  The timestamp is
stored as `ISO8601.Value` gives it. -/
def Store.deactivate (db : List AdSpot) (id : String) (now : Int) : Nat × List AdSpot :=
  ((db.filter (fun a => decide (a.ID = id ∧ a.Status = some true))).length,
    db.map (fun a =>
      if a.ID = id ∧ a.Status = some true then
        { a with Status := some false, DeactivatedAt := some (ISO8601.Value now) }
      else a))

/-- `(s *Server) CreateAdSpot(w, req)` from the decoded payload on (`Decode` returned no
error).  `newID` is the value of `uuid.NewString()`, `now` the clock reading, `dbErr` the
error that the storage call returns (`none` for nil), `db` the table.  Dereferencing the nil
`payload.Placement` panics.  The row is stored with `createdAt` as `ISO8601.Value` gives
it. -/
def Server.CreateAdSpot (dbErr : Option String) (db : List AdSpot) (payload : CreatePayload)
    (newID : String) (now : Int) (w : ResponseWriter) :
    Outcome (ResponseWriter × List AdSpot) :=
  let validationErrors : List String := []
  let validationErrors :=
    if payload.Title = none then validationErrors ++ ["Title field cannot be missing"]
    else validationErrors
  let validationErrors :=
    if payload.ImageURL = none then validationErrors ++ ["Image URL field cannot be missing"]
    else validationErrors
  let validationErrors :=
    if payload.Placement = none then validationErrors ++ ["Placement field cannot be missing"]
    else validationErrors
  match payload.Placement with
  | none => Outcome.panic
  | some placementValue =>
    let parsed := Placement.Parse ⟨0⟩ placementValue
    let validationErrors :=
      if parsed.1 ≠ none then validationErrors ++ ["Invalid value for placement field"]
      else validationErrors
    if validationErrors.length > 0 then
      Outcome.done
        (JSONError w
          [("what", Field.str "Failed to validate JSON payload"),
            ("context", Field.list validationErrors)] 400, db)
    else
      match payload.Title, payload.ImageURL with
      | some title, some imageURL =>
        let adspot : AdSpot :=
          { ID := newID
            Title := title
            ImageURL := imageURL
            Placement := parsed.2
            Status := some true
            TTLMinutes := payload.TTLMinutes
            CreatedAt := now
            DeactivatedAt := none }
        match dbErr with
        | some err =>
          Outcome.done
            (JSONError w
              [("what", Field.str "Failed to persist ad spot"), ("context", Field.str err)]
              500, db)
        | none =>
          Outcome.done
            ((w.Set "Content-Type" "application/json; charset=utf-8").Encode (Body.spot adspot),
              db ++ [{ adspot with CreatedAt := ISO8601.Value adspot.CreatedAt }])
      | _, _ => Outcome.panic

/-- `(s *Server) DeactivateAdSpot(w, r)`: `id` is `r.PathValue("id")`, `now` the clock
reading, `dbErr` the error that the storage call returns (`none` for nil), `db` the table.
The response and the table afterwards. -/
def Server.DeactivateAdSpot (dbErr : Option String) (db : List AdSpot) (id : String)
    (now : Int) (w : ResponseWriter) : ResponseWriter × List AdSpot :=
  if id = "" then
    (JSONError w [("what", Field.str "ID parameter is missing")] 400, db)
  else
    match dbErr with
    | some err =>
      (JSONError w
        [("what", Field.str "Failed to execute database update"), ("context", Field.str err)]
        500, db)
    | none =>
      let updated := Store.deactivate db id now
      if updated.1 = 0 then
        (JSONError w
          [("what", Field.str "Ad spot was not found, or was already inactive")] 400,
          updated.2)
      else
        ((((w.Set "Content-Type" "application/json; charset=utf-8").WriteHeader 200).Encode
          (Body.object
            [("message", Field.str "Ad spot deactivated successfully"), ("id", Field.str id)])),
          updated.2)

/-- `(s *Server) ListAdSpots(w, r)`: `placement` and `status` are the two query parameters
(empty when absent), `find` is the storage query with the filters the handler puts on it
and its result (rows or error), `clock i` is the clock reading of `IsExpired` on row `i`. -/
def Server.ListAdSpots (find : Option Placement → Option Bool → Except String (List AdSpot))
    (placement status : String) (clock : Nat → Int) (w : ResponseWriter) : ResponseWriter :=
  let parsed := Placement.Parse ⟨0⟩ placement
  if placement ≠ "" ∧ parsed.1 ≠ none then
    JSONError w [("what", Field.str "Invalid value for placement field")] 400
  else
    let placementFilter := if placement ≠ "" then some parsed.2 else none
    if status ≠ "" ∧ status ≠ "active" ∧ status ≠ "inactive" then
      JSONError w [("what", Field.str "Invalid value for status field")] 400
    else
      let statusFilter := if status ≠ "" then some (decide (status = "active")) else none
      match find placementFilter statusFilter with
      | Except.error err =>
        JSONError w
          [("what", Field.str "Failed to execute database query"), ("context", Field.str err)]
          500
      | Except.ok rows =>
        let rowsFiltered :=
          DeleteFunc (fun i a => decide (status = "active") && a.IsExpired (clock i)) 0 rows
        (w.Set "Content-Type" "application/json; charset=utf-8").Encode
          (Body.spots rowsFiltered)

/-- The inner handler of `TestRateLimitMiddleware`: `w.WriteHeader(http.StatusOK)` and
`w.Write([]byte("OK"))`. -/
def testHandler (w : ResponseWriter) (_r : Request) : ResponseWriter :=
  (w.WriteHeader 200).Encode (Body.text "OK")

/-- The request of `TestRateLimitMiddleware`: no client-id header, remote address
`192.168.1.1:12345`. -/
def testRequest : Request :=
  { Header := fun _ => ""
    RemoteAddr := "192.168.1.1:12345" }

/-- The four rows of `TestFiltering`, created at instant 0: active without TTL, active with
TTL 120, active with TTL 30, inactive without TTL. -/
def testRows : List AdSpot :=
  [ { ID := "active_no_ttl", Title := "Test ad: active_no_ttl",
      ImageURL := "https://example.com/image.png", Placement := PlacementHomeScreen,
      Status := some true, TTLMinutes := none, CreatedAt := 0, DeactivatedAt := none },
    { ID := "active_within_ttl", Title := "Test ad: active_within_ttl",
      ImageURL := "https://example.com/image.png", Placement := PlacementHomeScreen,
      Status := some true, TTLMinutes := some 120, CreatedAt := 0, DeactivatedAt := none },
    { ID := "active_expired", Title := "Test ad: active_expired",
      ImageURL := "https://example.com/image.png", Placement := PlacementHomeScreen,
      Status := some true, TTLMinutes := some 30, CreatedAt := 0, DeactivatedAt := none },
    { ID := "inactive", Title := "Test ad: inactive",
      ImageURL := "https://example.com/image.png", Placement := PlacementHomeScreen,
      Status := some false, TTLMinutes := none, CreatedAt := 0, DeactivatedAt := none } ]

/-! ## Concurrent calls on one limiter

The locks of `ratelimit.go` make four kinds of critical section, and a critical section is
one step here: the read of the map under `rl.mu.RLock`, the re-check and insertion under
`rl.mu.Lock`, `bucket.Allow()` under the bucket's own lock, and one run of
`cleanupOldBuckets` under `rl.mu.Lock` by the reclaimer that `NewRateLimiter` starts.  Calls
and the reclaimer interleave between their critical sections in any order. -/

/-- The first pointer stored under `k` in the entries of the map. -/
def lookupPtr (k : String) : List (String × Nat) → Option Nat
  | [] => none
  | e :: rest => if e.1 = k then some e.2 else lookupPtr k rest

/-- The memory that concurrent calls share: the buckets allocated so far (a `*TokenBucket`
is a position in `heap`), the map `rl.buckets` from client ids to such pointers, the two
bucket settings of the limiter and its cleanup interval. -/
structure SharedLimiter where
  heap : List TokenBucket
  buckets : List (String × Nat)
  capacity : Int
  refillRate : Int
  cleanup : Int
  deriving DecidableEq

/-- Where a call of `rl.Allow(clientID)` stands.  A call of `rl.GetBucket(clientID)` alone
is one that goes no further than `holding`. -/
inductive Progress where
  | start
  | missed
  | holding (p : Nat)
  | returned (p : Nat) (ok : Bool)
  deriving DecidableEq

/-- A call in progress: its client id and where it stands. -/
structure Caller where
  clientID : String
  pc : Progress
  deriving DecidableEq

/-- The bucket pointer that a call has obtained from `GetBucket`, if it has one yet. -/
def Caller.bucket (c : Caller) : Option Nat :=
  match c.pc with
  | Progress.start => none
  | Progress.missed => none
  | Progress.holding p => some p
  | Progress.returned p _ => some p

/-- The next critical section of the call `c`, with the clock reading `now`:
from `start`, the read `rl.buckets[clientID]` under `RLock`; from `missed`, the section under
`Lock` (re-check, and if the id is still absent `NewTokenBucket` and the insertion); from
`holding p`, `bucket.Allow()` on the bucket that `p` points to. -/
def SharedLimiter.step (s : SharedLimiter) (c : Caller) (now : Int) :
    SharedLimiter × Caller :=
  match c.pc with
  | Progress.start =>
    match lookupPtr c.clientID s.buckets with
    | some p => (s, { c with pc := Progress.holding p })
    | none => (s, { c with pc := Progress.missed })
  | Progress.missed =>
    match lookupPtr c.clientID s.buckets with
    | some p => (s, { c with pc := Progress.holding p })
    | none =>
      let bucket := NewTokenBucket s.capacity s.refillRate now
      ({ s with
          heap := s.heap ++ [bucket]
          buckets := (c.clientID, s.heap.length) :: s.buckets },
        { c with pc := Progress.holding s.heap.length })
  | Progress.holding p =>
    match s.heap[p]? with
    | some tb =>
      ({ s with heap := s.heap.set p (tb.Allow now).2 },
        { c with pc := Progress.returned p (tb.Allow now).1 })
    | none => (s, c)
  | Progress.returned _ _ => (s, c)

/-- The body of the `range` loop of `cleanupOldBuckets` for one entry of the shared map:
`delete(rl.buckets, clientID)` when the bucket that the entry points to was last refilled
before the cutoff. -/
def cleanupPtrStep (heap : List TokenBucket) (cutoff : Int) (m : List (String × Nat))
    (e : String × Nat) : List (String × Nat) :=
  match heap[e.2]? with
  | some bucket =>
    if bucket.lastRefill < cutoff then m.filter (fun e2 => decide (e2.1 ≠ e.1)) else m
  | none => m

/-- `(rl *RateLimiter) cleanupOldBuckets()` on the shared memory, reading the clock at `now`:
one critical section under `rl.mu.Lock`.  The evicted buckets stay where a call that holds
them finds them. -/
def SharedLimiter.cleanupOldBuckets (s : SharedLimiter) (now : Int) : SharedLimiter :=
  let cutoff := now + (-s.cleanup)
  { s with buckets := s.buckets.foldl (cleanupPtrStep s.heap cutoff) s.buckets }

/-- The shared memory together with the calls in progress on it. -/
structure System where
  shared : SharedLimiter
  callers : List Caller
  deriving DecidableEq

/-- The calls of the given client ids, none of which has started. -/
def System.init (s : SharedLimiter) (ids : List String) : System :=
  { shared := s
    callers := ids.map (fun id => { clientID := id, pc := Progress.start }) }

/-- The call number `i` runs its next critical section, with the clock reading `now`. -/
def System.stepCall (sys : System) (i : Nat) (now : Int) : System :=
  match sys.callers[i]? with
  | none => sys
  | some c =>
    { shared := (sys.shared.step c now).1
      callers := sys.callers.set i (sys.shared.step c now).2 }

/-- One entry of a schedule: the call number `i` runs its next critical section, or the
reclaimer runs `cleanupOldBuckets`; each with its clock reading. -/
inductive Step where
  | call (i : Nat) (now : Int)
  | cleanup (now : Int)
  deriving DecidableEq

/-- Whether the entry is a critical section of a call. -/
def Step.isCall : Step → Bool
  | Step.call _ _ => true
  | Step.cleanup _ => false

/-- One critical section: of a call, or of the reclaimer. -/
def System.step (sys : System) : Step → System
  | Step.call i now => sys.stepCall i now
  | Step.cleanup now => { sys with shared := sys.shared.cleanupOldBuckets now }

/-- An interleaving: the critical sections run in the order of the schedule. -/
def System.run (sys : System) : List Step → System
  | [] => sys
  | e :: rest => System.run (sys.step e) rest

/-- What every step keeps, for a limiter of the given settings that had `h0` buckets at the
start: the map has one entry per id, and its pointers and those that the calls hold are
allocated buckets; the buckets allocated since the start have the settings of the limiter. -/
def System.wellFormed (sys : System) (h0 : Nat) (capacity refillRate : Int) : Prop :=
  (∀ e ∈ sys.shared.buckets, e.2 < sys.shared.heap.length) ∧
    (sys.shared.buckets.map Prod.fst).Nodup ∧
    (∀ c ∈ sys.callers, ∀ p : Nat, c.bucket = some p → p < sys.shared.heap.length) ∧
    sys.shared.capacity = capacity ∧ sys.shared.refillRate = refillRate ∧
    h0 ≤ sys.shared.heap.length ∧
    (∀ (p : Nat) (tb : TokenBucket), h0 ≤ p → sys.shared.heap[p]? = some tb →
      tb.capacity = capacity ∧ tb.refillRate = refillRate)

/-! ## Rounding -/

theorem bitLog_spec (fuel : Nat) : ∀ n : Nat, 0 < n → n ≤ fuel →
    2 ^ bitLog fuel n ≤ n ∧ n < 2 ^ (bitLog fuel n + 1) := by
  induction fuel with
  | zero => intro n h0 h1; omega
  | succ f ih =>
    intro n h0 h1
    by_cases h : n < 2
    · have hb : bitLog (f + 1) n = 0 := by simp only [bitLog, if_pos h]
      rw [hb]
      simp only [pow_zero, zero_add, pow_one]
      omega
    · have hb : bitLog (f + 1) n = bitLog f (n / 2) + 1 := by simp only [bitLog, if_neg h]
      rw [hb]
      have h2 := ih (n / 2) (by omega) (by omega)
      simp only [pow_succ] at h2 ⊢
      generalize 2 ^ bitLog f (n / 2) = P at h2 ⊢
      omega

/-- The quotient `p / q` scaled by the chosen exponent is at least `2^52`. -/
theorem exponent_spec (p q : Nat) (hp : 0 < p) (hq : 0 < q) :
    2 ^ 52 * (q * 2 ^ (Float64.exponent p q).toNat) ≤
      p * 2 ^ (-(Float64.exponent p q)).toNat := by
  have ha := bitLog_spec p p hp (le_refl p)
  have hb := bitLog_spec q q hq (le_refl q)
  unfold Float64.exponent
  dsimp only
  generalize bitLog p p = a at ha ⊢
  generalize bitLog q q = b at hb ⊢
  have hB : 0 < 2 ^ b := Nat.pow_pos (by decide)
  by_cases ht : q * 2 ^ a ≤ p * 2 ^ b
  · rw [if_pos ht]
    generalize hs : ((a : Int) - (b : Int) - 52).toNat = s
    generalize hu : (-((a : Int) - (b : Int) - 52)).toNat = u
    have hid : s + b + 52 = u + a := by omega
    have hpow : 2 ^ s * 2 ^ b * 2 ^ 52 = 2 ^ u * 2 ^ a := by
      rw [← pow_add, ← pow_add, ← pow_add, hid]
    apply Nat.le_of_mul_le_mul_right _ hB
    calc 2 ^ 52 * (q * 2 ^ s) * 2 ^ b = q * (2 ^ s * 2 ^ b * 2 ^ 52) := by ring
      _ = 2 ^ u * (q * 2 ^ a) := by rw [hpow]; ring
      _ ≤ 2 ^ u * (p * 2 ^ b) := Nat.mul_le_mul_left _ ht
      _ = p * 2 ^ u * 2 ^ b := by ring
  · rw [if_neg ht]
    generalize hs : ((a : Int) - (b : Int) - 1 - 52).toNat = s
    generalize hu : (-((a : Int) - (b : Int) - 1 - 52)).toNat = u
    have hid : s + b + 53 = u + a := by omega
    have hpow : 2 ^ s * 2 ^ b * 2 ^ 53 = 2 ^ u * 2 ^ a := by
      rw [← pow_add, ← pow_add, ← pow_add, hid]
    have hq2 : q ≤ 2 * 2 ^ b := by
      have := hb.2
      rw [pow_succ] at this
      omega
    apply Nat.le_of_mul_le_mul_right _ hB
    calc 2 ^ 52 * (q * 2 ^ s) * 2 ^ b = q * (2 ^ 52 * 2 ^ s * 2 ^ b) := by ring
      _ ≤ (2 * 2 ^ b) * (2 ^ 52 * 2 ^ s * 2 ^ b) := Nat.mul_le_mul_right _ hq2
      _ = (2 ^ s * 2 ^ b * 2 ^ 53) * 2 ^ b := by ring
      _ = 2 ^ u * 2 ^ a * 2 ^ b := by rw [hpow]
      _ ≤ 2 ^ u * p * 2 ^ b :=
        Nat.mul_le_mul_right _ (Nat.mul_le_mul_left _ ha.1)
      _ = p * 2 ^ u * 2 ^ b := by ring

/-- The rounded quotient is within one half of the exact one. -/
theorem roundDiv_spec (n d : Nat) (hd : 0 < d) :
    2 * n ≤ 2 * (Float64.roundDiv n d * d) + d ∧
      2 * (Float64.roundDiv n d * d) ≤ 2 * n + d := by
  have h1 := Nat.div_add_mod n d
  have h2 := Nat.mod_lt n hd
  unfold Float64.roundDiv
  dsimp only
  rw [Nat.mul_comm d (n / d)] at h1
  by_cases c1 : 2 * (n % d) < d
  · rw [if_pos c1]
    omega
  · rw [if_neg c1]
    by_cases c2 : d < 2 * (n % d)
    · rw [if_pos c2, Nat.add_mul]
      omega
    · rw [if_neg c2]
      by_cases c3 : n / d % 2 = 0
      · rw [if_pos c3]
        omega
      · rw [if_neg c3, Nat.add_mul]
        omega

/-- The rounded value of `p / q` is within the relative error `2^-53` of it. -/
theorem roundPos_spec (p q : Nat) (hp : 0 < p) (hq : 0 < q) :
    0 < (Float64.roundPos p q).2 ∧
      (2 ^ 53 - 1) * (p * (Float64.roundPos p q).2) ≤
        2 ^ 53 * ((Float64.roundPos p q).1 * q) ∧
      2 ^ 53 * ((Float64.roundPos p q).1 * q) ≤
        (2 ^ 53 + 1) * (p * (Float64.roundPos p q).2) := by
  have he := exponent_spec p q hp hq
  unfold Float64.roundPos
  dsimp only
  generalize Float64.exponent p q = e at he ⊢
  have hE1 : 0 < 2 ^ e.toNat := Nat.pow_pos (by decide)
  have hE2 : 0 < 2 ^ (-e).toNat := Nat.pow_pos (by decide)
  generalize 2 ^ e.toNat = E1 at he hE1 ⊢
  generalize 2 ^ (-e).toNat = E2 at he hE2 ⊢
  have hd : 0 < q * E1 := Nat.mul_pos hq hE1
  have hr := roundDiv_spec (p * E2) (q * E1) hd
  generalize Float64.roundDiv (p * E2) (q * E1) = m at hr ⊢
  have e1 : m * E1 * q = m * (q * E1) := by ring
  rw [e1]
  generalize m * (q * E1) = md at hr ⊢
  generalize p * E2 = n at he hr ⊢
  generalize q * E1 = d at he hr hd ⊢
  norm_num at he ⊢
  refine ⟨hE2, ?_, ?_⟩ <;> omega

theorem ofRatio_zero (q : Nat) : Float64.ofRatio 0 q = ⟨0, 1⟩ := by
  unfold Float64.ofRatio
  rw [if_pos rfl]

theorem ofRatio_den_pos (n : Int) (q : Nat) : 0 < (Float64.ofRatio n q).den := by
  unfold Float64.ofRatio
  split
  · decide
  · exact Nat.pow_pos (by decide)

theorem ofRatio_num_nonneg (n : Int) (q : Nat) (h : 0 ≤ n) : 0 ≤ (Float64.ofRatio n q).num := by
  unfold Float64.ofRatio
  split
  · exact le_refl _
  · dsimp only
    rw [if_neg (not_lt.2 h)]
    exact Int.ofNat_nonneg _

theorem ofRatio_num_nonpos (n : Int) (q : Nat) (h : n ≤ 0) : (Float64.ofRatio n q).num ≤ 0 := by
  unfold Float64.ofRatio
  split
  · exact le_refl _
  · rename_i hne
    dsimp only
    rw [if_pos (lt_of_le_of_ne h hne)]
    have := Int.ofNat_nonneg (Float64.roundPos n.natAbs q).1
    omega

/-- An operation whose exact result is `n / q ≥ 0` returns a value within the relative
error `2^-53` of it. -/
theorem ofRatio_toRat_bounds (n : Int) (q : Nat) (hn : 0 ≤ n) (hq : 0 < q) :
    ((n : ℚ) / (q : ℚ)) * (1 - 1 / 2 ^ 53) ≤ (Float64.ofRatio n q).toRat ∧
      (Float64.ofRatio n q).toRat ≤ ((n : ℚ) / (q : ℚ)) * (1 + 1 / 2 ^ 53) := by
  rcases eq_or_lt_of_le hn with h0 | hpos
  · rw [← h0, ofRatio_zero]
    simp [Float64.toRat]
  · have hne : n ≠ 0 := ne_of_gt hpos
    have hp : 0 < n.natAbs := Int.natAbs_pos.2 hne
    have hs := roundPos_spec n.natAbs q hp hq
    have hnat : ((n.natAbs : Nat) : Int) = n := Int.natAbs_of_nonneg hn
    unfold Float64.ofRatio Float64.toRat
    rw [if_neg hne]
    dsimp only
    rw [if_neg (not_lt.2 hn)]
    generalize (Float64.roundPos n.natAbs q).1 = N at hs ⊢
    generalize (Float64.roundPos n.natAbs q).2 = D at hs ⊢
    generalize n.natAbs = p at hs hnat hp
    subst hnat
    obtain ⟨hD, hlo, hhi⟩ := hs
    have hDq : (0 : ℚ) < (D : ℚ) := by exact_mod_cast hD
    have hqq : (0 : ℚ) < (q : ℚ) := by exact_mod_cast hq
    have hlo' : ((2 : ℚ) ^ 53 - 1) * ((p : ℚ) * (D : ℚ)) ≤ 2 ^ 53 * ((N : ℚ) * (q : ℚ)) := by
      have h1 : (((2 ^ 53 - 1) * (p * D) : Nat) : ℚ) ≤ ((2 ^ 53 * (N * q) : Nat) : ℚ) := by
        exact_mod_cast hlo
      push_cast at h1
      norm_num at h1 ⊢
      linarith
    have hhi' : (2 : ℚ) ^ 53 * ((N : ℚ) * (q : ℚ)) ≤ (2 ^ 53 + 1) * ((p : ℚ) * (D : ℚ)) := by
      have h1 : ((2 ^ 53 * (N * q) : Nat) : ℚ) ≤ (((2 ^ 53 + 1) * (p * D) : Nat) : ℚ) := by
        exact_mod_cast hhi
      push_cast at h1
      norm_num at h1 ⊢
      linarith
    simp only [Int.cast_natCast]
    constructor
    · rw [le_div_iff₀ hDq]
      have e : (p : ℚ) / (q : ℚ) * (1 - 1 / 2 ^ 53) * (D : ℚ) =
          ((2 ^ 53 - 1) * ((p : ℚ) * (D : ℚ))) / (2 ^ 53 * (q : ℚ)) := by
        field_simp
        ring
      rw [e, div_le_iff₀ (by positivity)]
      linarith
    · rw [div_le_iff₀ hDq]
      have e : (p : ℚ) / (q : ℚ) * (1 + 1 / 2 ^ 53) * (D : ℚ) =
          ((2 ^ 53 + 1) * ((p : ℚ) * (D : ℚ))) / (2 ^ 53 * (q : ℚ)) := by
        field_simp
        ring
      rw [e, le_div_iff₀ (by positivity)]
      linarith

/-! ## Accumulated rounding error -/

theorem approx_refl (x : ℚ) : Float64.approx 0 x x := by
  simp [Float64.approx]

theorem approx_nonneg (k : Nat) (y x : ℚ) (hx : 0 ≤ x) (h : Float64.approx k y x) : 0 ≤ y :=
  le_trans (mul_nonneg hx (pow_nonneg (by norm_num) k)) h.1

theorem approx_mono (k k2 : Nat) (y x : ℚ) (hk : k ≤ k2) (hx : 0 ≤ x)
    (h : Float64.approx k y x) : Float64.approx k2 y x := by
  have h1 : ((1 : ℚ) - 1 / 2 ^ 53) ^ k2 ≤ (1 - 1 / 2 ^ 53) ^ k :=
    pow_le_pow_of_le_one (by norm_num) (by norm_num) hk
  have h2 : ((1 : ℚ) + 1 / 2 ^ 53) ^ k ≤ (1 + 1 / 2 ^ 53) ^ k2 :=
    pow_le_pow_right₀ (by norm_num) hk
  exact ⟨le_trans (mul_le_mul_of_nonneg_left h1 hx) h.1,
    le_trans h.2 (mul_le_mul_of_nonneg_left h2 hx)⟩

theorem approx_add (k : Nat) (y1 x1 y2 x2 : ℚ)
    (h1 : Float64.approx k y1 x1) (h2 : Float64.approx k y2 x2) :
    Float64.approx k (y1 + y2) (x1 + x2) := by
  unfold Float64.approx at *
  constructor
  · rw [add_mul]; exact add_le_add h1.1 h2.1
  · rw [add_mul]; exact add_le_add h1.2 h2.2

theorem approx_mul (k1 k2 : Nat) (y1 x1 y2 x2 : ℚ) (hx1 : 0 ≤ x1) (hx2 : 0 ≤ x2)
    (h1 : Float64.approx k1 y1 x1) (h2 : Float64.approx k2 y2 x2) :
    Float64.approx (k1 + k2) (y1 * y2) (x1 * x2) := by
  have hy1 := approx_nonneg k1 y1 x1 hx1 h1
  have hy2 := approx_nonneg k2 y2 x2 hx2 h2
  unfold Float64.approx at *
  have hl2 : 0 ≤ x2 * ((1 : ℚ) - 1 / 2 ^ 53) ^ k2 :=
    mul_nonneg hx2 (pow_nonneg (by norm_num) k2)
  have hu1 : 0 ≤ x1 * ((1 : ℚ) + 1 / 2 ^ 53) ^ k1 :=
    mul_nonneg hx1 (pow_nonneg (by norm_num) k1)
  constructor
  · have := mul_le_mul h1.1 h2.1 hl2 hy1
    rw [pow_add]
    calc x1 * x2 * ((1 - 1 / 2 ^ 53) ^ k1 * (1 - 1 / 2 ^ 53) ^ k2)
        = x1 * (1 - 1 / 2 ^ 53) ^ k1 * (x2 * (1 - 1 / 2 ^ 53) ^ k2) := by ring
      _ ≤ y1 * y2 := this
  · have := mul_le_mul h1.2 h2.2 hy2 hu1
    rw [pow_add]
    calc y1 * y2 ≤ x1 * (1 + 1 / 2 ^ 53) ^ k1 * (x2 * (1 + 1 / 2 ^ 53) ^ k2) := this
      _ = x1 * x2 * ((1 + 1 / 2 ^ 53) ^ k1 * (1 + 1 / 2 ^ 53) ^ k2) := by ring

theorem approx_div (k : Nat) (y x c : ℚ) (hc : 0 < c) (h : Float64.approx k y x) :
    Float64.approx k (y / c) (x / c) := by
  unfold Float64.approx at *
  constructor
  · rw [div_mul_eq_mul_div]; exact div_le_div_of_nonneg_right h.1 (le_of_lt hc)
  · rw [div_mul_eq_mul_div]; exact div_le_div_of_nonneg_right h.2 (le_of_lt hc)

/-- Rounding adds one to the number of roundings. -/
theorem approx_ofRatio (k : Nat) (n : Int) (q : Nat) (x : ℚ) (hn : 0 ≤ n) (hq : 0 < q)
    (hx : 0 ≤ x) (h : Float64.approx k ((n : ℚ) / (q : ℚ)) x) :
    Float64.approx (k + 1) (Float64.ofRatio n q).toRat x := by
  have hb := ofRatio_toRat_bounds n q hn hq
  have hy := approx_nonneg k _ x hx h
  unfold Float64.approx at *
  constructor
  · rw [pow_succ, ← mul_assoc]
    exact le_trans (mul_le_mul_of_nonneg_right h.1 (by norm_num)) hb.1
  · rw [pow_succ, ← mul_assoc]
    exact le_trans hb.2 (mul_le_mul_of_nonneg_right h.2 (by norm_num))

/-- Five roundings stay within the relative error `2^-50`. -/
theorem approx_five (y x : ℚ) (hx : 0 ≤ x) (h : Float64.approx 5 y x) :
    x * (1 - 1 / 2 ^ 50) ≤ y ∧ y ≤ x * (1 + 1 / 2 ^ 50) := by
  unfold Float64.approx at h
  have h1 : ((1 : ℚ) - 1 / 2 ^ 50) ≤ (1 - 1 / 2 ^ 53) ^ 5 := by norm_num
  have h2 : ((1 : ℚ) + 1 / 2 ^ 53) ^ 5 ≤ 1 + 1 / 2 ^ 50 := by norm_num
  exact ⟨le_trans (mul_le_mul_of_nonneg_left h1 hx) h.1,
    le_trans h.2 (mul_le_mul_of_nonneg_left h2 hx)⟩

theorem ofInt_approx (n : Int) (hn : 0 ≤ n) :
    0 ≤ (Float64.ofInt n).num ∧ 0 < (Float64.ofInt n).den ∧
      Float64.approx 1 (Float64.ofInt n).toRat (n : ℚ) := by
  unfold Float64.ofInt
  refine ⟨ofRatio_num_nonneg n 1 hn, ofRatio_den_pos n 1, ?_⟩
  have h0 : Float64.approx 0 ((n : ℚ) / ((1 : Nat) : ℚ)) (n : ℚ) := by
    rw [Nat.cast_one, div_one]
    exact approx_refl _
  exact approx_ofRatio 0 n 1 (n : ℚ) hn (by decide) (by exact_mod_cast hn) h0

theorem div_approx (x : Float64) (k : Nat) (X : ℚ) (hx : 0 ≤ x.num) (hd : 0 < x.den)
    (hX : 0 ≤ X) (h : Float64.approx k x.toRat X) :
    0 ≤ (Float64.div x ⟨1000000000, 1⟩).num ∧ 0 < (Float64.div x ⟨1000000000, 1⟩).den ∧
      Float64.approx (k + 1) (Float64.div x ⟨1000000000, 1⟩).toRat (X / 1000000000) := by
  have hs : Int.sign 1000000000 = 1 := by decide
  have ha : Int.natAbs 1000000000 = 1000000000 := by decide
  unfold Float64.div
  dsimp only
  rw [hs, ha]
  have hn : 0 ≤ x.num * ((1 : Nat) : Int) * 1 := by
    simp only [Nat.cast_one, mul_one]; exact hx
  have hq : 0 < x.den * 1000000000 := by omega
  refine ⟨ofRatio_num_nonneg _ _ hn, ofRatio_den_pos _ _, ?_⟩
  apply approx_ofRatio k _ _ _ hn hq (div_nonneg hX (by norm_num))
  have e : (((x.num * ((1 : Nat) : Int) * 1 : Int) : ℚ)) / ((x.den * 1000000000 : Nat) : ℚ) =
      x.toRat / 1000000000 := by
    unfold Float64.toRat
    push_cast
    rw [mul_one, mul_one, div_div]
  rw [e]
  exact approx_div k _ _ _ (by norm_num) h

theorem add_approx (x y : Float64) (k : Nat) (X Y : ℚ) (hx : 0 ≤ x.num) (hxd : 0 < x.den)
    (hy : 0 ≤ y.num) (hyd : 0 < y.den)
    (h1 : Float64.approx k x.toRat X) (h2 : Float64.approx k y.toRat Y)
    (hX : 0 ≤ X) (hY : 0 ≤ Y) :
    0 ≤ (Float64.add x y).num ∧ 0 < (Float64.add x y).den ∧
      Float64.approx (k + 1) (Float64.add x y).toRat (X + Y) := by
  unfold Float64.add
  have hn : 0 ≤ x.num * (y.den : Int) + y.num * (x.den : Int) :=
    add_nonneg (mul_nonneg hx (Int.ofNat_nonneg _)) (mul_nonneg hy (Int.ofNat_nonneg _))
  have hq : 0 < x.den * y.den := Nat.mul_pos hxd hyd
  refine ⟨ofRatio_num_nonneg _ _ hn, ofRatio_den_pos _ _, ?_⟩
  apply approx_ofRatio k _ _ _ hn hq (add_nonneg hX hY)
  have hxq : ((x.den : Nat) : ℚ) ≠ 0 := by exact_mod_cast (ne_of_gt hxd)
  have hyq : ((y.den : Nat) : ℚ) ≠ 0 := by exact_mod_cast (ne_of_gt hyd)
  have e : ((x.num * (y.den : Int) + y.num * (x.den : Int) : Int) : ℚ) /
      ((x.den * y.den : Nat) : ℚ) = x.toRat + y.toRat := by
    unfold Float64.toRat
    push_cast
    field_simp
  rw [e]
  exact approx_add k _ _ _ _ h1 h2

theorem mul_approx (x y : Float64) (k1 k2 : Nat) (X Y : ℚ) (hx : 0 ≤ x.num) (hxd : 0 < x.den)
    (hy : 0 ≤ y.num) (hyd : 0 < y.den)
    (h1 : Float64.approx k1 x.toRat X) (h2 : Float64.approx k2 y.toRat Y)
    (hX : 0 ≤ X) (hY : 0 ≤ Y) :
    0 ≤ (Float64.mul x y).num ∧ 0 < (Float64.mul x y).den ∧
      Float64.approx (k1 + k2 + 1) (Float64.mul x y).toRat (X * Y) := by
  unfold Float64.mul
  have hn : 0 ≤ x.num * y.num := mul_nonneg hx hy
  have hq : 0 < x.den * y.den := Nat.mul_pos hxd hyd
  refine ⟨ofRatio_num_nonneg _ _ hn, ofRatio_den_pos _ _, ?_⟩
  apply approx_ofRatio (k1 + k2) _ _ _ hn hq (mul_nonneg hX hY)
  have hxq : ((x.den : Nat) : ℚ) ≠ 0 := by exact_mod_cast (ne_of_gt hxd)
  have hyq : ((y.den : Nat) : ℚ) ≠ 0 := by exact_mod_cast (ne_of_gt hyd)
  have e : ((x.num * y.num : Int) : ℚ) / ((x.den * y.den : Nat) : ℚ) = x.toRat * y.toRat := by
    unfold Float64.toRat
    push_cast
    field_simp
  rw [e]
  exact approx_mul k1 k2 _ _ _ _ hX hY h1 h2

/-- `d.Seconds()` of a duration that is not negative: three roundings from `d / 10^9`. -/
theorem Seconds_approx (d : Int) (hd : 0 ≤ d) :
    0 ≤ (Duration.Seconds d).num ∧ 0 < (Duration.Seconds d).den ∧
      Float64.approx 3 (Duration.Seconds d).toRat ((d : ℚ) / 1000000000) := by
  have hsec : Int.tdiv d Second = d / Second := Int.tdiv_eq_ediv hd (by decide)
  have hnsec : Int.tmod d Second = d % Second := Int.tmod_eq_emod hd (by decide)
  have hs0 : 0 ≤ d / Second := Int.ediv_nonneg hd (by decide)
  have hn0 : 0 ≤ d % Second := Int.emod_nonneg d (by decide)
  have hA := ofInt_approx (d / Second) hs0
  have hB := ofInt_approx (d % Second) hn0
  have hC := div_approx (Float64.ofInt (d % Second)) 1 ((d % Second : Int) : ℚ) hB.1 hB.2.1
    (by exact_mod_cast hn0) hB.2.2
  have hA2 := approx_mono 1 2 _ _ (by decide) (by exact_mod_cast hs0) hA.2.2
  have hD := add_approx _ _ 2 _ _ hA.1 hA.2.1 hC.1 hC.2.1 hA2 hC.2.2
    (by exact_mod_cast hs0) (div_nonneg (by exact_mod_cast hn0) (by norm_num))
  have hsum : ((d / Second : Int) : ℚ) + ((d % Second : Int) : ℚ) / 1000000000 =
      (d : ℚ) / 1000000000 := by
    have h3 : ((Second * (d / Second) + d % Second : Int) : ℚ) = (d : ℚ) := by
      rw [Int.ediv_add_emod]
    have hS : ((Second : Int) : ℚ) = 1000000000 := by unfold Second; norm_num
    push_cast at h3
    rw [hS] at h3
    rw [← h3]
    ring
  unfold Duration.Seconds
  dsimp only
  rw [hsec, hnsec, ← hsum]
  exact hD

/-- The product `elapsed * float64(rate)` for a duration and a rate that are not negative:
five roundings from `d * r / 10^9`. -/
theorem product_approx (d r : Int) (hd : 0 ≤ d) (hr : 0 ≤ r) :
    0 ≤ (Float64.mul (Duration.Seconds d) (Float64.ofInt r)).num ∧
      0 < (Float64.mul (Duration.Seconds d) (Float64.ofInt r)).den ∧
      ((d * r : Int) : ℚ) / 1000000000 * (1 - 1 / 2 ^ 50) ≤
        (Float64.mul (Duration.Seconds d) (Float64.ofInt r)).toRat ∧
      (Float64.mul (Duration.Seconds d) (Float64.ofInt r)).toRat ≤
        ((d * r : Int) : ℚ) / 1000000000 * (1 + 1 / 2 ^ 50) := by
  have hS := Seconds_approx d hd
  have hR := ofInt_approx r hr
  have hdq : (0 : ℚ) ≤ (d : ℚ) / 1000000000 := div_nonneg (by exact_mod_cast hd) (by norm_num)
  have hrq : (0 : ℚ) ≤ (r : ℚ) := by exact_mod_cast hr
  have hP := mul_approx _ _ 3 1 _ _ hS.1 hS.2.1 hR.1 hR.2.1 hS.2.2 hR.2.2 hdq hrq
  have e : (d : ℚ) / 1000000000 * (r : ℚ) = ((d * r : Int) : ℚ) / 1000000000 := by
    push_cast
    ring
  rw [e] at hP
  have h5 := approx_five _ _ (by rw [← e]; exact mul_nonneg hdq hrq) hP.2.2
  exact ⟨hP.1, hP.2.1, h5.1, h5.2⟩

/-! ## The conversion to `int` -/

theorem tdiv_of_nonpos (a : Int) (b : Nat) (h : a ≤ 0) : Int.tdiv a (b : Int) ≤ 0 := by
  have h1 : Int.tdiv a (b : Int) = -Int.tdiv (-a) (b : Int) := by
    rw [Int.neg_tdiv, neg_neg]
  have h2 : 0 ≤ Int.tdiv (-a) (b : Int) := Int.tdiv_nonneg (by omega) (Int.ofNat_nonneg b)
  omega

theorem toInt_of_num_nonpos (x : Float64) (h : x.num ≤ 0) : Float64.toInt x ≤ 0 := by
  have ht := tdiv_of_nonpos x.num x.den h
  unfold Float64.toInt
  dsimp only
  split
  · exact ht
  · decide

theorem toInt_of_nonneg (x : Float64) (h0 : 0 ≤ x.num)
    (hr : x.num / (x.den : Int) ≤ MaxInt64) : Float64.toInt x = x.num / (x.den : Int) := by
  have ht : Int.tdiv x.num (x.den : Int) = x.num / (x.den : Int) :=
    Int.tdiv_eq_ediv h0 (Int.ofNat_nonneg _)
  have hn : 0 ≤ x.num / (x.den : Int) := Int.ediv_nonneg h0 (Int.ofNat_nonneg _)
  unfold Float64.toInt
  dsimp only
  rw [ht, if_pos ⟨by unfold MinInt64; omega, hr⟩]

theorem ediv_lt_of_toRat_lt (x : Float64) (N : Int) (hd : 0 < x.den)
    (h : x.toRat < (N : ℚ)) : x.num / (x.den : Int) < N := by
  have hdq : (0 : ℚ) < ((x.den : Nat) : ℚ) := by exact_mod_cast hd
  unfold Float64.toRat at h
  rw [div_lt_iff₀ hdq] at h
  have h2 : x.num < N * (x.den : Int) := by exact_mod_cast h
  exact Int.ediv_lt_of_lt_mul (by exact_mod_cast hd) h2

theorem le_ediv_of_le_toRat (x : Float64) (c : Int) (hd : 0 < x.den)
    (h : (c : ℚ) ≤ x.toRat) : c ≤ x.num / (x.den : Int) := by
  have hdq : (0 : ℚ) < ((x.den : Nat) : ℚ) := by exact_mod_cast hd
  unfold Float64.toRat at h
  rw [le_div_iff₀ hdq] at h
  have h2 : c * (x.den : Int) ≤ x.num := by exact_mod_cast h
  exact Int.le_ediv_of_mul_le (by exact_mod_cast hd) h2

/-! ## The tokens to add -/

theorem Seconds_zero : Duration.Seconds 0 = ⟨0, 1⟩ := by decide

/-- With no time elapsed the product is zero, whatever the rate. -/
theorem product_zero (r : Int) :
    Float64.toInt (Float64.mul (Duration.Seconds 0) (Float64.ofInt r)) = 0 := by
  rw [Seconds_zero]
  unfold Float64.mul
  dsimp only
  rw [zero_mul, ofRatio_zero]
  decide

theorem Seconds_num_nonpos (d : Int) (hd : d ≤ 0) : (Duration.Seconds d).num ≤ 0 := by
  have hsec : Int.tdiv d Second ≤ 0 := by
    have := tdiv_of_nonpos d 1000000000 hd
    exact this
  have hnsec : Int.tmod d Second ≤ 0 := by
    have h1 : Int.tdiv d Second = -Int.tdiv (-d) Second := by rw [Int.neg_tdiv, neg_neg]
    have h2 : Int.tdiv (-d) Second = (-d) / Second := Int.tdiv_eq_ediv (by omega) (by decide)
    have h3 := Int.tdiv_add_tmod d Second
    rw [h1, h2] at h3
    unfold Second at h3 ⊢
    omega
  have hA := ofRatio_num_nonpos (Int.tdiv d Second) 1 hsec
  have hB := ofRatio_num_nonpos (Int.tmod d Second) 1 hnsec
  unfold Duration.Seconds Float64.add Float64.div Float64.ofInt
  dsimp only
  apply ofRatio_num_nonpos
  have hs : Int.sign 1000000000 = 1 := by decide
  rw [hs, mul_one]
  have hC := ofRatio_num_nonpos
    ((Float64.ofRatio (Int.tmod d Second) 1).num * ((1 : Nat) : Int))
    ((Float64.ofRatio (Int.tmod d Second) 1).den * Int.natAbs 1000000000)
    (by simp only [Nat.cast_one, mul_one]; exact hB)
  exact add_nonpos (mul_nonpos_of_nonpos_of_nonneg hA (Int.ofNat_nonneg _))
    (mul_nonpos_of_nonpos_of_nonneg hC (Int.ofNat_nonneg _))

/-- A duration that is not positive, at a rate that is not negative, gives no token. -/
theorem product_nonpos (d r : Int) (hd : d ≤ 0) (hr : 0 ≤ r) :
    Float64.toInt (Float64.mul (Duration.Seconds d) (Float64.ofInt r)) ≤ 0 := by
  apply toInt_of_num_nonpos
  unfold Float64.mul
  apply ofRatio_num_nonpos
  exact mul_nonpos_of_nonpos_of_nonneg (Seconds_num_nonpos d hd)
    (ofRatio_num_nonneg r 1 hr)

/-- Below `2^20` tokens the converted product is the exact quotient `d * r / 10^9` rounded
down, or one less; and it is the quotient rounded down when this is not a whole number. -/
theorem product_of_small (d r : Int) (hd : 0 ≤ d) (hr : 0 ≤ r)
    (hx : d * r < 1048576 * Second) :
    d * r / Second - 1 ≤ Float64.toInt (Float64.mul (Duration.Seconds d) (Float64.ofInt r)) ∧
      Float64.toInt (Float64.mul (Duration.Seconds d) (Float64.ofInt r)) ≤ d * r / Second ∧
      (d * r % Second ≠ 0 →
        Float64.toInt (Float64.mul (Duration.Seconds d) (Float64.ofInt r)) = d * r / Second) := by
  obtain ⟨h0, hden, hlo, hhi⟩ := product_approx d r hd hr
  have hX0 : 0 ≤ d * r := mul_nonneg hd hr
  generalize Float64.mul (Duration.Seconds d) (Float64.ofInt r) = P at h0 hden hlo hhi ⊢
  generalize d * r = X at hx hX0 hlo hhi ⊢
  unfold Second at hx ⊢
  have hdiv := Int.ediv_add_emod X 1000000000
  have hm0 := Int.emod_nonneg X (by decide : (1000000000 : Int) ≠ 0)
  have hm1 := Int.emod_lt_of_pos X (by decide : (0 : Int) < 1000000000)
  have hXq : (X : ℚ) = 1000000000 * ((X / 1000000000 : Int) : ℚ) + ((X % 1000000000 : Int) : ℚ) := by
    have : ((1000000000 * (X / 1000000000) + X % 1000000000 : Int) : ℚ) = (X : ℚ) := by
      rw [hdiv]
    push_cast at this
    linarith
  have hmq0 : (0 : ℚ) ≤ ((X % 1000000000 : Int) : ℚ) := by exact_mod_cast hm0
  have hmq1 : ((X % 1000000000 : Int) : ℚ) ≤ 999999999 := by
    have : X % 1000000000 ≤ 999999999 := by omega
    exact_mod_cast this
  have hXlt : (X : ℚ) < 1048576 * 1000000000 := by exact_mod_cast hx
  have hX0q : (0 : ℚ) ≤ (X : ℚ) := by exact_mod_cast hX0
  have hup : P.toRat < ((X / 1000000000 + 1 : Int) : ℚ) := by
    push_cast
    have e1 : (X : ℚ) / 1000000000 * (1 + 1 / 2 ^ 50) =
        (X : ℚ) / 1000000000 + (X : ℚ) / (1000000000 * 2 ^ 50) := by ring
    rw [e1] at hhi
    have e2 : (X : ℚ) / (1000000000 * 2 ^ 50) < 1 / 1000000000 := by
      rw [div_lt_iff₀ (by norm_num)]
      norm_num
      linarith
    have e3 : (X : ℚ) / 1000000000 ≤ ((X / 1000000000 : Int) : ℚ) + 999999999 / 1000000000 := by
      rw [div_le_iff₀ (by norm_num)]
      linarith
    linarith
  have hle : P.num / (P.den : Int) ≤ X / 1000000000 := by
    have := ediv_lt_of_toRat_lt P _ hden hup
    omega
  have hq20 : X / 1000000000 < 1048576 := by omega
  have hto : Float64.toInt P = P.num / (P.den : Int) :=
    toInt_of_nonneg P h0 (by unfold MaxInt64; omega)
  have hlow : ((X / 1000000000 - 1 : Int) : ℚ) ≤ P.toRat := by
    push_cast
    have e1 : (X : ℚ) / 1000000000 * (1 - 1 / 2 ^ 50) =
        (X : ℚ) / 1000000000 - (X : ℚ) / (1000000000 * 2 ^ 50) := by ring
    rw [e1] at hlo
    have e2 : (X : ℚ) / (1000000000 * 2 ^ 50) < 1 / 1000000000 := by
      rw [div_lt_iff₀ (by norm_num)]
      norm_num
      linarith
    have e3 : ((X / 1000000000 : Int) : ℚ) ≤ (X : ℚ) / 1000000000 := by
      rw [le_div_iff₀ (by norm_num)]
      linarith
    linarith
  have hge := le_ediv_of_le_toRat P _ hden hlow
  rw [hto]
  refine ⟨hge, hle, ?_⟩
  intro hne
  have hm1q : (1 : ℚ) ≤ ((X % 1000000000 : Int) : ℚ) := by
    have : 1 ≤ X % 1000000000 := by omega
    exact_mod_cast this
  have hlow2 : ((X / 1000000000 : Int) : ℚ) ≤ P.toRat := by
    have e1 : (X : ℚ) / 1000000000 * (1 - 1 / 2 ^ 50) =
        (X : ℚ) / 1000000000 - (X : ℚ) / (1000000000 * 2 ^ 50) := by ring
    rw [e1] at hlo
    have e2 : (X : ℚ) / (1000000000 * 2 ^ 50) < 1 / 1000000000 := by
      rw [div_lt_iff₀ (by norm_num)]
      norm_num
      linarith
    have e3 : ((X / 1000000000 : Int) : ℚ) + 1 / 1000000000 ≤ (X : ℚ) / 1000000000 := by
      rw [le_div_iff₀ (by norm_num)]
      linarith
    linarith
  have hge2 := le_ediv_of_le_toRat P _ hden hlow2
  omega

/-- At a rate of at most `2^28` the converted product stays below `2^62`. -/
theorem product_lt (d r : Int) (hd : 0 ≤ d) (hd2 : d ≤ MaxInt64) (hr : 0 ≤ r)
    (hr2 : r ≤ 268435456) :
    0 ≤ Float64.toInt (Float64.mul (Duration.Seconds d) (Float64.ofInt r)) ∧
      Float64.toInt (Float64.mul (Duration.Seconds d) (Float64.ofInt r)) <
        4611686018427387904 := by
  obtain ⟨h0, hden, _, hhi⟩ := product_approx d r hd hr
  have hX : d * r ≤ MaxInt64 * 268435456 := mul_le_mul hd2 hr2 hr (by decide)
  generalize Float64.mul (Duration.Seconds d) (Float64.ofInt r) = P at h0 hden hhi ⊢
  generalize d * r = X at hX hhi
  unfold MaxInt64 at hX
  have hXq : (X : ℚ) ≤ 9223372036854775807 * 268435456 := by exact_mod_cast hX
  have hup : P.toRat < ((4611686018427387904 : Int) : ℚ) := by
    push_cast
    have e1 : (X : ℚ) / 1000000000 * (1 + 1 / 2 ^ 50) ≤
        (9223372036854775807 * 268435456 : ℚ) / 1000000000 * (1 + 1 / 2 ^ 50) := by
      apply mul_le_mul_of_nonneg_right _ (by norm_num)
      exact div_le_div_of_nonneg_right hXq (by norm_num)
    have e2 : (9223372036854775807 * 268435456 : ℚ) / 1000000000 * (1 + 1 / 2 ^ 50) <
        4611686018427387904 := by norm_num
    linarith
  have hlt := ediv_lt_of_toRat_lt P _ hden hup
  have hto : Float64.toInt P = P.num / (P.den : Int) :=
    toInt_of_nonneg P h0 (by unfold MaxInt64; omega)
  rw [hto]
  exact ⟨Int.ediv_nonneg h0 (Int.ofNat_nonneg _), hlt⟩

/-- At a rate of at most `2^29`, a product worth more than `c` tokens (`c` at most `2^20`)
converts to at least `c`, and to an `int` well inside the range. -/
theorem product_ge (d r c : Int) (hd : 0 ≤ d) (hd2 : d ≤ MaxInt64) (hr : 0 ≤ r)
    (hr2 : r ≤ 536870912) (hc2 : c ≤ 1048576) (hx : c * Second + 1 ≤ d * r) :
    c ≤ Float64.toInt (Float64.mul (Duration.Seconds d) (Float64.ofInt r)) ∧
      Float64.toInt (Float64.mul (Duration.Seconds d) (Float64.ofInt r)) <
        6000000000000000000 := by
  obtain ⟨h0, hden, hlo, hhi⟩ := product_approx d r hd hr
  have hX : d * r ≤ MaxInt64 * 536870912 := mul_le_mul hd2 hr2 hr (by decide)
  generalize Float64.mul (Duration.Seconds d) (Float64.ofInt r) = P at h0 hden hlo hhi ⊢
  generalize d * r = X at hX hx hlo hhi
  unfold MaxInt64 at hX
  unfold Second at hx
  have hXq : (X : ℚ) ≤ 9223372036854775807 * 536870912 := by exact_mod_cast hX
  have hxq : (c : ℚ) * 1000000000 + 1 ≤ (X : ℚ) := by exact_mod_cast hx
  have hcq : (c : ℚ) ≤ 1048576 := by exact_mod_cast hc2
  have hup : P.toRat < ((6000000000000000000 : Int) : ℚ) := by
    push_cast
    have e1 : (X : ℚ) / 1000000000 * (1 + 1 / 2 ^ 50) ≤
        (9223372036854775807 * 536870912 : ℚ) / 1000000000 * (1 + 1 / 2 ^ 50) := by
      apply mul_le_mul_of_nonneg_right _ (by norm_num)
      exact div_le_div_of_nonneg_right hXq (by norm_num)
    have e2 : (9223372036854775807 * 536870912 : ℚ) / 1000000000 * (1 + 1 / 2 ^ 50) <
        6000000000000000000 := by norm_num
    linarith
  have hlt := ediv_lt_of_toRat_lt P _ hden hup
  have hto : Float64.toInt P = P.num / (P.den : Int) :=
    toInt_of_nonneg P h0 (by unfold MaxInt64; omega)
  have hlow : (c : ℚ) ≤ P.toRat := by
    have e1 : ((c : ℚ) * 1000000000 + 1) / 1000000000 * (1 - 1 / 2 ^ 50) ≤
        (X : ℚ) / 1000000000 * (1 - 1 / 2 ^ 50) := by
      apply mul_le_mul_of_nonneg_right _ (by norm_num)
      exact div_le_div_of_nonneg_right hxq (by norm_num)
    have e2 : (c : ℚ) ≤ ((c : ℚ) * 1000000000 + 1) / 1000000000 * (1 - 1 / 2 ^ 50) := by
      have e3 : ((c : ℚ) * 1000000000 + 1) / 1000000000 * (1 - 1 / 2 ^ 50) =
          (c : ℚ) + (1 / 1000000000 * (1 - 1 / 2 ^ 50) - (c : ℚ) / 2 ^ 50) := by ring
      rw [e3]
      have e4 : (c : ℚ) / 2 ^ 50 ≤ 1048576 / 2 ^ 50 :=
        div_le_div_of_nonneg_right hcq (by norm_num)
      have e5 : (1048576 : ℚ) / 2 ^ 50 ≤ 1 / 1000000000 * (1 - 1 / 2 ^ 50) := by norm_num
      linarith
    linarith
  have hge := le_ediv_of_le_toRat P c hden hlow
  rw [hto]
  exact ⟨hge, hlt⟩

/-! ## The clock difference and the tokens to add -/

theorem wrapInt64_of_inRange (x : Int) (h0 : -9223372036854775808 ≤ x)
    (h1 : x < 9223372036854775808) : wrapInt64 x = x := by
  unfold wrapInt64
  omega

theorem wrapInt64_bounds (x : Int) :
    MinInt64 ≤ wrapInt64 x ∧ wrapInt64 x ≤ MaxInt64 ∧ (MinInt64 ≤ x → wrapInt64 x ≤ x) := by
  unfold wrapInt64 MinInt64 MaxInt64
  omega

theorem Sub_self (t : Int) : Time.Sub t t = 0 := by
  unfold Time.Sub MaxInt64 MinInt64
  simp

theorem Sub_of_le (t u : Int) (h : t ≤ u) : Time.Sub t u ≤ 0 := by
  unfold Time.Sub MaxInt64 MinInt64
  split
  · omega
  · split <;> omega

theorem Sub_of_ge (t u : Int) (h : u ≤ t) :
    0 ≤ Time.Sub t u ∧ Time.Sub t u ≤ MaxInt64 ∧
      (t - u ≤ MaxInt64 → Time.Sub t u = t - u) ∧
      (MaxInt64 < t - u → Time.Sub t u = MaxInt64) := by
  unfold Time.Sub MaxInt64 MinInt64
  split
  · refine ⟨by omega, by omega, fun _ => by omega, fun _ => rfl⟩
  · split
    · omega
    · refine ⟨by omega, by omega, fun _ => rfl, fun _ => by omega⟩

theorem tokensToAdd_self (tb : TokenBucket) : tb.tokensToAdd tb.lastRefill = 0 := by
  unfold TokenBucket.tokensToAdd
  dsimp only
  rw [Sub_self]
  exact product_zero _

/-- A clock reading that is not later than `lastRefill` gives no token, at a rate that is
not negative. -/
theorem tokensToAdd_of_le (tb : TokenBucket) (now : Int) (hr : 0 ≤ tb.refillRate)
    (h : now ≤ tb.lastRefill) : tb.tokensToAdd now ≤ 0 :=
  product_nonpos _ _ (Sub_of_le now tb.lastRefill h) hr

/-- While the elapsed time is worth less than `2^20` tokens, `tokensToAdd` is the exact
product rounded down, or one less; and it is the product rounded down when this is not a
whole number of tokens. -/
theorem tokensToAdd_of_small (tb : TokenBucket) (now : Int) (hL : tb.lastRefill ≤ now)
    (hr : 0 ≤ tb.refillRate)
    (hx : (now - tb.lastRefill) * tb.refillRate < 1048576 * Second) :
    (now - tb.lastRefill) * tb.refillRate / Second - 1 ≤ tb.tokensToAdd now ∧
      tb.tokensToAdd now ≤ (now - tb.lastRefill) * tb.refillRate / Second ∧
      ((now - tb.lastRefill) * tb.refillRate % Second ≠ 0 →
        tb.tokensToAdd now = (now - tb.lastRefill) * tb.refillRate / Second) := by
  have hS := Sub_of_ge now tb.lastRefill hL
  unfold TokenBucket.tokensToAdd
  dsimp only
  rcases eq_or_lt_of_le hr with h0 | hpos
  · have h := product_of_small (Time.Sub now tb.lastRefill) 0 hS.1 (le_refl _)
      (by rw [mul_zero]; decide)
    rw [← h0]
    rw [mul_zero] at h ⊢
    exact h
  · have hd : now - tb.lastRefill ≤ MaxInt64 := by
      have h1 : (now - tb.lastRefill) * 1 ≤ (now - tb.lastRefill) * tb.refillRate :=
        mul_le_mul_of_nonneg_left (by omega) (by omega)
      unfold Second at hx
      unfold MaxInt64
      omega
    rw [hS.2.2.1 hd]
    exact product_of_small _ _ (by omega) hr hx

/-- At a rate between 0 and `2^28`, `tokensToAdd` stays below `2^62`. -/
theorem tokensToAdd_lt (tb : TokenBucket) (now : Int) (hr : 0 ≤ tb.refillRate)
    (hr2 : tb.refillRate ≤ 268435456) : tb.tokensToAdd now < 4611686018427387904 := by
  rcases le_or_lt now tb.lastRefill with h | h
  · have := tokensToAdd_of_le tb now hr h
    omega
  · have hS := Sub_of_ge now tb.lastRefill (le_of_lt h)
    exact (product_lt _ _ hS.1 hS.2.1 hr hr2).2

/-- At a rate between 1 and `2^29`, an elapsed time worth more than `c` tokens (`c` at most
`2^20`) gives at least `c` tokens, and fewer than `6 * 10^18`. -/
theorem tokensToAdd_ge (tb : TokenBucket) (now c : Int) (hL : tb.lastRefill ≤ now)
    (hr : 1 ≤ tb.refillRate) (hr2 : tb.refillRate ≤ 536870912) (hc2 : c ≤ 1048576)
    (hx : c * Second + 1 ≤ (now - tb.lastRefill) * tb.refillRate) :
    c ≤ tb.tokensToAdd now ∧ tb.tokensToAdd now < 6000000000000000000 := by
  have hS := Sub_of_ge now tb.lastRefill hL
  unfold TokenBucket.tokensToAdd
  dsimp only
  apply product_ge _ _ c hS.1 hS.2.1 (by omega) hr2 hc2
  rcases le_or_lt (now - tb.lastRefill) MaxInt64 with h | h
  · rw [hS.2.2.1 h]
    exact hx
  · rw [hS.2.2.2 h]
    have h1 : MaxInt64 * 1 ≤ MaxInt64 * tb.refillRate :=
      mul_le_mul_of_nonneg_left hr (by decide)
    unfold MaxInt64 at h1 ⊢
    unfold Second
    omega

/-! ## One call -/

theorem refill_capacity (tb : TokenBucket) (now : Int) :
    (tb.refill now).capacity = tb.capacity := by
  unfold TokenBucket.refill
  dsimp only
  split <;> rfl

theorem refill_refillRate (tb : TokenBucket) (now : Int) :
    (tb.refill now).refillRate = tb.refillRate := by
  unfold TokenBucket.refill
  dsimp only
  split <;> rfl

theorem refill_of_not_pos (tb : TokenBucket) (now : Int) (h : ¬ 0 < tb.tokensToAdd now) :
    tb.refill now = tb := by
  unfold TokenBucket.refill
  dsimp only
  rw [if_neg (by simpa using h)]

theorem refill_of_pos (tb : TokenBucket) (now : Int) (h : 0 < tb.tokensToAdd now) :
    tb.refill now =
      { tb with
        tokens := if wrapInt64 (tb.tokens + tb.tokensToAdd now) > tb.capacity then tb.capacity
                  else wrapInt64 (tb.tokens + tb.tokensToAdd now)
        lastRefill := now } := by
  unfold TokenBucket.refill
  dsimp only
  rw [if_pos (by simpa using h)]

/-- The refill block when the sum `tb.tokens + tokensToAdd` is an `int64`. -/
theorem refill_of_pos_inRange (tb : TokenBucket) (now : Int) (h : 0 < tb.tokensToAdd now)
    (hlo : MinInt64 ≤ tb.tokens + tb.tokensToAdd now)
    (hhi : tb.tokens + tb.tokensToAdd now ≤ MaxInt64) :
    tb.refill now =
      { tb with
        tokens := if tb.tokens + tb.tokensToAdd now > tb.capacity then tb.capacity
                  else tb.tokens + tb.tokensToAdd now
        lastRefill := now } := by
  have hw : wrapInt64 (tb.tokens + tb.tokensToAdd now) = tb.tokens + tb.tokensToAdd now :=
    wrapInt64_of_inRange _ (by unfold MinInt64 at hlo; omega) (by unfold MaxInt64 at hhi; omega)
  rw [refill_of_pos tb now h, hw]

theorem Allow_capacity (tb : TokenBucket) (now : Int) :
    (tb.Allow now).2.capacity = tb.capacity := by
  unfold TokenBucket.Allow
  dsimp only
  split <;> simp [refill_capacity]

theorem Allow_refillRate (tb : TokenBucket) (now : Int) :
    (tb.Allow now).2.refillRate = tb.refillRate := by
  unfold TokenBucket.Allow
  dsimp only
  split <;> simp [refill_refillRate]

theorem Allow_of_pos (tb : TokenBucket) (now : Int) (h : 0 < (tb.refill now).tokens) :
    tb.Allow now = (true, { tb.refill now with tokens := (tb.refill now).tokens - 1 }) := by
  unfold TokenBucket.Allow
  dsimp only
  rw [if_pos (by simpa using h)]

theorem Allow_of_not_pos (tb : TokenBucket) (now : Int) (h : ¬ 0 < (tb.refill now).tokens) :
    tb.Allow now = (false, tb.refill now) := by
  unfold TokenBucket.Allow
  dsimp only
  rw [if_neg (by simpa using h)]

theorem run_cons_fst (tb : TokenBucket) (now : Int) (rest : List Int) :
    (tb.run (now :: rest)).1 = (tb.Allow now).1 :: ((tb.Allow now).2.run rest).1 := rfl

theorem run_cons_snd (tb : TokenBucket) (now : Int) (rest : List Int) :
    (tb.run (now :: rest)).2 = ((tb.Allow now).2.run rest).2 := rfl

theorem run_capacity (times : List Int) :
    ∀ tb : TokenBucket, (tb.run times).2.capacity = tb.capacity := by
  induction times with
  | nil => intro tb; rfl
  | cons now rest ih =>
    intro tb
    simp only [TokenBucket.run]
    rw [ih, Allow_capacity]

theorem run_refillRate (times : List Int) :
    ∀ tb : TokenBucket, (tb.run times).2.refillRate = tb.refillRate := by
  induction times with
  | nil => intro tb; rfl
  | cons now rest ih =>
    intro tb
    simp only [TokenBucket.run]
    rw [ih, Allow_refillRate]

/-- The refill block keeps `0 ≤ tokens ≤ capacity` and lowers no token count, as long as
the capacity is at most `2^62` and the tokens to add are fewer than `2^62`, so that the
sum does not wrap around. -/
theorem refill_tokens_bounds (tb : TokenBucket) (now : Int)
    (h0 : 0 ≤ tb.tokens) (h1 : tb.tokens ≤ tb.capacity)
    (hc : tb.capacity ≤ 4611686018427387904)
    (hF : tb.tokensToAdd now < 4611686018427387904) :
    0 ≤ (tb.refill now).tokens ∧ (tb.refill now).tokens ≤ tb.capacity ∧
      tb.tokens ≤ (tb.refill now).tokens := by
  by_cases h : 0 < tb.tokensToAdd now
  · rw [refill_of_pos_inRange tb now h (by unfold MinInt64; omega) (by unfold MaxInt64; omega)]
    dsimp only
    split <;> omega
  · rw [refill_of_not_pos tb now h]
    exact ⟨h0, h1, le_refl _⟩

/-- One call keeps `0 ≤ tokens ≤ capacity`, and leaves the bucket short of full. -/
theorem Allow_tokens_bounds (tb : TokenBucket) (now : Int)
    (h0 : 0 ≤ tb.tokens) (h1 : tb.tokens ≤ tb.capacity)
    (hc : tb.capacity ≤ 4611686018427387904)
    (hF : tb.tokensToAdd now < 4611686018427387904) :
    0 ≤ (tb.Allow now).2.tokens ∧ (tb.Allow now).2.tokens ≤ tb.capacity ∧
      (1 ≤ tb.capacity → (tb.Allow now).2.tokens ≤ tb.capacity - 1) := by
  have hb := refill_tokens_bounds tb now h0 h1 hc hF
  by_cases h : 0 < (tb.refill now).tokens
  · rw [Allow_of_pos tb now h]
    dsimp only
    omega
  · rw [Allow_of_not_pos tb now h]
    dsimp only
    omega

/-- A run of calls keeps `0 ≤ tokens ≤ capacity`, for a capacity of at most `2^62` and a
refill rate between 0 and `2^28`. -/
theorem run_tokens_bounds (times : List Int) :
    ∀ tb : TokenBucket, 0 ≤ tb.tokens → tb.tokens ≤ tb.capacity →
      tb.capacity ≤ 4611686018427387904 → 0 ≤ tb.refillRate → tb.refillRate ≤ 268435456 →
      0 ≤ (tb.run times).2.tokens ∧ (tb.run times).2.tokens ≤ tb.capacity := by
  induction times with
  | nil => intro tb h0 h1 _ _ _; exact ⟨h0, h1⟩
  | cons now rest ih =>
    intro tb h0 h1 hc hr hr2
    have hb := Allow_tokens_bounds tb now h0 h1 hc (tokensToAdd_lt tb now hr hr2)
    have hcap := Allow_capacity tb now
    have hrate := Allow_refillRate tb now
    have := ih (tb.Allow now).2 hb.1 (by omega) (by omega) (by omega) (by omega)
    simp only [TokenBucket.run]
    omega

/-- C2. Bucket capacity cap.  On a bucket built by `NewTokenBucket` with a capacity between
1 and `2^62` and a refill rate between 1 and `2^28`, after construction and after each call of
any finite sequence of `Allow` calls at arbitrary clock readings, `0 ≤ tokens ≤ capacity` (the
state after the first `n` calls is the state after the run of `times.take n`).  For larger
settings the `int` sum `tb.tokens += tokensToAdd` wraps around: the bucket built with the
capacity `2^63 - 1` and rate 1 and called one second later is left with `-2^63` tokens. -/
theorem C2_tokens_within_capacity :
    (∀ (capacity refillRate t0 : Int) (times : List Int) (n : Nat),
        1 ≤ capacity → capacity ≤ 4611686018427387904 →
        1 ≤ refillRate → refillRate ≤ 268435456 →
        0 ≤ ((NewTokenBucket capacity refillRate t0).run (times.take n)).2.tokens ∧
          ((NewTokenBucket capacity refillRate t0).run (times.take n)).2.tokens ≤ capacity) ∧
      TokenBucket.tokensToAdd (NewTokenBucket 9223372036854775807 1 0) 1000000000 = 1 ∧
      ((NewTokenBucket 9223372036854775807 1 0).run [1000000000]).2.tokens =
        -9223372036854775808 := by
  refine ⟨?_, by decide, by decide⟩
  intro capacity refillRate t0 times n hc hc2 hr hr2
  have h := run_tokens_bounds (times.take n) (NewTokenBucket capacity refillRate t0)
    (by simp only [NewTokenBucket]; omega) (by simp only [NewTokenBucket]; omega)
    (by simp only [NewTokenBucket]; omega) (by simp only [NewTokenBucket]; omega)
    (by simp only [NewTokenBucket]; omega)
  simpa [NewTokenBucket] using h

theorem C2_tokens_within_capacity_witness :
    0 ≤ ((NewTokenBucket 3 1 0).run
        ([0, 0, 0, 0, 1100000000, 1100000000].take 5)).2.tokens ∧
      ((NewTokenBucket 3 1 0).run
        ([0, 0, 0, 0, 1100000000, 1100000000].take 5)).2.tokens ≤ 3 :=
  C2_tokens_within_capacity.1 3 1 0 [0, 0, 0, 0, 1100000000, 1100000000] 5 (by decide)
    (by decide) (by decide) (by decide)

/-- The reference step and the code agree whenever they add the same number of tokens and
the sum is an `int64`. -/
theorem Allow_eq_allowSpec (tb : TokenBucket) (now : Int)
    (hF : tb.tokensToAdd now = (now - tb.lastRefill) * tb.refillRate / Second)
    (hlo : MinInt64 ≤ tb.tokens)
    (hhi : tb.tokens + (now - tb.lastRefill) * tb.refillRate / Second ≤ MaxInt64) :
    tb.Allow now = allowSpec tb now := by
  by_cases h : 0 < tb.tokensToAdd now
  · have hs : 0 < ((now - tb.lastRefill) * tb.refillRate) / Second := by rw [← hF]; exact h
    unfold TokenBucket.Allow allowSpec
    rw [refill_of_pos_inRange tb now h (by omega) (by rw [hF]; exact hhi), hF]
    simp only [gt_iff_lt, hs, if_true]
    rcases lt_or_le tb.capacity (tb.tokens + ((now - tb.lastRefill) * tb.refillRate) / Second)
      with hlt | hle
    · rw [if_pos hlt, min_eq_left (le_of_lt hlt)]
    · rw [if_neg (not_lt.2 hle), min_eq_right hle]
  · have hs : ¬ 0 < ((now - tb.lastRefill) * tb.refillRate) / Second := by rw [← hF]; exact h
    unfold TokenBucket.Allow allowSpec
    rw [refill_of_not_pos tb now h]
    simp only [gt_iff_lt, hs, if_false]

/-- C3 (as amended). One `Allow` call is the reference step of the specification (`floor`,
`min`, conditional advance of `lastRefill`, decrement by one) whenever the tokens that the
code adds, `int(elapsed * float64(refillRate))` computed in `float64`, are the `floor` of the
exact product and the sum with the tokens held is an `int64`.  At a rate that is not negative
this is so for every clock reading earlier than `lastRefill` (nothing is added), and, while
the elapsed time is worth less than `2^20` tokens, whenever the exact product is not a whole
number; when it is a whole number the code adds that number or one less.  On the bucket of
capacity 2 and rate 2 that was emptied at time 0, the call 0.6 s later adds one token and is
allowed, and the next call is denied. -/
theorem C3_allow_refines_spec :
    (∀ (tb : TokenBucket) (now : Int),
        tb.tokensToAdd now = (now - tb.lastRefill) * tb.refillRate / Second →
        MinInt64 ≤ tb.tokens →
        tb.tokens + (now - tb.lastRefill) * tb.refillRate / Second ≤ MaxInt64 →
        tb.Allow now = allowSpec tb now) ∧
      (∀ (tb : TokenBucket) (now : Int), 0 ≤ tb.refillRate → now < tb.lastRefill →
        tb.Allow now = allowSpec tb now) ∧
      (∀ (tb : TokenBucket) (now : Int), 0 ≤ tb.refillRate → tb.lastRefill ≤ now →
        (now - tb.lastRefill) * tb.refillRate < 1048576 * Second →
        (tb.tokensToAdd now = (now - tb.lastRefill) * tb.refillRate / Second ∨
          tb.tokensToAdd now = (now - tb.lastRefill) * tb.refillRate / Second - 1) ∧
        ((now - tb.lastRefill) * tb.refillRate % Second ≠ 0 →
          tb.tokensToAdd now = (now - tb.lastRefill) * tb.refillRate / Second)) ∧
      TokenBucket.tokensToAdd ⟨2, 0, 2, 0⟩ 600000000 = 1 ∧
      (TokenBucket.run ⟨2, 0, 2, 0⟩ [600000000, 600000000]).1 = [true, false] := by
  refine ⟨Allow_eq_allowSpec, ?_, ?_, by decide, by decide⟩
  · intro tb now hr hlt
    have hF := tokensToAdd_of_le tb now hr (le_of_lt hlt)
    have hX : (now - tb.lastRefill) * tb.refillRate ≤ 0 :=
      mul_nonpos_of_nonpos_of_nonneg (by omega) hr
    have hs : ¬ 0 < ((now - tb.lastRefill) * tb.refillRate) / Second := by
      unfold Second
      omega
    unfold TokenBucket.Allow allowSpec
    rw [refill_of_not_pos tb now (by omega)]
    simp only [gt_iff_lt, hs, if_false]
  · intro tb now hr hL hx
    have h := tokensToAdd_of_small tb now hL hr hx
    refine ⟨?_, h.2.2⟩
    omega

theorem C3_allow_refines_spec_witness :
    TokenBucket.Allow ⟨5, 1, 2, 0⟩ 1700000000 = allowSpec ⟨5, 1, 2, 0⟩ 1700000000 :=
  C3_allow_refines_spec.1 ⟨5, 1, 2, 0⟩ 1700000000 (by decide) (by decide) (by decide)

/-- C3 (counterexample). On the empty bucket of capacity 100 and rate 100 last refilled at
instant 0, the call 0.29 s later adds 28 tokens and leaves 27, where the reference step adds
`floor(0.29 × 100) = 29` and leaves 28: in `float64` the product `0.29 * 100` is below 29. -/
theorem C3_counterexample :
    TokenBucket.tokensToAdd ⟨100, 0, 100, 0⟩ 290000000 = 28 ∧
      (290000000 - 0) * 100 / Second = 29 ∧
      TokenBucket.Allow ⟨100, 0, 100, 0⟩ 290000000 = (true, ⟨100, 27, 100, 290000000⟩) ∧
      allowSpec ⟨100, 0, 100, 0⟩ 290000000 = (true, ⟨100, 28, 100, 290000000⟩) ∧
      TokenBucket.Allow ⟨100, 0, 100, 0⟩ 290000000 ≠ allowSpec ⟨100, 0, 100, 0⟩ 290000000 := by
  refine ⟨by decide, by decide, by decide, by decide, by decide⟩

/-- A bucket holding at least as many tokens as there are calls allows them all. -/
theorem run_all_true (times : List Int) :
    ∀ tb : TokenBucket, (times.length : Int) ≤ tb.tokens → tb.tokens ≤ tb.capacity →
      tb.capacity ≤ 4611686018427387904 → 0 ≤ tb.refillRate → tb.refillRate ≤ 268435456 →
      (tb.run times).1 = List.replicate times.length true := by
  induction times with
  | nil => intro tb _ _ _ _ _; rfl
  | cons now rest ih =>
    intro tb hlen hcap hc hr hr2
    simp only [List.length_cons, Nat.cast_add, Nat.cast_one] at hlen
    have hb := refill_tokens_bounds tb now (by omega) hcap hc (tokensToAdd_lt tb now hr hr2)
    have hpos : 0 < (tb.refill now).tokens := by omega
    have hA := Allow_of_pos tb now hpos
    have hrest := ih (tb.Allow now).2
      (by rw [hA]; dsimp only; omega)
      (by rw [hA]; dsimp only; rw [refill_capacity]; omega)
      (by rw [Allow_capacity]; exact hc)
      (by rw [Allow_refillRate]; exact hr)
      (by rw [Allow_refillRate]; exact hr2)
    simp only [TokenBucket.run, List.length_cons, List.replicate_succ]
    rw [hrest, hA]

/-- With no time elapsed, a bucket holding `n` tokens allows `n` calls and denies the next. -/
theorem run_at_lastRefill (n : Nat) :
    ∀ tb : TokenBucket, tb.tokens = n →
      (tb.run (List.replicate (n + 1) tb.lastRefill)).1 = List.replicate n true ++ [false] := by
  induction n with
  | zero =>
    intro tb h
    have hr : tb.refill tb.lastRefill = tb :=
      refill_of_not_pos tb _ (by rw [tokensToAdd_self]; decide)
    have hA := Allow_of_not_pos tb tb.lastRefill (by rw [hr, h]; decide)
    simp only [List.replicate, TokenBucket.run, hA, List.nil_append]
  | succ n ih =>
    intro tb h
    have hr : tb.refill tb.lastRefill = tb :=
      refill_of_not_pos tb _ (by rw [tokensToAdd_self]; decide)
    have hA := Allow_of_pos tb tb.lastRefill (by rw [hr, h]; push_cast; omega)
    rw [hr] at hA
    have hrest := ih { tb with tokens := tb.tokens - 1 } (by dsimp only; rw [h]; push_cast; omega)
    dsimp only at hrest
    rw [List.replicate_succ (n := n + 1), run_cons_fst, hA]
    dsimp only
    rw [hrest, List.replicate_succ, List.cons_append]

/-- C4. Fresh bucket starts full.  On a bucket just built by `NewTokenBucket` with a capacity
between 1 and `2^62` and a refill rate between 1 and `2^28`, `capacity` calls of `Allow` at any
clock readings (so in particular at non-decreasing ones) all return true; for every capacity
of at least one and every rate, when all of `capacity + 1` calls read the construction instant
the first `capacity` return true and the last one false; for capacity 3 and rate 1 the four
immediate calls give `[true, true, true, false]`.  For larger settings the `int` sum
`tb.tokens += tokensToAdd` wraps around: the bucket built with capacity `2^63 - 1` and rate 1
denies its first call, made one second later. -/
theorem C4_fresh_bucket_starts_full :
    (∀ (capacity refillRate t0 : Int) (times : List Int),
        1 ≤ capacity → capacity ≤ 4611686018427387904 →
        1 ≤ refillRate → refillRate ≤ 268435456 →
        (times.length : Int) = capacity →
        ((NewTokenBucket capacity refillRate t0).run times).1 =
          List.replicate times.length true) ∧
      (∀ (capacity refillRate t0 : Int), 1 ≤ capacity →
        ((NewTokenBucket capacity refillRate t0).run
            (List.replicate (capacity.toNat + 1) t0)).1 =
          List.replicate capacity.toNat true ++ [false]) ∧
      ((NewTokenBucket 3 1 0).run [0, 0, 0, 0]).1 = [true, true, true, false] ∧
      ((NewTokenBucket 9223372036854775807 1 0).run [1000000000]).1 = [false] := by
  refine ⟨?_, ?_, by decide, by decide⟩
  · intro capacity refillRate t0 times hc hc2 hr hr2 hlen
    exact run_all_true times (NewTokenBucket capacity refillRate t0)
      (by simp only [NewTokenBucket]; omega) (by simp only [NewTokenBucket]; omega)
      (by simp only [NewTokenBucket]; omega) (by simp only [NewTokenBucket]; omega)
      (by simp only [NewTokenBucket]; omega)
  · intro capacity refillRate t0 hc
    have h := run_at_lastRefill capacity.toNat (NewTokenBucket capacity refillRate t0)
      (by simp only [NewTokenBucket]; omega)
    simpa [NewTokenBucket] using h

theorem C4_fresh_bucket_starts_full_witness :
    ((NewTokenBucket 2 5 7).run [7, 9]).1 = List.replicate [7, 9].length true ∧
      ((NewTokenBucket 2 5 7).run (List.replicate ((2 : Int).toNat + 1) 7)).1 =
        List.replicate (2 : Int).toNat true ++ [false] :=
  ⟨C4_fresh_bucket_starts_full.1 2 5 7 [7, 9] (by decide) (by decide) (by decide) (by decide)
      (by decide),
    C4_fresh_bucket_starts_full.2.1 2 5 7 (by decide)⟩

/-- A denied call on a bucket with room and no token debt, when the sum of the refill block
does not overflow: no refill happened, the bucket held no token, and it is left as it was. -/
theorem Allow_denied (tb : TokenBucket) (now : Int)
    (hc : 1 ≤ tb.capacity) (h0 : 0 ≤ tb.tokens)
    (hno : tb.tokens + tb.tokensToAdd now ≤ MaxInt64) (hd : (tb.Allow now).1 = false) :
    (tb.Allow now).2 = tb ∧ tb.tokens = 0 := by
  have hnp : ¬ 0 < (tb.refill now).tokens := by
    intro hp
    rw [Allow_of_pos tb now hp] at hd
    exact Bool.noConfusion hd
  have hnr : ¬ 0 < tb.tokensToAdd now := by
    intro hp
    apply hnp
    rw [refill_of_pos_inRange tb now hp (by unfold MinInt64; omega) hno]
    dsimp only
    split <;> omega
  have hr := refill_of_not_pos tb now hnr
  have hA := Allow_of_not_pos tb now hnp
  rw [hr] at hA hnp
  rw [hA]
  exact ⟨rfl, by omega⟩

/-- C5. A denied request consumes nothing.  On a bucket with a capacity of at least one
whose token count is not negative, if `Allow` returns false and the sum of its refill block
did not overflow the `int`, then the bucket held 0 tokens and is left exactly as it was
(tokens, `lastRefill` and the two constants); so it is on every bucket that `NewTokenBucket`
with a capacity between 1 and `2^62` and a rate between 1 and `2^28` and any run of `Allow`
calls produce.  When the sum overflows, the denied call changes the bucket: built with
capacity `2^63 - 1` and rate 1 and called one second later, the bucket is left with `-2^63`
tokens and its `lastRefill` moved. -/
theorem C5_denied_consumes_nothing :
    (∀ (tb : TokenBucket) (now : Int), 1 ≤ tb.capacity → 0 ≤ tb.tokens →
        tb.tokens + tb.tokensToAdd now ≤ MaxInt64 →
        (tb.Allow now).1 = false →
        tb.tokens = 0 ∧ (tb.Allow now).2.tokens = tb.tokens ∧
          (tb.Allow now).2.lastRefill = tb.lastRefill ∧ (tb.Allow now).2 = tb) ∧
      (∀ (capacity refillRate t0 : Int) (times : List Int) (now : Int),
        1 ≤ capacity → capacity ≤ 4611686018427387904 →
        1 ≤ refillRate → refillRate ≤ 268435456 →
        (((NewTokenBucket capacity refillRate t0).run times).2.Allow now).1 = false →
        ((NewTokenBucket capacity refillRate t0).run times).2.tokens = 0 ∧
          (((NewTokenBucket capacity refillRate t0).run times).2.Allow now).2 =
            ((NewTokenBucket capacity refillRate t0).run times).2) ∧
      TokenBucket.Allow (NewTokenBucket 9223372036854775807 1 0) 1000000000 =
        (false, ⟨9223372036854775807, -9223372036854775808, 1, 1000000000⟩) := by
  refine ⟨?_, ?_, by decide⟩
  · intro tb now hc h0 hno hd
    have h := Allow_denied tb now hc h0 hno hd
    rw [h.1]
    exact ⟨h.2, rfl, rfl, rfl⟩
  · intro capacity refillRate t0 times now hc hc2 hr hr2 hd
    have hb := run_tokens_bounds times (NewTokenBucket capacity refillRate t0)
      (by simp only [NewTokenBucket]; omega) (le_refl _)
      (by simp only [NewTokenBucket]; omega) (by simp only [NewTokenBucket]; omega)
      (by simp only [NewTokenBucket]; omega)
    have hcap := run_capacity times (NewTokenBucket capacity refillRate t0)
    have hrate := run_refillRate times (NewTokenBucket capacity refillRate t0)
    have hF := tokensToAdd_lt ((NewTokenBucket capacity refillRate t0).run times).2 now
      (by rw [hrate]; simp only [NewTokenBucket]; omega)
      (by rw [hrate]; simp only [NewTokenBucket]; omega)
    have h := Allow_denied ((NewTokenBucket capacity refillRate t0).run times).2 now
      (by rw [hcap]; exact hc) hb.1
      (by
        have h2 : ((NewTokenBucket capacity refillRate t0).run times).2.tokens ≤ capacity :=
          hb.2
        unfold MaxInt64
        omega) hd
    exact ⟨h.2, h.1⟩

theorem C5_denied_consumes_nothing_witness :
    (0 : Int) = 0 ∧ (TokenBucket.Allow ⟨3, 0, 1, 0⟩ 400000000).2.tokens = 0 ∧
      (TokenBucket.Allow ⟨3, 0, 1, 0⟩ 400000000).2.lastRefill = 0 ∧
      (TokenBucket.Allow ⟨3, 0, 1, 0⟩ 400000000).2 = ⟨3, 0, 1, 0⟩ :=
  C5_denied_consumes_nothing.1 ⟨3, 0, 1, 0⟩ 400000000 (by decide) (by decide) (by decide)
    (by decide)

/-- C6 (as amended). Clock regression is treated as zero elapsed time on a bucket whose
refill rate is not negative: a call of `Allow` at a clock reading earlier than `lastRefill`
returns the same flag and leaves the same bucket as a call at `lastRefill` itself; its refill
block changes nothing, so no token is added and `lastRefill` does not move. -/
theorem C6_clock_regression_is_zero_elapsed (tb : TokenBucket) (now : Int)
    (hr : 0 ≤ tb.refillRate) (hlt : now < tb.lastRefill) :
    tb.Allow now = tb.Allow tb.lastRefill ∧ tb.refill now = tb ∧
      (tb.Allow now).2.lastRefill = tb.lastRefill := by
  have hnr : ¬ 0 < tb.tokensToAdd now := by
    have := tokensToAdd_of_le tb now hr (le_of_lt hlt)
    omega
  have h1 := refill_of_not_pos tb now hnr
  have h2 : tb.refill tb.lastRefill = tb :=
    refill_of_not_pos tb _ (by rw [tokensToAdd_self]; decide)
  have hAA : tb.Allow now = tb.Allow tb.lastRefill := by
    unfold TokenBucket.Allow
    rw [h1, h2]
  refine ⟨hAA, h1, ?_⟩
  unfold TokenBucket.Allow
  rw [h1]
  dsimp only
  split <;> rfl

theorem C6_clock_regression_is_zero_elapsed_witness :
    TokenBucket.Allow ⟨3, 1, 2, 5000000000⟩ 1000000000 =
        TokenBucket.Allow ⟨3, 1, 2, 5000000000⟩ 5000000000 ∧
      TokenBucket.refill ⟨3, 1, 2, 5000000000⟩ 1000000000 = ⟨3, 1, 2, 5000000000⟩ ∧
      (TokenBucket.Allow ⟨3, 1, 2, 5000000000⟩ 1000000000).2.lastRefill = 5000000000 :=
  C6_clock_regression_is_zero_elapsed ⟨3, 1, 2, 5000000000⟩ 1000000000 (by decide) (by decide)

/-- C6 (counterexample). The empty bucket of capacity 3 with the refill rate -2, last
refilled at 5 s, called at the earlier clock reading 1 s: the elapsed time -4 s times the
rate -2 is 8 tokens, so the refill block fills the bucket, moves `lastRefill` back to 1 s,
and the call is allowed; a call at `lastRefill` itself is denied and changes nothing. -/
theorem C6_counterexample :
    (1000000000 : Int) < (⟨3, 0, -2, 5000000000⟩ : TokenBucket).lastRefill ∧
      TokenBucket.tokensToAdd ⟨3, 0, -2, 5000000000⟩ 1000000000 = 8 ∧
      TokenBucket.Allow ⟨3, 0, -2, 5000000000⟩ 1000000000 = (true, ⟨3, 2, -2, 1000000000⟩) ∧
      TokenBucket.Allow ⟨3, 0, -2, 5000000000⟩ 5000000000 = (false, ⟨3, 0, -2, 5000000000⟩) := by
  refine ⟨by decide, by decide, by decide, by decide⟩

/-! ## Admissions and credit -/

theorem count_true_cons (ok : Bool) (flags : List Bool) :
    (((ok :: flags).count true : Nat) : Int) =
      (if ok then 1 else 0) + ((flags.count true : Nat) : Int) := by
  cases ok <;> simp [add_comm]

theorem credit_shift (tb : TokenBucket) (x y : Int) :
    credit tb y = credit tb x + (y - x) * tb.refillRate := by
  unfold credit
  ring

theorem credit_nonneg (tb : TokenBucket) (x : Int)
    (hL : tb.lastRefill ≤ x) (hr : 0 ≤ tb.refillRate) : 0 ≤ credit tb x := by
  unfold credit
  have h1 : 0 ≤ (x - tb.lastRefill) * tb.refillRate := mul_nonneg (by omega) hr
  unfold Second
  omega

/-- The refill block moves `lastRefill` to the clock reading or leaves it. -/
theorem refill_lastRefill (tb : TokenBucket) (now : Int) (hL : tb.lastRefill ≤ now) :
    (tb.refill now).lastRefill ≤ now ∧ tb.lastRefill ≤ (tb.refill now).lastRefill := by
  by_cases h : 0 < tb.tokensToAdd now
  · rw [refill_of_pos tb now h]
    exact ⟨le_refl _, hL⟩
  · rw [refill_of_not_pos tb now h]
    exact ⟨hL, le_refl _⟩

theorem Allow_lastRefill (tb : TokenBucket) (now : Int) :
    (tb.Allow now).2.lastRefill = (tb.refill now).lastRefill := by
  unfold TokenBucket.Allow
  dsimp only
  split <;> rfl

/-- The elapsed time until any instant up to `T` is worth less than what the time until `T`
is worth. -/
theorem elapsed_le (L x T r : Int) (hx : x ≤ T) (hr : 0 ≤ r) :
    (x - L) * r ≤ (T - L) * r :=
  mul_le_mul_of_nonneg_right (by omega) hr

/-- The refill block when it runs: the sum may wrap around, and then it is lower than the
exact sum; in any case the bucket holds at most the capacity and at most the exact sum, and
`lastRefill` is the clock reading. -/
theorem refill_le (tb : TokenBucket) (now : Int) (h : 0 < tb.tokensToAdd now)
    (hlo : MinInt64 ≤ tb.tokens) :
    (tb.refill now).tokens ≤ tb.capacity ∧
      (tb.refill now).tokens ≤ tb.tokens + tb.tokensToAdd now ∧
      (MinInt64 ≤ tb.capacity → MinInt64 ≤ (tb.refill now).tokens) ∧
      (tb.refill now).lastRefill = now := by
  have hw := wrapInt64_bounds (tb.tokens + tb.tokensToAdd now)
  rw [refill_of_pos tb now h]
  dsimp only
  split <;> refine ⟨?_, ?_, ?_, rfl⟩ <;> omega

/-- One call keeps the token count an `int64` that is at most the capacity, and leaves the
bucket short of full. -/
theorem Allow_tokens_range (tb : TokenBucket) (now : Int)
    (hlo : MinInt64 ≤ tb.tokens) (h1 : tb.tokens ≤ tb.capacity) (hc : 1 ≤ tb.capacity) :
    MinInt64 ≤ (tb.Allow now).2.tokens ∧ (tb.Allow now).2.tokens ≤ tb.capacity - 1 := by
  have hre : MinInt64 ≤ (tb.refill now).tokens ∧ (tb.refill now).tokens ≤ tb.capacity := by
    by_cases h : 0 < tb.tokensToAdd now
    · have := refill_le tb now h hlo
      exact ⟨this.2.2.1 (by unfold MinInt64; omega), this.1⟩
    · rw [refill_of_not_pos tb now h]
      exact ⟨hlo, h1⟩
  by_cases hp : 0 < (tb.refill now).tokens
  · rw [Allow_of_pos tb now hp]
    dsimp only
    unfold MinInt64 at *
    omega
  · rw [Allow_of_not_pos tb now hp]
    dsimp only
    omega

/-- What the refill block leaves, valued at the instant of the call, while the elapsed time
is worth less than `2^20` tokens: no more than before, and at most a full bucket when it
refilled or the old tokens plus one token of elapsed time when it did not. -/
theorem credit_refill (tb : TokenBucket) (now : Int) (hL : tb.lastRefill ≤ now)
    (hr : 0 ≤ tb.refillRate) (hlo : MinInt64 ≤ tb.tokens) (hc : 1 ≤ tb.capacity)
    (hx : (now - tb.lastRefill) * tb.refillRate < 1048576 * Second) :
    credit (tb.refill now) now ≤ credit tb now ∧
      (credit (tb.refill now) now ≤ Second * tb.capacity ∨
        credit (tb.refill now) now ≤ Second * (max tb.tokens 0 + 1)) := by
  have hX : 0 ≤ (now - tb.lastRefill) * tb.refillRate := mul_nonneg (by omega) hr
  have hs := tokensToAdd_of_small tb now hL hr hx
  by_cases h : 0 < tb.tokensToAdd now
  · have hre := refill_le tb now h hlo
    unfold credit
    rw [hre.2.2.2, sub_self, zero_mul]
    unfold Second at hs hx ⊢
    constructor
    · omega
    · left
      omega
  · rw [refill_of_not_pos tb now h]
    refine ⟨le_refl _, Or.inr ?_⟩
    unfold credit
    unfold Second at hs hx ⊢
    by_cases hm : (now - tb.lastRefill) * tb.refillRate % 1000000000 = 0
    · omega
    · have := hs.2.2 hm
      omega

/-- An allowed call spends exactly one token of credit, a denied one none. -/
theorem credit_Allow (tb : TokenBucket) (now : Int) :
    Second * (if (tb.Allow now).1 then 1 else 0) + credit (tb.Allow now).2 now =
      credit (tb.refill now) now := by
  by_cases h : 0 < (tb.refill now).tokens
  · rw [Allow_of_pos tb now h]
    unfold credit
    dsimp only
    simp only [if_true]
    unfold Second
    omega
  · rw [Allow_of_not_pos tb now h]
    simp

/-- Lifetime bound of a run: calls at non-decreasing instants, none before `lastRefill`
and none after `T`, are allowed at most as often as the credit at `T` pays for, while the
time from `lastRefill` to `T` is worth less than `2^20` tokens. -/
theorem run_count_le_credit (times : List Int) :
    ∀ (tb : TokenBucket) (lo T : Int), List.Chain (· ≤ ·) lo times → tb.lastRefill ≤ lo →
      lo ≤ T → (∀ x ∈ times, x ≤ T) → 0 ≤ tb.refillRate → MinInt64 ≤ tb.tokens →
      tb.tokens ≤ tb.capacity → 1 ≤ tb.capacity →
      (T - tb.lastRefill) * tb.refillRate < 1048576 * Second →
      Second * (((tb.run times).1.count true : Nat) : Int) ≤ credit tb T := by
  induction times with
  | nil =>
    intro tb lo T _ hL hT _ hr _ _ _ _
    have := credit_nonneg tb T (by omega) hr
    simpa [TokenBucket.run] using this
  | cons x rest ih =>
    intro tb lo T hch hL _ hall hr hlo h1 hc hsm
    rw [List.chain_cons] at hch
    have hxT : x ≤ T := hall x (List.mem_cons_self _ _)
    have hLx : tb.lastRefill ≤ x := le_trans hL hch.1
    have hxs : (x - tb.lastRefill) * tb.refillRate < 1048576 * Second :=
      lt_of_le_of_lt (elapsed_le _ _ _ _ hxT hr) hsm
    have hcr := credit_refill tb x hLx hr hlo hc hxs
    have hb := Allow_tokens_range tb x hlo h1 hc
    have hLL := refill_lastRefill tb x hLx
    have hsm2 : (T - (tb.Allow x).2.lastRefill) * (tb.Allow x).2.refillRate <
        1048576 * Second := by
      rw [Allow_lastRefill, Allow_refillRate]
      have : (T - (tb.refill x).lastRefill) * tb.refillRate ≤
          (T - tb.lastRefill) * tb.refillRate :=
        mul_le_mul_of_nonneg_right (by omega) hr
      omega
    have hrest := ih (tb.Allow x).2 x T hch.2
      (by rw [Allow_lastRefill]; exact hLL.1) hxT
      (fun y hy => hall y (List.mem_cons_of_mem _ hy))
      (by rw [Allow_refillRate]; exact hr) hb.1
      (by rw [Allow_capacity]; omega)
      (by rw [Allow_capacity]; exact hc) hsm2
    have hstep := credit_Allow tb x
    have hre := hcr.1
    have hs1 := credit_shift (tb.Allow x).2 x T
    have hs2 := credit_shift tb x T
    rw [Allow_refillRate] at hs1
    rw [run_cons_fst, count_true_cons, mul_add]
    omega

/-- Window bound of a run: from the first call on, the allowed calls are paid by what the
refill block of that first call leaves plus the refill over the rest of the window. -/
theorem run_count_le_window (x : Int) (rest : List Int) (tb : TokenBucket) (T : Int)
    (hch : List.Chain (· ≤ ·) x rest) (hL : tb.lastRefill ≤ x) (hxT : x ≤ T)
    (hall : ∀ y ∈ rest, y ≤ T) (hr : 0 ≤ tb.refillRate) (hlo : MinInt64 ≤ tb.tokens)
    (h1 : tb.tokens ≤ tb.capacity) (hc : 1 ≤ tb.capacity)
    (hsm : (T - tb.lastRefill) * tb.refillRate < 1048576 * Second) :
    Second * (((tb.run (x :: rest)).1.count true : Nat) : Int) ≤
      credit (tb.refill x) x + (T - x) * tb.refillRate := by
  have hb := Allow_tokens_range tb x hlo h1 hc
  have hLL := refill_lastRefill tb x hL
  have hsm2 : (T - (tb.Allow x).2.lastRefill) * (tb.Allow x).2.refillRate <
      1048576 * Second := by
    rw [Allow_lastRefill, Allow_refillRate]
    have : (T - (tb.refill x).lastRefill) * tb.refillRate ≤
        (T - tb.lastRefill) * tb.refillRate :=
      mul_le_mul_of_nonneg_right (by omega) hr
    omega
  have hrest := run_count_le_credit rest (tb.Allow x).2 x T hch
    (by rw [Allow_lastRefill]; exact hLL.1) hxT hall
    (by rw [Allow_refillRate]; exact hr) hb.1 (by rw [Allow_capacity]; omega)
    (by rw [Allow_capacity]; exact hc) hsm2
  have hstep := credit_Allow tb x
  have hs1 := credit_shift (tb.Allow x).2 x T
  rw [Allow_refillRate] at hs1
  rw [run_cons_fst, count_true_cons, mul_add]
  omega

/-- In a non-decreasing sequence every element is at least the starting value. -/
theorem chain_le_of_mem (l : List Int) :
    ∀ lo : Int, List.Chain (· ≤ ·) lo l → ∀ y ∈ l, lo ≤ y := by
  induction l with
  | nil => intro lo _ y hy; exact absurd hy (List.not_mem_nil y)
  | cons a rest ih =>
    intro lo hch y hy
    rw [List.chain_cons] at hch
    rcases List.mem_cons.1 hy with h | h
    · rw [h]; exact hch.1
    · exact le_trans hch.1 (ih a hch.2 y h)

/-- The bucket that a run of earlier calls leaves when a later call at `x` follows: its
token count an `int64` within the capacity, last refilled between the old `lastRefill` and
`x`, and short of full once it has been called. -/
theorem run_state (pre : List Int) :
    ∀ (tb : TokenBucket) (lo x : Int) (rest : List Int),
      List.Chain (· ≤ ·) lo (pre ++ x :: rest) → tb.lastRefill ≤ lo →
      MinInt64 ≤ tb.tokens → tb.tokens ≤ tb.capacity → 1 ≤ tb.capacity →
      List.Chain (· ≤ ·) x rest ∧ (tb.run pre).2.lastRefill ≤ x ∧
        tb.lastRefill ≤ (tb.run pre).2.lastRefill ∧
        MinInt64 ≤ (tb.run pre).2.tokens ∧ (tb.run pre).2.tokens ≤ tb.capacity ∧
        (tb.run pre).2.capacity = tb.capacity ∧ (tb.run pre).2.refillRate = tb.refillRate ∧
        (pre ≠ [] ∨ tb.tokens ≤ tb.capacity - 1 → (tb.run pre).2.tokens ≤ tb.capacity - 1) := by
  induction pre with
  | nil =>
    intro tb lo x rest hch hL hlo h1 _
    rw [List.nil_append, List.chain_cons] at hch
    refine ⟨hch.2, le_trans hL hch.1, le_refl _, hlo, h1, rfl, rfl, ?_⟩
    intro h
    rcases h with h | h
    · exact absurd rfl h
    · exact h
  | cons p ps ih =>
    intro tb lo x rest hch hL hlo h1 hc
    rw [List.cons_append, List.chain_cons] at hch
    have hLp : tb.lastRefill ≤ p := le_trans hL hch.1
    have hb := Allow_tokens_range tb p hlo h1 hc
    have hcap := Allow_capacity tb p
    have hrate := Allow_refillRate tb p
    have hLL := refill_lastRefill tb p hLp
    obtain ⟨hch2, hL2, hL3, h02, h12, hcc, hrr, hlt2⟩ := ih (tb.Allow p).2 p x rest hch.2
      (by rw [Allow_lastRefill]; exact hLL.1)
      hb.1 (by rw [hcap]; omega) (by rw [hcap]; exact hc)
    refine ⟨hch2, ?_, ?_, ?_, ?_, ?_, ?_, ?_⟩
    · rw [run_cons_snd]; exact hL2
    · rw [run_cons_snd]
      rw [Allow_lastRefill] at hL3
      exact le_trans hLL.2 hL3
    · rw [run_cons_snd]; exact h02
    · rw [run_cons_snd]; rw [hcap] at h12; exact h12
    · rw [run_cons_snd, hcc, hcap]
    · rw [run_cons_snd, hrr, hrate]
    · intro _
      rw [run_cons_snd]
      have := hlt2 (Or.inr (by rw [hcap]; exact hb.2))
      rw [hcap] at this
      exact this

theorem run_append (l1 : List Int) :
    ∀ (tb : TokenBucket) (l2 : List Int),
      tb.run (l1 ++ l2) = ((tb.run l1).1 ++ ((tb.run l1).2.run l2).1, ((tb.run l1).2.run l2).2) := by
  induction l1 with
  | nil => intro tb l2; rfl
  | cons a rest ih =>
    intro tb l2
    have h := ih (tb.Allow a).2 l2
    rw [List.cons_append]
    apply Prod.ext
    · dsimp only
      rw [run_cons_fst, h, run_cons_fst, run_cons_snd, List.cons_append]
    · dsimp only
      rw [run_cons_snd, h, run_cons_snd]

/-- With no time elapsed, a bucket holding `n + k` tokens allows `n` calls and is left with
`k` tokens. -/
theorem run_replicate (n : Nat) :
    ∀ (tb : TokenBucket) (k : Int), 0 ≤ k → tb.tokens = n + k →
      tb.run (List.replicate n tb.lastRefill) =
        (List.replicate n true, { tb with tokens := k }) := by
  induction n with
  | zero =>
    intro tb k _ h
    have hk : k = tb.tokens := by simp at h; omega
    subst hk
    rfl
  | succ n ih =>
    intro tb k hk h
    have hr : tb.refill tb.lastRefill = tb :=
      refill_of_not_pos tb _ (by rw [tokensToAdd_self]; decide)
    have hA := Allow_of_pos tb tb.lastRefill (by rw [hr, h]; push_cast; omega)
    rw [hr] at hA
    have hrest := ih { tb with tokens := tb.tokens - 1 } k hk
      (by dsimp only; rw [h]; push_cast; omega)
    dsimp only at hrest
    rw [List.replicate_succ]
    simp only [TokenBucket.run, hA, hrest, List.replicate_succ]

theorem chain_replicate (n : Nat) (lo a : Int) (h : lo ≤ a) (l : List Int)
    (hl : List.Chain (· ≤ ·) a l) : List.Chain (· ≤ ·) lo (List.replicate n a ++ l) := by
  induction n generalizing lo with
  | zero =>
    cases l with
    | nil => exact List.Chain.nil
    | cons b rest =>
      rw [List.chain_cons] at hl
      exact List.Chain.cons (le_trans h hl.1) hl.2
  | succ n ih =>
    rw [List.replicate_succ, List.cons_append]
    exact List.Chain.cons h (ih a (le_refl _))

/-- The elapsed time 16777216.999999999 s rounds, in `float64`, to 16777217 s.  The bucket
of capacity 16777217 and rate 1 built at instant 0, called 16777217 times at once and
16777217 times at that later instant (a non-decreasing sequence), allows all 33554434
calls. -/
theorem run_rounded_up :
    List.Chain (· ≤ ·) (0 : Int)
        (List.replicate 16777217 0 ++ List.replicate 16777217 16777216999999999) ∧
      (((((NewTokenBucket 16777217 1 0).run
        (List.replicate 16777217 0 ++ List.replicate 16777217 16777216999999999)).1.count
          true : Nat) : Int) = 33554434) := by
  refine ⟨?_, ?_⟩
  · have h := chain_replicate 16777217 0 0 (le_refl _)
      (List.replicate 16777217 16777216999999999 ++ [])
      (chain_replicate 16777217 0 16777216999999999 (by decide) [] List.Chain.nil)
    rw [List.append_nil] at h
    exact h
  · have h1 := run_replicate 16777217 (NewTokenBucket 16777217 1 0) 0 (le_refl _) (by decide)
    have hA : TokenBucket.Allow ⟨16777217, 0, 1, 0⟩ 16777216999999999 =
        (true, ⟨16777217, 16777216, 1, 16777216999999999⟩) := by decide
    have h2 := run_replicate 16777216 ⟨16777217, 16777216, 1, 16777216999999999⟩ 0 (le_refl _)
      (by decide)
    have hsplit : List.replicate 16777217 (16777216999999999 : Int) =
        16777216999999999 :: List.replicate 16777216 16777216999999999 :=
      List.replicate_succ _ _
    have hL : (NewTokenBucket 16777217 1 0).lastRefill = 0 := rfl
    rw [hL] at h1
    dsimp only at h2
    rw [run_append, h1]
    dsimp only [NewTokenBucket]
    rw [hsplit, run_cons_fst, hA]
    dsimp only
    rw [h2]
    dsimp only
    rw [List.count_append, List.count_cons_self, List.count_replicate_self,
      List.count_replicate_self]
    decide

/-- C1 (as amended). No over-admission in a window: take a bucket built by `NewTokenBucket`
at `t0` with capacity and refill rate of at least one, called at the non-decreasing instants
`pre` and then at the instants `times`, all of which lie in the window `[t, t + Δ]`, and let
the time from `t0` to the end of the window be worth less than `2^20` tokens of refill (there
the `float64` product never converts to more than the exact one rounded down).  The calls at
`times` that return true number at most `capacity + floor(Δ × refillRate)` when the bucket was
called before (`pre` is not empty) or the window starts no later than the construction; for a
bucket never called before a window that starts after its construction the bound is one
more. -/
theorem C1_window_admission_bound (capacity refillRate t0 : Int) (pre times : List Int)
    (t Δ : Int) (hc : 1 ≤ capacity) (hr : 1 ≤ refillRate) (hΔ : 0 ≤ Δ)
    (hsm : (t + Δ - t0) * refillRate < 1048576 * Second)
    (hmono : List.Chain (· ≤ ·) t0 (pre ++ times))
    (hwin : ∀ x ∈ times, t ≤ x ∧ x ≤ t + Δ) :
    (((((NewTokenBucket capacity refillRate t0).run pre).2.run times).1.count true : Nat) : Int)
      ≤ capacity + (Δ * refillRate) / Second + (if pre = [] ∧ t0 < t then 1 else 0) := by
  have hΔr : 0 ≤ Δ * refillRate := mul_nonneg hΔ (by omega)
  cases times with
  | nil =>
    have : (0 : Int) ≤ (Δ * refillRate) / Second := Int.ediv_nonneg hΔr (by decide)
    simp only [TokenBucket.run, List.count_nil, Nat.cast_zero]
    split <;> omega
  | cons x rest =>
    have hx := hwin x (List.mem_cons_self _ _)
    obtain ⟨hch2, hL2, hL3, h02, h12, hcapb, hrateb, hlt2⟩ :=
      run_state pre (NewTokenBucket capacity refillRate t0) t0 x rest hmono (le_refl _)
        (by simp only [NewTokenBucket]; unfold MinInt64; omega) (le_refl _) hc
    generalize hb : ((NewTokenBucket capacity refillRate t0).run pre).2 = b at *
    have hcapb2 : b.capacity = capacity := hcapb
    have hrateb2 : b.refillRate = refillRate := hrateb
    have htokb : b.tokens ≤ capacity := h12
    have ht0b : t0 ≤ b.lastRefill := hL3
    have hall : ∀ y ∈ rest, y ≤ t + Δ := fun y hy => (hwin y (List.mem_cons_of_mem _ hy)).2
    have hrb : 0 ≤ b.refillRate := by omega
    have hsmb : (t + Δ - b.lastRefill) * b.refillRate < 1048576 * Second := by
      rw [hrateb2]
      have : (t + Δ - b.lastRefill) * refillRate ≤ (t + Δ - t0) * refillRate :=
        mul_le_mul_of_nonneg_right (by omega) (by omega)
      omega
    have hxs : (x - b.lastRefill) * b.refillRate < 1048576 * Second :=
      lt_of_le_of_lt (elapsed_le _ _ _ _ hx.2 hrb) hsmb
    have hw := run_count_le_window x rest b (t + Δ) hch2 hL2 hx.2 hall hrb h02
      (by omega) (by omega) hsmb
    have hcr := (credit_refill b x hL2 hrb h02 (by omega) hxs).2
    have hmul : (t + Δ - x) * b.refillRate ≤ Δ * refillRate := by
      rw [hrateb2]
      exact mul_le_mul_of_nonneg_right (by omega) (by omega)
    by_cases hfresh : pre = [] ∧ t0 < t
    · rw [if_pos hfresh]
      rw [hcapb2] at hcr
      unfold Second at hw hcr ⊢
      omega
    · rw [if_neg hfresh]
      by_cases hpre : pre = []
      · have ht : t ≤ t0 := by
          by_contra hcon
          exact hfresh ⟨hpre, by omega⟩
        subst hpre
        have hbb : b = NewTokenBucket capacity refillRate t0 := hb.symm
        have hmono2 : List.Chain (· ≤ ·) t0 (x :: rest) := by simpa using hmono
        have hlife := run_count_le_credit (x :: rest) b t0 (t + Δ)
          hmono2 (by rw [hbb]; exact le_refl _) (by omega)
          (fun y hy => (hwin y hy).2) hrb h02 (by omega) (by omega) hsmb
        have hcredit : credit b (t + Δ) =
            Second * max capacity 0 + (t + Δ - t0) * refillRate := by
          rw [hbb]; rfl
        have hmul2 : (t + Δ - t0) * refillRate ≤ Δ * refillRate :=
          mul_le_mul_of_nonneg_right (by omega) (by omega)
        unfold Second at hlife hcredit ⊢
        omega
      · have hlt := hlt2 (Or.inl hpre)
        simp only [NewTokenBucket] at hlt
        rw [hcapb2] at hcr
        unfold Second at hw hcr ⊢
        omega

theorem C1_window_admission_bound_witness :
    (((((NewTokenBucket 1 1 0).run [0]).2.run [500000000, 1000000000]).1.count true : Nat) : Int)
      ≤ 1 + (500000000 * 1) / Second +
        (if ([0] : List Int) = [] ∧ (0 : Int) < 500000000 then 1 else 0) :=
  C1_window_admission_bound 1 1 0 [0] [500000000, 1000000000] 500000000 500000000
    (by decide) (by decide) (by decide) (by decide)
    (List.Chain.cons (by decide) (List.Chain.cons (by decide)
      (List.Chain.cons (by decide) List.Chain.nil)))
    (by decide)

/-- C1 (counterexample). A bucket of capacity 1 and rate 1 built at instant 0 and first
called 0.5 s and 1 s later allows both calls: two admissions in the window `[0.5 s, 1 s]`,
where `capacity + floor(Δ × refillRate) = 1 + floor(0.5) = 1`.  And where the window is
worth `2^24` tokens the `float64` product rounds up: the bucket of capacity 16777217 and
rate 1 built at instant 0, called 16777217 times at once and 16777217 times
16777216.999999999 s later, allows all 33554434 calls in the window that starts with its
construction, where `capacity + floor(Δ × refillRate) = 33554433`. -/
theorem C1_counterexample :
    (List.Chain (· ≤ ·) (0 : Int) [500000000, 1000000000] ∧
      (∀ x ∈ ([500000000, 1000000000] : List Int),
        (500000000 : Int) ≤ x ∧ x ≤ 500000000 + 500000000) ∧
      ((NewTokenBucket 1 1 0).run [500000000, 1000000000]).1 = [true, true] ∧
      ¬ ((((NewTokenBucket 1 1 0).run [500000000, 1000000000]).1.count true : Nat) : Int)
          ≤ 1 + (500000000 * 1) / Second) ∧
      (List.Chain (· ≤ ·) (0 : Int)
          (List.replicate 16777217 0 ++ List.replicate 16777217 16777216999999999) ∧
        (∀ x ∈ List.replicate 16777217 (0 : Int) ++ List.replicate 16777217 16777216999999999,
          (0 : Int) ≤ x ∧ x ≤ 0 + 16777216999999999) ∧
        ¬ (((((NewTokenBucket 16777217 1 0).run
            (List.replicate 16777217 0 ++ List.replicate 16777217 16777216999999999)).1.count
              true : Nat) : Int) ≤ 16777217 + (16777216999999999 * 1) / Second)) := by
  refine ⟨⟨List.Chain.cons (by decide) (List.Chain.cons (by decide) List.Chain.nil),
    by decide, by decide, by decide⟩, run_rounded_up.1, ?_, ?_⟩
  · intro x hx
    rcases List.mem_append.mp hx with h | h
    · rw [List.eq_of_mem_replicate h]; decide
    · rw [List.eq_of_mem_replicate h]; decide
  · rw [run_rounded_up.2]
    decide

/-! ## The registry as a map -/

theorem lookupEntry_filter_ne (k k2 : String) (l : List (String × TokenBucket)) :
    lookupEntry k2 (l.filter (fun e => decide (e.1 ≠ k))) =
      if k2 = k then none else lookupEntry k2 l := by
  induction l with
  | nil => simp [lookupEntry]
  | cons e rest ih =>
    by_cases hek : e.1 = k
    · have hf : (e :: rest).filter (fun e => decide (e.1 ≠ k)) =
          rest.filter (fun e => decide (e.1 ≠ k)) := by
        simp [List.filter_cons, hek]
      rw [hf, ih]
      by_cases hk2 : k2 = k
      · simp [hk2]
      · have : ¬ e.1 = k2 := fun h => hk2 (h ▸ hek)
        simp [hk2, lookupEntry, this]
    · have hf : (e :: rest).filter (fun e => decide (e.1 ≠ k)) =
          e :: rest.filter (fun e => decide (e.1 ≠ k)) := by
        simp [List.filter_cons, hek]
      rw [hf]
      by_cases he2 : e.1 = k2
      · have : ¬ k2 = k := fun h => hek (he2.trans h)
        simp [lookupEntry, he2, this]
      · simp only [lookupEntry, he2, if_false]
        exact ih

theorem get_delete (m : BucketMap) (k k2 : String) :
    (m.delete k).get k2 = if k2 = k then none else m.get k2 :=
  lookupEntry_filter_ne k k2 m.entries

theorem get_set (m : BucketMap) (k k2 : String) (bucket : TokenBucket) :
    (m.set k bucket).get k2 = if k2 = k then some bucket else m.get k2 := by
  unfold BucketMap.set BucketMap.get
  dsimp only
  by_cases h : k2 = k
  · simp [lookupEntry, h]
  · have h2 : ¬ k = k2 := fun e => h e.symm
    simp only [lookupEntry, h, h2, if_false]
    have := get_delete m k k2
    unfold BucketMap.get at this
    rw [this, if_neg h]

theorem get_set_self (m : BucketMap) (k : String) (bucket : TokenBucket) :
    (m.set k bucket).get k = some bucket := by
  rw [get_set, if_pos rfl]

theorem get_set_ne (m : BucketMap) (k k2 : String) (bucket : TokenBucket) (h : k2 ≠ k) :
    (m.set k bucket).get k2 = m.get k2 := by
  rw [get_set, if_neg h]

theorem lookupEntry_of_mem (l : List (String × TokenBucket)) (hnd : (l.map Prod.fst).Nodup)
    (k : String) (b : TokenBucket) (hmem : (k, b) ∈ l) : lookupEntry k l = some b := by
  induction l with
  | nil => cases hmem
  | cons e rest ih =>
    rw [List.map_cons, List.nodup_cons] at hnd
    rcases List.mem_cons.1 hmem with h | h
    · subst h
      simp [lookupEntry]
    · have hne : ¬ e.1 = k := by
        intro hek
        apply hnd.1
        rw [hek]
        exact List.mem_map.2 ⟨(k, b), h, rfl⟩
      simp only [lookupEntry, hne, if_false]
      exact ih hnd.2 h

theorem mem_of_lookupEntry (l : List (String × TokenBucket)) (k : String) (b : TokenBucket)
    (h : lookupEntry k l = some b) : (k, b) ∈ l := by
  induction l with
  | nil => simp [lookupEntry] at h
  | cons e rest ih =>
    by_cases hek : e.1 = k
    · simp only [lookupEntry, hek, if_true, Option.some.injEq] at h
      have : e = (k, b) := by
        rcases e with ⟨e1, e2⟩
        simp only at hek h
        rw [hek, h]
      rw [this]
      exact List.mem_cons_self _ _
    · simp only [lookupEntry, hek, if_false] at h
      exact List.mem_cons_of_mem _ (ih h)

theorem get_eq_some_iff (m : BucketMap) (k : String) (b : TokenBucket) :
    m.get k = some b ↔ (k, b) ∈ m.entries :=
  ⟨mem_of_lookupEntry m.entries k b, lookupEntry_of_mem m.entries m.nodupKeys k b⟩

/-! ## Reclamation -/

theorem get_cleanupStep (cutoff : Int) (m : BucketMap) (e : String × TokenBucket) (k : String) :
    (cleanupStep cutoff m e).get k =
      if e.2.lastRefill < cutoff ∧ k = e.1 then none else m.get k := by
  unfold cleanupStep
  by_cases h : e.2.lastRefill < cutoff
  · rw [if_pos h, get_delete]
    by_cases hk : k = e.1 <;> simp [h, hk]
  · rw [if_neg h]
    simp [h]

/-- The loop leaves the entry of `k` alone when no visited entry of `k` is stale. -/
theorem get_foldl_cleanup_keep (cutoff : Int) (k : String) (l : List (String × TokenBucket)) :
    ∀ m : BucketMap, (∀ e ∈ l, e.1 = k → ¬ e.2.lastRefill < cutoff) →
      (l.foldl (cleanupStep cutoff) m).get k = m.get k := by
  induction l with
  | nil => intro m _; rfl
  | cons e rest ih =>
    intro m h
    rw [List.foldl_cons, ih _ (fun e2 he2 => h e2 (List.mem_cons_of_mem _ he2)),
      get_cleanupStep]
    have := h e (List.mem_cons_self _ _)
    by_cases hk : k = e.1
    · have hn := this hk.symm
      simp [hn]
    · simp [hk]

/-- The loop removes the entry of `k` when a visited entry of `k` is stale. -/
theorem get_foldl_cleanup_drop (cutoff : Int) (k : String) (l : List (String × TokenBucket)) :
    ∀ m : BucketMap, (∃ e ∈ l, e.1 = k ∧ e.2.lastRefill < cutoff) →
      (l.foldl (cleanupStep cutoff) m).get k = none := by
  induction l with
  | nil => intro m h; rcases h with ⟨e, he, _⟩; cases he
  | cons e rest ih =>
    intro m h
    rw [List.foldl_cons]
    by_cases hrest : ∃ e2 ∈ rest, e2.1 = k ∧ e2.2.lastRefill < cutoff
    · exact ih _ hrest
    · have hkeep : ∀ e2 ∈ rest, e2.1 = k → ¬ e2.2.lastRefill < cutoff :=
        fun e2 he2 hk hs => hrest ⟨e2, he2, hk, hs⟩
      rw [get_foldl_cleanup_keep cutoff k rest _ hkeep, get_cleanupStep]
      rcases h with ⟨e2, he2, hk, hs⟩
      rcases List.mem_cons.1 he2 with h1 | h1
      · subst h1
        simp [hs, hk]
      · exact absurd ⟨e2, h1, hk, hs⟩ hrest

theorem get_cleanupOldBuckets (rl : RateLimiter) (now : Int) (id : String) :
    (rl.cleanupOldBuckets now).buckets.get id =
      match rl.buckets.get id with
      | some b => if b.lastRefill < now - rl.cleanup then none else some b
      | none => none := by
  have hcut : now + -rl.cleanup = now - rl.cleanup := by omega
  unfold RateLimiter.cleanupOldBuckets
  dsimp only
  rw [hcut]
  cases hg : rl.buckets.get id with
  | none =>
    dsimp only
    rw [get_foldl_cleanup_keep, hg]
    intro e he hk
    have : rl.buckets.get id = some e.2 := by
      rw [get_eq_some_iff, ← hk]
      exact he
    rw [hg] at this
    cases this
  | some b =>
    dsimp only
    have hmem := (get_eq_some_iff rl.buckets id b).1 hg
    by_cases hs : b.lastRefill < now - rl.cleanup
    · rw [if_pos hs]
      exact get_foldl_cleanup_drop _ id _ _ ⟨(id, b), hmem, rfl, hs⟩
    · rw [if_neg hs, get_foldl_cleanup_keep, hg]
      intro e he hk
      have : rl.buckets.get id = some e.2 := by
        rw [get_eq_some_iff, ← hk]
        exact he
      rw [hg] at this
      cases this
      exact hs

/-- C10. Reclamation evicts exactly the idle buckets: after `cleanupOldBuckets` at `now`, a
client id has the bucket `b` in the registry if and only if it had `b` before (the same
tokens and `lastRefill`) and `b.lastRefill` is not earlier than `now - cleanup`; an entry whose
`lastRefill` is strictly earlier than that is gone; the limiter's settings are untouched. -/
theorem C10_cleanup_evicts_exactly_idle (rl : RateLimiter) (now : Int) :
    (∀ (id : String) (b : TokenBucket),
        (rl.cleanupOldBuckets now).buckets.get id = some b ↔
          rl.buckets.get id = some b ∧ ¬ b.lastRefill < now - rl.cleanup) ∧
      (∀ (id : String) (b : TokenBucket), rl.buckets.get id = some b →
        b.lastRefill < now - rl.cleanup → (rl.cleanupOldBuckets now).buckets.get id = none) ∧
      (rl.cleanupOldBuckets now).capacity = rl.capacity ∧
      (rl.cleanupOldBuckets now).refillRate = rl.refillRate ∧
      (rl.cleanupOldBuckets now).cleanup = rl.cleanup := by
  refine ⟨?_, ?_, rfl, rfl, rfl⟩
  · intro id b
    rw [get_cleanupOldBuckets]
    cases hg : rl.buckets.get id with
    | none => simp
    | some b2 =>
      dsimp only
      by_cases hs : b2.lastRefill < now - rl.cleanup
      · rw [if_pos hs]
        constructor
        · intro h; cases h
        · rintro ⟨h1, h2⟩
          cases h1
          exact absurd hs h2
      · rw [if_neg hs]
        constructor
        · intro h
          cases h
          exact ⟨rfl, hs⟩
        · rintro ⟨h1, _⟩
          exact h1
  · intro id b hg hs
    rw [get_cleanupOldBuckets, hg]
    dsimp only
    rw [if_pos hs]

/-! ## The registry operations -/

theorem GetBucket_of_some (rl : RateLimiter) (id : String) (now : Int) (b : TokenBucket)
    (h : rl.buckets.get id = some b) : rl.GetBucket id now = (b, rl) := by
  unfold RateLimiter.GetBucket
  rw [h]

theorem GetBucket_of_none (rl : RateLimiter) (id : String) (now : Int)
    (h : rl.buckets.get id = none) :
    rl.GetBucket id now =
      (NewTokenBucket rl.capacity rl.refillRate now,
        { rl with
          buckets := rl.buckets.set id (NewTokenBucket rl.capacity rl.refillRate now) }) := by
  unfold RateLimiter.GetBucket
  rw [h]

theorem GetBucket_get_self (rl : RateLimiter) (id : String) (now : Int) :
    (rl.GetBucket id now).2.buckets.get id = some (rl.GetBucket id now).1 := by
  cases h : rl.buckets.get id with
  | none => rw [GetBucket_of_none rl id now h]; exact get_set_self _ _ _
  | some b => rw [GetBucket_of_some rl id now b h]; exact h

theorem GetBucket_get_ne (rl : RateLimiter) (id other : String) (now : Int) (hne : other ≠ id) :
    (rl.GetBucket id now).2.buckets.get other = rl.buckets.get other := by
  cases h : rl.buckets.get id with
  | none => rw [GetBucket_of_none rl id now h]; exact get_set_ne _ _ _ _ hne
  | some b => rw [GetBucket_of_some rl id now b h]

theorem GetBucket_settings (rl : RateLimiter) (id : String) (now : Int) :
    (rl.GetBucket id now).2.capacity = rl.capacity ∧
      (rl.GetBucket id now).2.refillRate = rl.refillRate ∧
      (rl.GetBucket id now).2.cleanup = rl.cleanup := by
  cases h : rl.buckets.get id with
  | none => rw [GetBucket_of_none rl id now h]; exact ⟨rfl, rfl, rfl⟩
  | some b => rw [GetBucket_of_some rl id now b h]; exact ⟨rfl, rfl, rfl⟩

/-- The bucket `GetBucket` hands out depends on the entry of the client and on the
limiter's two bucket settings only. -/
theorem GetBucket_fst_congr (rl1 rl2 : RateLimiter) (id : String) (now : Int)
    (hg : rl1.buckets.get id = rl2.buckets.get id) (hc : rl1.capacity = rl2.capacity)
    (hr : rl1.refillRate = rl2.refillRate) :
    (rl1.GetBucket id now).1 = (rl2.GetBucket id now).1 := by
  cases h : rl2.buckets.get id with
  | none =>
    rw [GetBucket_of_none rl2 id now h, GetBucket_of_none rl1 id now (hg.trans h), hc, hr]
  | some b =>
    rw [GetBucket_of_some rl2 id now b h, GetBucket_of_some rl1 id now b (hg.trans h)]

theorem rlAllow_fst (rl : RateLimiter) (id : String) (g a : Int) :
    (rl.Allow id g a).1 = ((rl.GetBucket id g).1.Allow a).1 := rfl

theorem rlAllow_get_self (rl : RateLimiter) (id : String) (g a : Int) :
    (rl.Allow id g a).2.buckets.get id = some ((rl.GetBucket id g).1.Allow a).2 := by
  unfold RateLimiter.Allow
  exact get_set_self _ _ _

theorem rlAllow_get_ne (rl : RateLimiter) (id other : String) (g a : Int) (hne : other ≠ id) :
    (rl.Allow id g a).2.buckets.get other = rl.buckets.get other := by
  unfold RateLimiter.Allow
  dsimp only
  rw [get_set_ne _ _ _ _ hne, GetBucket_get_ne rl id other g hne]

theorem rlAllow_settings (rl : RateLimiter) (id : String) (g a : Int) :
    (rl.Allow id g a).2.capacity = rl.capacity ∧
      (rl.Allow id g a).2.refillRate = rl.refillRate ∧
      (rl.Allow id g a).2.cleanup = rl.cleanup :=
  GetBucket_settings rl id g

theorem rlRun_cons_fst (rl : RateLimiter) (c : String × Int × Int)
    (rest : List (String × Int × Int)) :
    (rl.run (c :: rest)).1 =
      (rl.Allow c.1 c.2.1 c.2.2).1 :: ((rl.Allow c.1 c.2.1 c.2.2).2.run rest).1 := rfl

/-- Two limiters that agree on the entry of `B` and on the bucket settings give the calls
of `B` the same results, whatever calls of other clients one of them serves in between. -/
theorem run_resultsOf_congr (B : String) (calls : List (String × Int × Int)) :
    ∀ rl1 rl2 : RateLimiter, rl1.buckets.get B = rl2.buckets.get B →
      rl1.capacity = rl2.capacity → rl1.refillRate = rl2.refillRate →
      resultsOf B calls (rl1.run calls).1 =
        (rl2.run (calls.filter (fun c => decide (c.1 = B)))).1 := by
  induction calls with
  | nil => intro rl1 rl2 _ _ _; rfl
  | cons c rest ih =>
    intro rl1 rl2 hg hc hr
    rcases c with ⟨cid, g, a⟩
    have s1 := rlAllow_settings rl1 cid g a
    by_cases hcb : cid = B
    · subst hcb
      have s2 := rlAllow_settings rl2 cid g a
      have hbucket : (rl1.GetBucket cid g).1 = (rl2.GetBucket cid g).1 :=
        GetBucket_fst_congr rl1 rl2 cid g hg hc hr
      have hflag : (rl1.Allow cid g a).1 = (rl2.Allow cid g a).1 := by
        rw [rlAllow_fst, rlAllow_fst, hbucket]
      have hnext := ih (rl1.Allow cid g a).2 (rl2.Allow cid g a).2
        (by rw [rlAllow_get_self, rlAllow_get_self, hbucket])
        (by rw [s1.1, s2.1, hc]) (by rw [s1.2.1, s2.2.1, hr])
      have hf : ((cid, g, a) :: rest).filter (fun c => decide (c.1 = cid)) =
          (cid, g, a) :: rest.filter (fun c => decide (c.1 = cid)) := by
        simp [List.filter_cons]
      rw [hf, rlRun_cons_fst, rlRun_cons_fst]
      dsimp only
      rw [← hnext, ← hflag]
      simp [resultsOf, List.filter_cons]
    · have hnext := ih (rl1.Allow cid g a).2 rl2
        (by rw [rlAllow_get_ne rl1 cid B g a (fun h => hcb h.symm)]; exact hg)
        (by rw [s1.1, hc]) (by rw [s1.2.1, hr])
      have hf : ((cid, g, a) :: rest).filter (fun c => decide (c.1 = B)) =
          rest.filter (fun c => decide (c.1 = B)) := by
        simp [List.filter_cons, hcb]
      rw [hf, rlRun_cons_fst]
      dsimp only
      rw [← hnext]
      simp [resultsOf, List.filter_cons, hcb]

/-- Two limiters that agree on the entry of a client and on the bucket settings give a
sequence of calls of that client the same results. -/
theorem run_callsOf_congr (id : String) (readings : List (Int × Int)) :
    ∀ rl1 rl2 : RateLimiter, rl1.buckets.get id = rl2.buckets.get id →
      rl1.capacity = rl2.capacity → rl1.refillRate = rl2.refillRate →
      (rl1.run (callsOf id readings)).1 = (rl2.run (callsOf id readings)).1 := by
  induction readings with
  | nil => intro rl1 rl2 _ _ _; rfl
  | cons c rest ih =>
    intro rl1 rl2 hg hc hr
    have s1 := rlAllow_settings rl1 id c.1 c.2
    have s2 := rlAllow_settings rl2 id c.1 c.2
    have hbucket := GetBucket_fst_congr rl1 rl2 id c.1 hg hc hr
    have hnext := ih (rl1.Allow id c.1 c.2).2 (rl2.Allow id c.1 c.2).2
      (by rw [rlAllow_get_self, rlAllow_get_self, hbucket])
      (by rw [s1.1, s2.1, hc]) (by rw [s1.2.1, s2.2.1, hr])
    have hcalls : callsOf id (c :: rest) = (id, c.1, c.2) :: callsOf id rest := rfl
    rw [hcalls, rlRun_cons_fst, rlRun_cons_fst]
    dsimp only
    rw [hnext, rlAllow_fst, rlAllow_fst, hbucket]

/-- C7. Per-client independence: for two distinct client ids, `Allow` on one leaves the
registry entry of the other as it was (absent stays absent, present keeps its bucket with
the same tokens and `lastRefill`); hence in any run of calls the results of one client are
those it gets when the calls of all other clients are left out.  With capacity 2 and rate 1,
client 192.168.1.1 gets `[true, true, false]` and then 192.168.1.2 gets the same. -/
theorem C7_per_client_independence :
    (∀ (rl : RateLimiter) (A B : String) (g a : Int), A ≠ B →
        (rl.Allow A g a).2.buckets.get B = rl.buckets.get B) ∧
      (∀ (rl : RateLimiter) (B : String) (calls : List (String × Int × Int)),
        resultsOf B calls (rl.run calls).1 =
          (rl.run (calls.filter (fun c => decide (c.1 = B)))).1) ∧
      ((NewRateLimiter ⟨1, 2, 60 * Second⟩).run
          [("192.168.1.1", 0, 0), ("192.168.1.1", 0, 0), ("192.168.1.1", 0, 0),
            ("192.168.1.2", 0, 0), ("192.168.1.2", 0, 0), ("192.168.1.2", 0, 0)]).1 =
        [true, true, false, true, true, false] := by
  refine ⟨?_, ?_, by decide⟩
  · intro rl A B g a hne
    exact rlAllow_get_ne rl A B g a (fun h => hne h.symm)
  · intro rl B calls
    exact run_resultsOf_congr B calls rl rl rfl rfl rfl

theorem C7_per_client_independence_witness :
    ((NewRateLimiter ⟨1, 2, 60 * Second⟩).Allow "192.168.1.1" 0 0).2.buckets.get "192.168.1.2" =
      (NewRateLimiter ⟨1, 2, 60 * Second⟩).buckets.get "192.168.1.2" :=
  C7_per_client_independence.1 (NewRateLimiter ⟨1, 2, 60 * Second⟩)
    "192.168.1.1" "192.168.1.2" 0 0 (by decide)

/-- C8. `GetBucket` is get-or-create: for an absent id it registers, and returns, a bucket
with `tokens = capacity =` the limiter's capacity, the limiter's refill rate and
`lastRefill = now`; for a present id it returns the registered bucket and leaves the limiter
as it was; every other entry and the limiter's settings are unchanged either way; and a
second `GetBucket` on the same id returns the same bucket and changes nothing. -/
theorem C8_getBucket_get_or_create (rl : RateLimiter) (id : String) (now : Int) :
    (rl.buckets.get id = none →
        (rl.GetBucket id now).1 = ⟨rl.capacity, rl.capacity, rl.refillRate, now⟩ ∧
          (rl.GetBucket id now).2.buckets.get id =
            some ⟨rl.capacity, rl.capacity, rl.refillRate, now⟩) ∧
      (∀ b : TokenBucket, rl.buckets.get id = some b →
        (rl.GetBucket id now).1 = b ∧ (rl.GetBucket id now).2 = rl) ∧
      (∀ other : String, other ≠ id →
        (rl.GetBucket id now).2.buckets.get other = rl.buckets.get other) ∧
      ((rl.GetBucket id now).2.capacity = rl.capacity ∧
        (rl.GetBucket id now).2.refillRate = rl.refillRate ∧
        (rl.GetBucket id now).2.cleanup = rl.cleanup) ∧
      (∀ later : Int,
        ((rl.GetBucket id now).2.GetBucket id later).1 = (rl.GetBucket id now).1 ∧
          ((rl.GetBucket id now).2.GetBucket id later).2 = (rl.GetBucket id now).2) := by
  refine ⟨?_, ?_, ?_, GetBucket_settings rl id now, ?_⟩
  · intro h
    rw [GetBucket_of_none rl id now h]
    exact ⟨rfl, get_set_self _ _ _⟩
  · intro b h
    rw [GetBucket_of_some rl id now b h]
    exact ⟨rfl, rfl⟩
  · intro other hne
    exact GetBucket_get_ne rl id other now hne
  · intro later
    have h := GetBucket_get_self rl id now
    rw [GetBucket_of_some _ id later _ h]
    exact ⟨rfl, rfl⟩

theorem C8_getBucket_get_or_create_witness :
    ((NewRateLimiter ⟨1, 2, 60 * Second⟩).GetBucket "192.168.1.1" 5).1 = ⟨2, 2, 1, 5⟩ ∧
      ((NewRateLimiter ⟨1, 2, 60 * Second⟩).GetBucket "192.168.1.1" 5).2.buckets.get
          "192.168.1.1" = some ⟨2, 2, 1, 5⟩ :=
  (C8_getBucket_get_or_create (NewRateLimiter ⟨1, 2, 60 * Second⟩) "192.168.1.1" 5).1
    (by decide)

theorem C10_cleanup_evicts_exactly_idle_witness :
    (((NewRateLimiter ⟨1, 2, 60 * Second⟩).run
        [("192.168.1.1", 0, 0), ("192.168.1.2", 100 * Second, 100 * Second)]).2.cleanupOldBuckets
          (120 * Second)).buckets.get "192.168.1.1" = none :=
  (C10_cleanup_evicts_exactly_idle
      ((NewRateLimiter ⟨1, 2, 60 * Second⟩).run
        [("192.168.1.1", 0, 0), ("192.168.1.2", 100 * Second, 100 * Second)]).2
      (120 * Second)).2.1 "192.168.1.1" ⟨2, 1, 1, 0⟩ (by decide) (by decide)

/-! ## Eviction and the results of later calls -/

/-- The first call of a client whose bucket is not registered: the fresh bucket allows it. -/
theorem rlAllow_of_absent (rl : RateLimiter) (id : String) (a : Int)
    (hget : rl.buckets.get id = none) (hc : 1 ≤ rl.capacity) :
    (rl.Allow id a a).1 = true ∧
      (rl.Allow id a a).2.buckets.get id =
        some ⟨rl.capacity, rl.capacity - 1, rl.refillRate, a⟩ := by
  have hfresh : (NewTokenBucket rl.capacity rl.refillRate a).Allow a =
      (true, ⟨rl.capacity, rl.capacity - 1, rl.refillRate, a⟩) := by
    have hr : (NewTokenBucket rl.capacity rl.refillRate a).refill a =
        NewTokenBucket rl.capacity rl.refillRate a :=
      refill_of_not_pos _ _ (by
        have := tokensToAdd_self (NewTokenBucket rl.capacity rl.refillRate a)
        simp only [NewTokenBucket] at this ⊢
        rw [this]; decide)
    have hA := Allow_of_pos (NewTokenBucket rl.capacity rl.refillRate a) a
      (by rw [hr]; simp only [NewTokenBucket]; omega)
    rw [hr] at hA
    exact hA
  have hb : (rl.GetBucket id a).1 = NewTokenBucket rl.capacity rl.refillRate a := by
    rw [GetBucket_of_none rl id a hget]
  constructor
  · rw [rlAllow_fst, hb, hfresh]
  · rw [rlAllow_get_self, hb, hfresh]

/-- The first call of a client whose registered bucket has been idle for longer than a
cleanup interval that is worth a full bucket, for a capacity of at most `2^20` and a rate of
at most `2^29`: the refill fills it and the call is allowed. -/
theorem rlAllow_of_idle (rl : RateLimiter) (id : String) (b : TokenBucket) (now a : Int)
    (hget : rl.buckets.get id = some b) (hcap : b.capacity = rl.capacity)
    (hrate : b.refillRate = rl.refillRate) (h0 : 0 ≤ b.tokens) (h1 : b.tokens ≤ rl.capacity)
    (hc : 1 ≤ rl.capacity) (hc2 : rl.capacity ≤ 1048576)
    (hr : 1 ≤ rl.refillRate) (hr2 : rl.refillRate ≤ 536870912)
    (hK : rl.capacity * Second ≤ rl.cleanup * rl.refillRate)
    (hstale : b.lastRefill < now - rl.cleanup) (ha : now ≤ a) :
    (rl.Allow id a a).1 = true ∧
      (rl.Allow id a a).2.buckets.get id =
        some ⟨rl.capacity, rl.capacity - 1, rl.refillRate, a⟩ := by
  have hKpos : 0 ≤ rl.cleanup := by
    by_contra hneg
    have : rl.cleanup * rl.refillRate ≤ 0 :=
      mul_nonpos_of_nonpos_of_nonneg (by omega) (by omega)
    unfold Second at hK
    omega
  have hX : (rl.cleanup + 1) * rl.refillRate ≤ (a - b.lastRefill) * b.refillRate := by
    rw [hrate]
    exact mul_le_mul_of_nonneg_right (by omega) (by omega)
  have hXS : rl.capacity * Second + 1 ≤ (a - b.lastRefill) * b.refillRate := by
    rw [add_mul, one_mul] at hX
    omega
  have hadd := tokensToAdd_ge b a rl.capacity (by omega) (by rw [hrate]; exact hr)
    (by rw [hrate]; exact hr2) hc2 hXS
  have hpos : 0 < b.tokensToAdd a := by omega
  have hrefill : b.refill a = ⟨rl.capacity, rl.capacity, rl.refillRate, a⟩ := by
    rw [refill_of_pos_inRange b a hpos (by unfold MinInt64; omega) (by unfold MaxInt64; omega),
      ← hcap, ← hrate]
    have : (if b.tokens + b.tokensToAdd a > b.capacity then b.capacity
        else b.tokens + b.tokensToAdd a) = b.capacity := by
      split <;> omega
    rw [this]
  have hA := Allow_of_pos b a (by rw [hrefill]; dsimp only; omega)
  rw [hrefill] at hA
  have hb : (rl.GetBucket id a).1 = b := by
    rw [GetBucket_of_some rl id a b hget]
  constructor
  · rw [rlAllow_fst, hb, hA]
  · rw [rlAllow_get_self, hb, hA]

/-- C9 (as amended). Eviction does not change the results when an idle cleanup interval is
worth a full bucket: let the limiter have a capacity between 1 and `2^20`, a refill rate
between 1 and `2^29` (so that the `float64` product of an idle time and the rate converts to
an `int` and is not rounded below the capacity) and `cleanup × refillRate ≥ capacity` (in
seconds), let `cleanupOldBuckets` at `now` remove the bucket of a client (a bucket of the
limiter's settings, holding between 0 and `capacity` tokens, with `lastRefill` earlier than
`now - cleanup`), and let the client's next request, at `a ≥ now`, read the same instant when
the fresh bucket is made and in its `Allow`.  Then the client's entry is gone after the
cleanup, and that request followed by any further calls of the client gets the same results
as on the limiter that kept the bucket. -/
theorem C9_eviction_keeps_results (rl : RateLimiter) (id : String) (b : TokenBucket)
    (now a : Int) (later : List (Int × Int))
    (hget : rl.buckets.get id = some b) (hcap : b.capacity = rl.capacity)
    (hrate : b.refillRate = rl.refillRate) (h0 : 0 ≤ b.tokens) (h1 : b.tokens ≤ rl.capacity)
    (hc : 1 ≤ rl.capacity) (hc2 : rl.capacity ≤ 1048576)
    (hr : 1 ≤ rl.refillRate) (hr2 : rl.refillRate ≤ 536870912)
    (hK : rl.capacity * Second ≤ rl.cleanup * rl.refillRate)
    (hstale : b.lastRefill < now - rl.cleanup) (ha : now ≤ a) :
    (rl.cleanupOldBuckets now).buckets.get id = none ∧
      ((rl.cleanupOldBuckets now).run (callsOf id ((a, a) :: later))).1 =
        (rl.run (callsOf id ((a, a) :: later))).1 := by
  have hgone : (rl.cleanupOldBuckets now).buckets.get id = none := by
    rw [get_cleanupOldBuckets, hget]
    dsimp only
    rw [if_pos hstale]
  refine ⟨hgone, ?_⟩
  have hE := rlAllow_of_absent (rl.cleanupOldBuckets now) id a hgone hc
  have hKept := rlAllow_of_idle rl id b now a hget hcap hrate h0 h1 hc hc2 hr hr2 hK hstale ha
  have sE := rlAllow_settings (rl.cleanupOldBuckets now) id a a
  have sK := rlAllow_settings rl id a a
  have hrest := run_callsOf_congr id later ((rl.cleanupOldBuckets now).Allow id a a).2
    (rl.Allow id a a).2 (by rw [hE.2, hKept.2]; rfl)
    (by rw [sE.1, sK.1]; rfl) (by rw [sE.2.1, sK.2.1]; rfl)
  have hcalls : callsOf id ((a, a) :: later) = (id, a, a) :: callsOf id later := rfl
  rw [hcalls, rlRun_cons_fst, rlRun_cons_fst]
  dsimp only
  rw [hrest, hE.1, hKept.1]

theorem C9_eviction_keeps_results_witness :
    (((NewRateLimiter ⟨10, 20, 300 * Second⟩).run [("192.168.1.1", 0, 0)]).2.cleanupOldBuckets
        (400 * Second)).buckets.get "192.168.1.1" = none ∧
      ((((NewRateLimiter ⟨10, 20, 300 * Second⟩).run [("192.168.1.1", 0, 0)]).2.cleanupOldBuckets
          (400 * Second)).run
            (callsOf "192.168.1.1"
              ((400 * Second, 400 * Second) :: [(401 * Second, 401 * Second)]))).1 =
        (((NewRateLimiter ⟨10, 20, 300 * Second⟩).run [("192.168.1.1", 0, 0)]).2.run
            (callsOf "192.168.1.1"
              ((400 * Second, 400 * Second) :: [(401 * Second, 401 * Second)]))).1 :=
  C9_eviction_keeps_results
    ((NewRateLimiter ⟨10, 20, 300 * Second⟩).run [("192.168.1.1", 0, 0)]).2
    "192.168.1.1" ⟨20, 19, 10, 0⟩ (400 * Second) (400 * Second)
    [(401 * Second, 401 * Second)]
    (by decide) (by decide) (by decide) (by decide) (by decide) (by decide) (by decide)
    (by decide) (by decide) (by decide) (by decide) (by decide)

/-- The results that one client gets at a limiter holding its bucket are the results of
that bucket, when each request reads the same instant in `GetBucket` and in `Allow`. -/
theorem rlRun_of_some (id : String) (times : List Int) :
    ∀ (rl : RateLimiter) (b : TokenBucket), rl.buckets.get id = some b →
      (rl.run (callsOf id (times.map (fun x => (x, x))))).1 = (b.run times).1 := by
  induction times with
  | nil => intro rl b _; rfl
  | cons x rest ih =>
    intro rl b hget
    have hb : (rl.GetBucket id x).1 = b := by rw [GetBucket_of_some rl id x b hget]
    have hnext := ih (rl.Allow id x x).2 (b.Allow x).2 (by rw [rlAllow_get_self, hb])
    have hcalls : callsOf id ((x :: rest).map (fun x => (x, x))) =
        (id, x, x) :: callsOf id (rest.map (fun x => (x, x))) := rfl
    rw [hcalls, rlRun_cons_fst, run_cons_fst]
    dsimp only
    rw [hnext, rlAllow_fst, hb]

/-- C9 (counterexample). Capacity 2, rate 1 per second, cleanup interval 1 s: a client
spends its two tokens at 0.5 s; the cleanup at 2 s removes its bucket (`lastRefill` 0.5 s is
earlier than the cutoff 1 s); of its next two calls at 2 s the fresh bucket allows both, while
the kept bucket, refilled by one token, allows the first and denies the second.
Second input, capacity 1, rate 1, interval 60 s: the client spends its token at 0 and is
evicted at 120 s; its next request makes the bucket at 120 s and calls `Allow` one nanosecond
later, and it calls again at 121 s: the fresh bucket counts a full second since its
construction and allows both, the kept bucket was refilled one nanosecond later and denies
the second.
Third input, capacity 3184701081, rate 11, interval 289518280.090909091 s (worth a full
bucket), both readings of a request the same: the client's bucket is empty, last refilled at
instant 0, and is evicted at 289518280.090909092 s; the `float64` product for that idle time
converts to 3184701080, one token short of the capacity, so of the client's next 3184701081
calls at that instant the fresh bucket allows all and the kept bucket denies the last.
Fourth input, capacity 5, rate `2^62`, interval 1 s: the client spends its five tokens at
instant 0 and is evicted at 4 s; for the kept bucket the product `4.0 * 2^62` is outside the
`int` range, its conversion is not positive and nothing is added, so the call at 4 s is
denied, while the fresh bucket allows it. -/
theorem C9_counterexample :
    (((NewRateLimiter ⟨1, 2, Second⟩).run
        (callsOf "192.168.1.1" [(500000000, 500000000), (500000000, 500000000)])).2.buckets.get
          "192.168.1.1" = some ⟨2, 0, 1, 500000000⟩ ∧
      (((NewRateLimiter ⟨1, 2, Second⟩).run
        (callsOf "192.168.1.1"
          [(500000000, 500000000), (500000000, 500000000)])).2.cleanupOldBuckets
            (2 * Second)).buckets.get "192.168.1.1" = none ∧
      ((((NewRateLimiter ⟨1, 2, Second⟩).run
        (callsOf "192.168.1.1"
          [(500000000, 500000000), (500000000, 500000000)])).2.cleanupOldBuckets
            (2 * Second)).run
              (callsOf "192.168.1.1" [(2 * Second, 2 * Second), (2 * Second, 2 * Second)])).1 =
        [true, true] ∧
      (((NewRateLimiter ⟨1, 2, Second⟩).run
        (callsOf "192.168.1.1" [(500000000, 500000000), (500000000, 500000000)])).2.run
            (callsOf "192.168.1.1" [(2 * Second, 2 * Second), (2 * Second, 2 * Second)])).1 =
        [true, false]) ∧
    (((NewRateLimiter ⟨1, 1, 60 * Second⟩).run [("192.168.1.1", 0, 0)]).2.buckets.get
          "192.168.1.1" = some ⟨1, 0, 1, 0⟩ ∧
      (((NewRateLimiter ⟨1, 1, 60 * Second⟩).run [("192.168.1.1", 0, 0)]).2.cleanupOldBuckets
          (120 * Second)).buckets.get "192.168.1.1" = none ∧
      ((((NewRateLimiter ⟨1, 1, 60 * Second⟩).run [("192.168.1.1", 0, 0)]).2.cleanupOldBuckets
          (120 * Second)).run
            (callsOf "192.168.1.1"
              [(120 * Second, 120 * Second + 1), (121 * Second, 121 * Second)])).1 =
        [true, true] ∧
      (((NewRateLimiter ⟨1, 1, 60 * Second⟩).run [("192.168.1.1", 0, 0)]).2.run
            (callsOf "192.168.1.1"
              [(120 * Second, 120 * Second + 1), (121 * Second, 121 * Second)])).1 =
        [true, false]) ∧
    ((3184701081 : Int) * Second ≤ 289518280090909091 * 11 ∧
      TokenBucket.tokensToAdd ⟨3184701081, 0, 11, 0⟩ 289518280090909092 = 3184701080 ∧
      ((⟨BucketMap.set BucketMap.empty "192.168.1.1" ⟨3184701081, 0, 11, 0⟩, 3184701081, 11,
          289518280090909091⟩ : RateLimiter).cleanupOldBuckets
            289518280090909092).buckets.get "192.168.1.1" = none ∧
      (((⟨BucketMap.set BucketMap.empty "192.168.1.1" ⟨3184701081, 0, 11, 0⟩, 3184701081, 11,
          289518280090909091⟩ : RateLimiter).cleanupOldBuckets 289518280090909092).run
            (callsOf "192.168.1.1"
              (List.replicate 3184701081 (289518280090909092, 289518280090909092)))).1 =
        List.replicate 3184701081 true ∧
      ((⟨BucketMap.set BucketMap.empty "192.168.1.1" ⟨3184701081, 0, 11, 0⟩, 3184701081, 11,
          289518280090909091⟩ : RateLimiter).run
            (callsOf "192.168.1.1"
              (List.replicate 3184701081 (289518280090909092, 289518280090909092)))).1 =
        List.replicate 3184701080 true ++ [false]) ∧
    (((NewRateLimiter ⟨4611686018427387904, 5, Second⟩).run
        (callsOf "192.168.1.1" [(0, 0), (0, 0), (0, 0), (0, 0), (0, 0)])).2.buckets.get
          "192.168.1.1" = some ⟨5, 0, 4611686018427387904, 0⟩ ∧
      TokenBucket.tokensToAdd ⟨5, 0, 4611686018427387904, 0⟩ (4 * Second) = MinInt64 ∧
      (((NewRateLimiter ⟨4611686018427387904, 5, Second⟩).run
        (callsOf "192.168.1.1" [(0, 0), (0, 0), (0, 0), (0, 0), (0, 0)])).2.cleanupOldBuckets
          (4 * Second)).buckets.get "192.168.1.1" = none ∧
      ((((NewRateLimiter ⟨4611686018427387904, 5, Second⟩).run
        (callsOf "192.168.1.1" [(0, 0), (0, 0), (0, 0), (0, 0), (0, 0)])).2.cleanupOldBuckets
          (4 * Second)).run (callsOf "192.168.1.1" [(4 * Second, 4 * Second)])).1 = [true] ∧
      (((NewRateLimiter ⟨4611686018427387904, 5, Second⟩).run
        (callsOf "192.168.1.1" [(0, 0), (0, 0), (0, 0), (0, 0), (0, 0)])).2.run
          (callsOf "192.168.1.1" [(4 * Second, 4 * Second)])).1 = [false]) := by
  refine ⟨⟨by decide, by decide, by decide, by decide⟩,
    ⟨by decide, by decide, by decide, by decide⟩,
    ⟨by decide, by decide, by decide, ?_, ?_⟩,
    ⟨by decide, by decide, by decide, by decide, by decide⟩⟩
  · have hgone : ((⟨BucketMap.set BucketMap.empty "192.168.1.1" ⟨3184701081, 0, 11, 0⟩,
        3184701081, 11, 289518280090909091⟩ : RateLimiter).cleanupOldBuckets
          289518280090909092).buckets.get "192.168.1.1" = none := by decide
    have hE := rlAllow_of_absent _ "192.168.1.1" 289518280090909092 hgone (by decide)
    have hrest := rlRun_of_some "192.168.1.1" (List.replicate 3184701080 289518280090909092)
      _ _ hE.2
    have hrun := run_replicate 3184701080 ⟨3184701081, 3184701080, 11, 289518280090909092⟩ 0
      (le_refl _) (by decide)
    have hsplit : List.replicate 3184701081 ((289518280090909092 : Int),
        (289518280090909092 : Int)) = (289518280090909092, 289518280090909092) ::
          List.replicate 3184701080 (289518280090909092, 289518280090909092) :=
      List.replicate_succ _ _
    have hcalls : callsOf "192.168.1.1" ((289518280090909092, 289518280090909092) ::
        List.replicate 3184701080 ((289518280090909092 : Int), (289518280090909092 : Int))) =
          ("192.168.1.1", 289518280090909092, 289518280090909092) ::
            callsOf "192.168.1.1"
              (List.replicate 3184701080 (289518280090909092, 289518280090909092)) := rfl
    have hT : List.replicate 3184701081 true = true :: List.replicate 3184701080 true :=
      List.replicate_succ _ _
    rw [List.map_replicate] at hrest
    dsimp only at hrun
    rw [hsplit, hcalls, rlRun_cons_fst]
    dsimp only
    rw [hE.1, hrest]
    have hbk : (⟨(RateLimiter.cleanupOldBuckets ⟨BucketMap.set BucketMap.empty "192.168.1.1"
        ⟨3184701081, 0, 11, 0⟩, 3184701081, 11, 289518280090909091⟩
          289518280090909092).capacity,
        (RateLimiter.cleanupOldBuckets ⟨BucketMap.set BucketMap.empty "192.168.1.1"
          ⟨3184701081, 0, 11, 0⟩, 3184701081, 11, 289518280090909091⟩
            289518280090909092).capacity - 1,
        (RateLimiter.cleanupOldBuckets ⟨BucketMap.set BucketMap.empty "192.168.1.1"
          ⟨3184701081, 0, 11, 0⟩, 3184701081, 11, 289518280090909091⟩
            289518280090909092).refillRate, 289518280090909092⟩ : TokenBucket) =
        ⟨3184701081, 3184701080, 11, 289518280090909092⟩ := by decide
    rw [hbk, hrun, hT]
  · have hget : (⟨BucketMap.set BucketMap.empty "192.168.1.1" ⟨3184701081, 0, 11, 0⟩,
        3184701081, 11, 289518280090909091⟩ : RateLimiter).buckets.get "192.168.1.1" =
          some ⟨3184701081, 0, 11, 0⟩ := by decide
    have hrun := rlRun_of_some "192.168.1.1" (List.replicate 3184701081 289518280090909092)
      _ _ hget
    have hA : TokenBucket.Allow ⟨3184701081, 0, 11, 0⟩ 289518280090909092 =
        (true, ⟨3184701081, 3184701079, 11, 289518280090909092⟩) := by decide
    have h2 := run_replicate 3184701079 ⟨3184701081, 3184701079, 11, 289518280090909092⟩ 0
      (le_refl _) (by decide)
    have hlast : (TokenBucket.run ⟨3184701081, 0, 11, 289518280090909092⟩
        [289518280090909092]).1 = [false] := by decide
    have hsplit : List.replicate 3184701081 (289518280090909092 : Int) =
        289518280090909092 :: (List.replicate 3184701079 289518280090909092 ++
          [289518280090909092]) := by
      rw [← List.replicate_succ', ← List.replicate_succ]
    have hT : List.replicate 3184701080 true = true :: List.replicate 3184701079 true :=
      List.replicate_succ _ _
    rw [List.map_replicate] at hrun
    dsimp only at h2
    rw [hrun, hsplit, run_cons_fst, hA]
    dsimp only
    rw [run_append, h2]
    dsimp only
    rw [hlast, hT, List.cons_append]

/-! ## Configuration defaults -/

/-- C11. Configuration defaults.  For every `RateLimiterConfig`, `NewRateLimiter` yields the
refill rate `RequestsPerSecond` if that is positive and 10 otherwise, the cleanup interval
`CleanupInterval` if that is positive and 5 minutes otherwise, and an empty registry; and it
yields the capacity `BurstSize` if that is positive and otherwise twice that resolved refill
rate, provided the rate is below `2^62`.  From `2^62` on the `int` product
`config.RequestsPerSecond * 2` wraps around: for `RequestsPerSecond = 2^63 - 1` and
`BurstSize = 0` the capacity is -2. -/
theorem C11_config_defaults :
    (∀ config : RateLimiterConfig,
      (NewRateLimiter config).refillRate =
          (if 0 < config.RequestsPerSecond then config.RequestsPerSecond else 10) ∧
        (NewRateLimiter config).cleanup =
          (if 0 < config.CleanupInterval then config.CleanupInterval else 5 * Minute) ∧
        (NewRateLimiter config).buckets.entries = [] ∧
        ∀ id : String, (NewRateLimiter config).buckets.get id = none) ∧
      (∀ config : RateLimiterConfig,
        0 < config.BurstSize ∨ config.RequestsPerSecond ≤ 4611686018427387903 →
        (NewRateLimiter config).capacity =
          (if 0 < config.BurstSize then config.BurstSize
            else 2 * (if 0 < config.RequestsPerSecond then config.RequestsPerSecond else 10))) ∧
      (NewRateLimiter ⟨9223372036854775807, 0, 0⟩).refillRate = 9223372036854775807 ∧
      (NewRateLimiter ⟨9223372036854775807, 0, 0⟩).capacity = -2 := by
  refine ⟨?_, ?_, by decide, by decide⟩
  · intro config
    unfold NewRateLimiter
    dsimp only
    refine ⟨?_, ?_, rfl, fun id => rfl⟩ <;>
      by_cases h1 : config.RequestsPerSecond ≤ 0 <;> by_cases h2 : config.BurstSize ≤ 0 <;>
      by_cases h3 : config.CleanupInterval ≤ 0 <;>
      simp only [h1, h2, h3, if_true, if_false, Minute] <;> (repeat' split) <;> omega
  · intro config hin
    unfold NewRateLimiter
    dsimp only
    by_cases h1 : config.RequestsPerSecond ≤ 0 <;> by_cases h2 : config.BurstSize ≤ 0 <;>
      by_cases h3 : config.CleanupInterval ≤ 0 <;>
      simp only [h1, h2, h3, if_true, if_false, wrapInt64] <;> (repeat' split) <;> omega

theorem C11_config_defaults_witness :
    (NewRateLimiter ⟨0, 0, 0⟩).capacity =
      (if (0 : Int) < (⟨0, 0, 0⟩ : RateLimiterConfig).BurstSize then
          (⟨0, 0, 0⟩ : RateLimiterConfig).BurstSize
        else 2 * (if (0 : Int) < (⟨0, 0, 0⟩ : RateLimiterConfig).RequestsPerSecond then
          (⟨0, 0, 0⟩ : RateLimiterConfig).RequestsPerSecond else 10)) :=
  C11_config_defaults.2.1 ⟨0, 0, 0⟩ (by decide)

/-! ## Expiry -/

theorem IsExpired_of_none (a : AdSpot) (t : Int) (h : a.TTLMinutes = none) :
    a.IsExpired t = false := by
  unfold AdSpot.IsExpired
  rw [h]

theorem IsExpired_of_some (a : AdSpot) (t ttl : Int) (h : a.TTLMinutes = some ttl) :
    a.IsExpired t =
      if ttl = 0 then false else decide (a.CreatedAt + wrapInt64 (ttl * Minute) < t) := by
  unfold AdSpot.IsExpired
  rw [h]

/-- Where the product of the TTL and a minute fits an `int64`, `IsExpired` is the
predicate of the specification. -/
theorem IsExpired_iff_of_inRange (a : AdSpot) (t : Int)
    (hr : ∀ ttl : Int, a.TTLMinutes = some ttl →
      -9223372036854775808 ≤ ttl * Minute ∧ ttl * Minute < 9223372036854775808) :
    a.IsExpired t = true ↔ expiredSpec a t := by
  unfold expiredSpec
  cases h : a.TTLMinutes with
  | none =>
    rw [IsExpired_of_none a t h]
    constructor
    · intro hf; cases hf
    · rintro ⟨ttl, hsome, _⟩; cases hsome
  | some ttl =>
    have hw := wrapInt64_of_inRange (ttl * Minute) (hr ttl h).1 (hr ttl h).2
    rw [IsExpired_of_some a t ttl h, hw]
    by_cases hz : ttl = 0
    · rw [if_pos hz]
      constructor
      · intro hf; cases hf
      · rintro ⟨ttl2, hsome, hne, _⟩
        cases hsome
        exact absurd hz hne
    · rw [if_neg hz]
      constructor
      · intro hd
        exact ⟨ttl, rfl, hz, of_decide_eq_true hd⟩
      · rintro ⟨ttl2, hsome, _, hlt⟩
        cases hsome
        exact decide_eq_true hlt

/-- C14. Expiry predicate, and where the code leaves it.  As long as `ttlMinutes` minutes fit
an `int64` count of nanoseconds, `IsExpired` at `t` is true iff `ttlMinutes` is present,
non-zero, and `t > createdAt + ttlMinutes` minutes (with ttl 60: false at +60 min, true at
+61 min, false at +30 min).  For a larger TTL the product wraps around: a spot created at
instant 0 with `ttlMinutes = 153722868` (about 292 years) is reported expired at instant 0,
where the predicate of the specification is false. -/
theorem C14_expiry_wraps_for_large_ttl :
    (∀ (a : AdSpot) (t : Int),
        (∀ ttl : Int, a.TTLMinutes = some ttl →
          -9223372036854775808 ≤ ttl * Minute ∧ ttl * Minute < 9223372036854775808) →
        (a.IsExpired t = true ↔ expiredSpec a t)) ∧
      (AdSpot.IsExpired ⟨"a", "t", "u", PlacementHomeScreen, some true, some 60, 0, none⟩
          (60 * Minute) = false ∧
        AdSpot.IsExpired ⟨"a", "t", "u", PlacementHomeScreen, some true, some 60, 0, none⟩
          (61 * Minute) = true ∧
        AdSpot.IsExpired ⟨"a", "t", "u", PlacementHomeScreen, some true, some 60, 0, none⟩
          (30 * Minute) = false) ∧
      (AdSpot.IsExpired
          ⟨"a", "t", "u", PlacementHomeScreen, some true, some 153722868, 0, none⟩ 0 = true ∧
        ¬ expiredSpec
          ⟨"a", "t", "u", PlacementHomeScreen, some true, some 153722868, 0, none⟩ 0) := by
  refine ⟨IsExpired_iff_of_inRange, ⟨by decide, by decide, by decide⟩, by decide, ?_⟩
  rintro ⟨ttl, hsome, _, hlt⟩
  cases hsome
  revert hlt
  decide

theorem C14_expiry_wraps_for_large_ttl_witness :
    AdSpot.IsExpired ⟨"a", "t", "u", PlacementHomeScreen, some true, some 60, 0, none⟩
        (61 * Minute) = true ↔
      expiredSpec ⟨"a", "t", "u", PlacementHomeScreen, some true, some 60, 0, none⟩
        (61 * Minute) :=
  C14_expiry_wraps_for_large_ttl.1
    ⟨"a", "t", "u", PlacementHomeScreen, some true, some 60, 0, none⟩ (61 * Minute)
    (fun ttl h => by
      cases h
      exact ⟨by decide, by decide⟩)

/-- C15. Null/zero TTL immortality: an `AdSpot` whose `ttlMinutes` is absent or 0 is not
expired, whatever its `createdAt` and the time. -/
theorem C15_no_ttl_never_expires (a : AdSpot) (t : Int)
    (h : a.TTLMinutes = none ∨ a.TTLMinutes = some 0) : a.IsExpired t = false := by
  rcases h with h | h
  · exact IsExpired_of_none a t h
  · rw [IsExpired_of_some a t 0 h, if_pos rfl]

theorem C15_no_ttl_never_expires_witness :
    AdSpot.IsExpired ⟨"a", "t", "u", PlacementHomeScreen, some true, some 0, 0, none⟩
      (120 * Minute) = false :=
  C15_no_ttl_never_expires ⟨"a", "t", "u", PlacementHomeScreen, some true, some 0, 0, none⟩
    (120 * Minute) (Or.inr rfl)

/-- C16. Expiry monotonicity: for a fixed `AdSpot` and times `t < t2`, if `IsExpired` is
true at `t` then it is true at `t2`. -/
theorem C16_expiry_monotone (a : AdSpot) (t t2 : Int) (hlt : t < t2)
    (he : a.IsExpired t = true) : a.IsExpired t2 = true := by
  cases h : a.TTLMinutes with
  | none =>
    rw [IsExpired_of_none a t h] at he
    cases he
  | some ttl =>
    rw [IsExpired_of_some a t ttl h] at he
    rw [IsExpired_of_some a t2 ttl h]
    by_cases hz : ttl = 0
    · rw [if_pos hz] at he
      cases he
    · rw [if_neg hz] at he
      rw [if_neg hz]
      have := of_decide_eq_true he
      exact decide_eq_true (by omega)

theorem C16_expiry_monotone_witness :
    AdSpot.IsExpired ⟨"a", "t", "u", PlacementHomeScreen, some true, some 60, 0, none⟩
      (90 * Minute) = true :=
  C16_expiry_monotone ⟨"a", "t", "u", PlacementHomeScreen, some true, some 60, 0, none⟩
    (61 * Minute) (90 * Minute) (by decide) (by decide)

/-! ## Placement -/

theorem Parse_home_screen (p : Placement) :
    p.Parse "home_screen" = (none, PlacementHomeScreen) := by
  unfold Placement.Parse
  rw [if_pos rfl]

theorem Parse_ride_summary (p : Placement) :
    p.Parse "ride_summary" = (none, PlacementRideSummary) := by
  unfold Placement.Parse
  rw [if_neg (by decide), if_pos rfl]

theorem Parse_map_view (p : Placement) :
    p.Parse "map_view" = (none, PlacementMapView) := by
  unfold Placement.Parse
  rw [if_neg (by decide), if_neg (by decide), if_pos rfl]

theorem Parse_of_other (p : Placement) (value : String) (h1 : value ≠ "home_screen")
    (h2 : value ≠ "ride_summary") (h3 : value ≠ "map_view") :
    p.Parse value = (some Error.InvalidPlacement, p) := by
  unfold Placement.Parse
  rw [if_neg h1, if_neg h2, if_neg h3]

theorem String_of_variants :
    PlacementHomeScreen.String = "home_screen" ∧
      PlacementRideSummary.String = "ride_summary" ∧
      PlacementMapView.String = "map_view" := by
  decide

/-- C20. Placement parsing and serialization: `Parse` accepts exactly the strings
`home_screen`, `ride_summary` and `map_view`; on every other string it returns
`InvalidPlacement` and leaves the receiver as it was; for each of the three variants `Parse`
of its `String` succeeds and yields the variant; and for each accepted string `String` of what
`Parse` yields is that string. -/
theorem C20_placement_parse_string :
    (∀ (p : Placement) (value : String),
        (p.Parse value).1 = none ↔
          value = "home_screen" ∨ value = "ride_summary" ∨ value = "map_view") ∧
      (∀ (p : Placement) (value : String),
        ¬ (value = "home_screen" ∨ value = "ride_summary" ∨ value = "map_view") →
          p.Parse value = (some Error.InvalidPlacement, p)) ∧
      (∀ p : Placement,
        p.Parse PlacementHomeScreen.String = (none, PlacementHomeScreen) ∧
          p.Parse PlacementRideSummary.String = (none, PlacementRideSummary) ∧
          p.Parse PlacementMapView.String = (none, PlacementMapView)) ∧
      (∀ (p : Placement) (value : String), (p.Parse value).1 = none →
        (p.Parse value).2.String = value) := by
  refine ⟨?_, ?_, ?_, ?_⟩
  · intro p value
    by_cases h1 : value = "home_screen"
    · subst h1
      rw [Parse_home_screen]
      exact ⟨fun _ => Or.inl rfl, fun _ => rfl⟩
    · by_cases h2 : value = "ride_summary"
      · subst h2
        rw [Parse_ride_summary]
        exact ⟨fun _ => Or.inr (Or.inl rfl), fun _ => rfl⟩
      · by_cases h3 : value = "map_view"
        · subst h3
          rw [Parse_map_view]
          exact ⟨fun _ => Or.inr (Or.inr rfl), fun _ => rfl⟩
        · rw [Parse_of_other p value h1 h2 h3]
          constructor
          · intro h; cases h
          · rintro (h | h | h)
            · exact absurd h h1
            · exact absurd h h2
            · exact absurd h h3
  · intro p value h
    exact Parse_of_other p value (fun e => h (Or.inl e)) (fun e => h (Or.inr (Or.inl e)))
      (fun e => h (Or.inr (Or.inr e)))
  · intro p
    rw [String_of_variants.1, String_of_variants.2.1, String_of_variants.2.2]
    exact ⟨Parse_home_screen p, Parse_ride_summary p, Parse_map_view p⟩
  · intro p value h
    by_cases h1 : value = "home_screen"
    · subst h1
      rw [Parse_home_screen]
      exact String_of_variants.1
    · by_cases h2 : value = "ride_summary"
      · subst h2
        rw [Parse_ride_summary]
        exact String_of_variants.2.1
      · by_cases h3 : value = "map_view"
        · subst h3
          rw [Parse_map_view]
          exact String_of_variants.2.2
        · rw [Parse_of_other p value h1 h2 h3] at h
          cases h

theorem C20_placement_parse_string_witness :
    Placement.Parse ⟨7⟩ "banner" = (some Error.InvalidPlacement, ⟨7⟩) :=
  C20_placement_parse_string.2.1 ⟨7⟩ "banner" (by decide)

/-! ## The middleware -/

theorem headerValue_filter_ne (k k2 : String) (h : k2 ≠ k) (l : List (String × String)) :
    headerValue k2 (l.filter (fun e => decide (e.1 ≠ k))) = headerValue k2 l := by
  induction l with
  | nil => rfl
  | cons e rest ih =>
    by_cases hek : e.1 = k
    · have hf : (e :: rest).filter (fun e => decide (e.1 ≠ k)) =
          rest.filter (fun e => decide (e.1 ≠ k)) := by
        simp [List.filter_cons, hek]
      have hne : ¬ e.1 = k2 := fun e2 => h (e2.symm.trans hek)
      rw [hf, ih]
      simp only [headerValue, hne, if_false]
    · have hf : (e :: rest).filter (fun e => decide (e.1 ≠ k)) =
          e :: rest.filter (fun e => decide (e.1 ≠ k)) := by
        simp [List.filter_cons, hek]
      rw [hf]
      by_cases he2 : e.1 = k2
      · simp only [headerValue, he2, if_true]
      · simp only [headerValue, he2, if_false]
        exact ih

theorem Get_Set_self (w : ResponseWriter) (k v : String) : (w.Set k v).Get k = v := by
  simp [ResponseWriter.Set, ResponseWriter.Get, headerValue]

theorem Get_Set_ne (w : ResponseWriter) (k k2 v : String) (h : k2 ≠ k) :
    (w.Set k v).Get k2 = w.Get k2 := by
  have hne : ¬ k = k2 := fun e => h e.symm
  simp only [ResponseWriter.Set, ResponseWriter.Get, headerValue, hne, if_false]
  exact headerValue_filter_ne k k2 h w.header

theorem JSONError_status (w : ResponseWriter) (body : List (String × Field)) (status : Nat) :
    (JSONError w body status).status = status := rfl

theorem JSONError_body (w : ResponseWriter) (body : List (String × Field)) (status : Nat) :
    (JSONError w body status).body = Body.object body := rfl

theorem JSONError_Get (w : ResponseWriter) (body : List (String × Field)) (status : Nat)
    (k : String) (h : k ≠ "Content-Type") : (JSONError w body status).Get k = w.Get k := by
  have : (JSONError w body status).Get k =
      (w.Set "Content-Type" "application/json; charset=utf-8").Get k := rfl
  rw [this, Get_Set_ne w _ k _ h]

theorem middleware_denied (rl : RateLimiter) (net : Net)
    (next : ResponseWriter → Request → ResponseWriter) (w : ResponseWriter) (r : Request)
    (g a g2 : Int) (h : (rl.Allow (getClientIP net r) g a).1 = false) :
    rl.RateLimitMiddleware net next w r g a g2 =
      { response := JSONError
          (((w.Set "X-RateLimit-Limit" (toString rl.refillRate)).Set
            "X-RateLimit-Remaining" "0").Set "Retry-After" "1")
          [("what", Field.str "Rate limit exceeded"),
            ("message", Field.str "Too many requests. Please try again later.")] 429
        nextCalled := false
        limiter := (rl.Allow (getClientIP net r) g a).2 } := by
  unfold RateLimiter.RateLimitMiddleware
  simp only [h, Bool.not_false, if_true]

theorem middleware_allowed (rl : RateLimiter) (net : Net)
    (next : ResponseWriter → Request → ResponseWriter) (w : ResponseWriter) (r : Request)
    (g a g2 : Int) (h : (rl.Allow (getClientIP net r) g a).1 = true) :
    rl.RateLimitMiddleware net next w r g a g2 =
      { response := next
          ((w.Set "X-RateLimit-Limit" (toString rl.refillRate)).Set "X-RateLimit-Remaining"
            (toString
              ((rl.Allow (getClientIP net r) g a).2.GetBucket (getClientIP net r) g2).1.tokens))
          r
        nextCalled := true
        limiter := ((rl.Allow (getClientIP net r) g a).2.GetBucket (getClientIP net r) g2).2 } := by
  unfold RateLimiter.RateLimitMiddleware
  simp only [h, Bool.not_true, Bool.false_eq_true, if_false]

/-- After an allowed call the bucket that `GetBucket` finds for the client is the one the
call left, which holds one token less than its refill block gave it. -/
theorem GetBucket_after_Allow (rl : RateLimiter) (id : String) (g a g2 : Int)
    (h : (rl.Allow id g a).1 = true) :
    ((rl.Allow id g a).2.GetBucket id g2).1 = ((rl.GetBucket id g).1.Allow a).2 ∧
      ((rl.Allow id g a).2.GetBucket id g2).2 = (rl.Allow id g a).2 ∧
      ((rl.GetBucket id g).1.Allow a).2.tokens = ((rl.GetBucket id g).1.refill a).tokens - 1 := by
  have hget := rlAllow_get_self rl id g a
  rw [GetBucket_of_some _ id g2 _ hget]
  refine ⟨rfl, rfl, ?_⟩
  rw [rlAllow_fst] at h
  by_cases hp : 0 < ((rl.GetBucket id g).1.refill a).tokens
  · rw [Allow_of_pos _ a hp]
  · rw [Allow_of_not_pos _ a hp] at h
    cases h

/-- C12. Middleware contract: for every request the inner handler is called iff
`Allow` of the client id returns true.  When it returns false the response has status 429,
`X-RateLimit-Limit` = the refill rate, `X-RateLimit-Remaining` = 0, `Retry-After` = 1 and the
JSON error body.  When it returns true the response is what the inner handler makes of a
writer that carries `X-RateLimit-Limit` = the refill rate and `X-RateLimit-Remaining` = the
token count of the client's bucket after the decrement.  With capacity 2 and rate 2, three
requests from `192.168.1.1:12345` get the statuses 200, 200, 429. -/
theorem C12_middleware_contract :
    (∀ (rl : RateLimiter) (net : Net) (next : ResponseWriter → Request → ResponseWriter)
        (w : ResponseWriter) (r : Request) (g a g2 : Int),
        (rl.RateLimitMiddleware net next w r g a g2).nextCalled =
            (rl.Allow (getClientIP net r) g a).1 ∧
          ((rl.Allow (getClientIP net r) g a).1 = false →
            (rl.RateLimitMiddleware net next w r g a g2).response.status = 429 ∧
              (rl.RateLimitMiddleware net next w r g a g2).response.Get "X-RateLimit-Limit" =
                toString rl.refillRate ∧
              (rl.RateLimitMiddleware net next w r g a g2).response.Get
                "X-RateLimit-Remaining" = "0" ∧
              (rl.RateLimitMiddleware net next w r g a g2).response.Get "Retry-After" = "1" ∧
              (rl.RateLimitMiddleware net next w r g a g2).response.body =
                Body.object
                  [("what", Field.str "Rate limit exceeded"),
                    ("message", Field.str "Too many requests. Please try again later.")]) ∧
          ((rl.Allow (getClientIP net r) g a).1 = true →
            ∃ b : TokenBucket,
              (rl.Allow (getClientIP net r) g a).2.buckets.get (getClientIP net r) = some b ∧
                b.tokens = ((rl.GetBucket (getClientIP net r) g).1.refill a).tokens - 1 ∧
                (rl.RateLimitMiddleware net next w r g a g2).response =
                  next ((w.Set "X-RateLimit-Limit" (toString rl.refillRate)).Set
                    "X-RateLimit-Remaining" (toString b.tokens)) r ∧
                ((w.Set "X-RateLimit-Limit" (toString rl.refillRate)).Set
                  "X-RateLimit-Remaining" (toString b.tokens)).Get "X-RateLimit-Limit" =
                  toString rl.refillRate ∧
                ((w.Set "X-RateLimit-Limit" (toString rl.refillRate)).Set
                  "X-RateLimit-Remaining" (toString b.tokens)).Get "X-RateLimit-Remaining" =
                  toString b.tokens)) ∧
      ((NewRateLimiter ⟨2, 2, 60 * Second⟩).serve netFacts testHandler
          [(testRequest, 0, 0, 0), (testRequest, 0, 0, 0), (testRequest, 0, 0, 0)]).map
        (fun w => (w.status, w.Get "X-RateLimit-Limit", w.Get "X-RateLimit-Remaining",
          w.Get "Retry-After")) =
        [(200, "2", "1", ""), (200, "2", "0", ""), (429, "2", "0", "1")] := by
  refine ⟨?_, by decide⟩
  intro rl net next w r g a g2
  refine ⟨?_, ?_, ?_⟩
  · cases h : (rl.Allow (getClientIP net r) g a).1 with
    | false => rw [middleware_denied rl net next w r g a g2 h]
    | true => rw [middleware_allowed rl net next w r g a g2 h]
  · intro h
    rw [middleware_denied rl net next w r g a g2 h]
    dsimp only
    refine ⟨rfl, ?_, ?_, ?_, rfl⟩
    · rw [JSONError_Get _ _ _ _ (by decide), Get_Set_ne _ _ _ _ (by decide),
        Get_Set_ne _ _ _ _ (by decide), Get_Set_self]
    · rw [JSONError_Get _ _ _ _ (by decide), Get_Set_ne _ _ _ _ (by decide), Get_Set_self]
    · rw [JSONError_Get _ _ _ _ (by decide), Get_Set_self]
  · intro h
    have hb := GetBucket_after_Allow rl (getClientIP net r) g a g2 h
    refine ⟨((rl.GetBucket (getClientIP net r) g).1.Allow a).2,
      rlAllow_get_self rl (getClientIP net r) g a, hb.2.2, ?_, ?_, ?_⟩
    · rw [middleware_allowed rl net next w r g a g2 h, hb.1]
    · rw [Get_Set_ne _ _ _ _ (by decide), Get_Set_self]
    · rw [Get_Set_self]

theorem C12_middleware_contract_witness :
    ((NewRateLimiter ⟨2, 2, 60 * Second⟩).RateLimitMiddleware netFacts testHandler
        ResponseWriter.fresh testRequest 0 0 0).nextCalled =
      ((NewRateLimiter ⟨2, 2, 60 * Second⟩).Allow (getClientIP netFacts testRequest) 0 0).1 :=
  (C12_middleware_contract.1 (NewRateLimiter ⟨2, 2, 60 * Second⟩) netFacts testHandler
    ResponseWriter.fresh testRequest 0 0 0).1

/-! ## Client identification -/

/-- C13 (as amended). Client identification order: `getClientIP` returns the text that
`net.IP.String()` gives for the address parsed from `X-Forwarded-For` when that header is
non-empty and parses as an IP literal; otherwise the same for `X-Real-IP`; otherwise the host
that `net.SplitHostPort` returns for the remote address, and the remote address unchanged
when that fails.  A header that does not parse is passed over: the result is the one for the
request without that header. -/
theorem C13_client_identification (net : Net) (r : Request) :
    (∀ ip : String, r.Header "X-Forwarded-For" ≠ "" →
        net.ParseIP (r.Header "X-Forwarded-For") = some ip → getClientIP net r = ip) ∧
      (∀ ip : String,
        r.Header "X-Forwarded-For" = "" ∨ net.ParseIP (r.Header "X-Forwarded-For") = none →
        r.Header "X-Real-IP" ≠ "" → net.ParseIP (r.Header "X-Real-IP") = some ip →
        getClientIP net r = ip) ∧
      (r.Header "X-Forwarded-For" = "" ∨ net.ParseIP (r.Header "X-Forwarded-For") = none →
        r.Header "X-Real-IP" = "" ∨ net.ParseIP (r.Header "X-Real-IP") = none →
        getClientIP net r =
          match net.SplitHostPort r.RemoteAddr with
          | some host => host
          | none => r.RemoteAddr) ∧
      (∀ key : String, key = "X-Forwarded-For" ∨ key = "X-Real-IP" →
        net.ParseIP (r.Header key) = none →
        getClientIP net r =
          getClientIP net { r with Header := fun k => if k = key then "" else r.Header k }) := by
  have hxff : ∀ r2 : Request,
      r2.Header "X-Forwarded-For" = "" ∨ net.ParseIP (r2.Header "X-Forwarded-For") = none →
      (if r2.Header "X-Forwarded-For" ≠ "" then net.ParseIP (r2.Header "X-Forwarded-For")
        else none) = none := by
    intro r2 h
    rcases h with h | h
    · rw [if_neg (by simp [h])]
    · split
      · exact h
      · rfl
  have hxri : ∀ r2 : Request,
      r2.Header "X-Real-IP" = "" ∨ net.ParseIP (r2.Header "X-Real-IP") = none →
      (if r2.Header "X-Real-IP" ≠ "" then net.ParseIP (r2.Header "X-Real-IP")
        else none) = none := by
    intro r2 h
    rcases h with h | h
    · rw [if_neg (by simp [h])]
    · split
      · exact h
      · rfl
  refine ⟨?_, ?_, ?_, ?_⟩
  · intro ip hne hp
    unfold getClientIP
    simp only [hne, hp, ne_eq, not_false_eq_true, if_true]
  · intro ip h1 hne hp
    unfold getClientIP
    simp only [hxff r h1, hne, hp, ne_eq, not_false_eq_true, if_true]
  · intro h1 h2
    unfold getClientIP
    simp only [hxff r h1, hxri r h2]
    cases net.SplitHostPort r.RemoteAddr <;> rfl
  · intro key hkey hp
    rcases hkey with hkey | hkey
    · subst hkey
      unfold getClientIP
      simp only [hxff r (Or.inr hp), if_true, ne_eq, not_true_eq_false, if_false]
      have hk : ¬ ("X-Real-IP" = "X-Forwarded-For") := by decide
      simp only [hk, if_false]
    · subst hkey
      unfold getClientIP
      have hk : ¬ ("X-Forwarded-For" = "X-Real-IP") := by decide
      simp only [hxri r (Or.inr hp), if_true, ne_eq, not_true_eq_false, if_false, hk]

theorem C13_client_identification_witness :
    getClientIP netFacts
        { Header := fun k => if k = "X-Real-IP" then "10.0.0.7" else ""
          RemoteAddr := "192.168.1.1:12345" } = "10.0.0.7" :=
  (C13_client_identification netFacts
      { Header := fun k => if k = "X-Real-IP" then "10.0.0.7" else ""
        RemoteAddr := "192.168.1.1:12345" }).2.1 "10.0.0.7" (Or.inl (by decide))
    (by decide) (by decide)

/-- C13 (counterexample). With `X-Forwarded-For: 2001:DB8::1`, which is not empty and parses
as an IP literal, `getClientIP` returns `2001:db8::1`, the text of the parsed address, and not
the header value. -/
theorem C13_counterexample :
    (fun k => if k = "X-Forwarded-For" then "2001:DB8::1" else "") "X-Forwarded-For" ≠ "" ∧
      netFacts.ParseIP "2001:DB8::1" ≠ none ∧
      getClientIP netFacts
          { Header := fun k => if k = "X-Forwarded-For" then "2001:DB8::1" else ""
            RemoteAddr := "192.168.1.1:12345" } = "2001:db8::1" ∧
      getClientIP netFacts
          { Header := fun k => if k = "X-Forwarded-For" then "2001:DB8::1" else ""
            RemoteAddr := "192.168.1.1:12345" } ≠ "2001:DB8::1" := by
  refine ⟨by decide, by decide, by decide, by decide⟩

/-! ## Listing -/

theorem DeleteFunc_eq_filter_enumFrom {α : Type} (del : Nat → α → Bool) (l : List α) :
    ∀ i : Nat, DeleteFunc del i l =
      ((l.enumFrom i).filter (fun p => !(del p.1 p.2))).map Prod.snd := by
  induction l with
  | nil => intro i; rfl
  | cons a rest ih =>
    intro i
    rw [DeleteFunc, List.enumFrom_cons, List.filter_cons, ih (i + 1)]
    cases h : del i a <;> simp [h]

theorem DeleteFunc_const {α : Type} (del : α → Bool) (l : List α) :
    ∀ i : Nat, DeleteFunc (fun _ a => del a) i l = l.filter (fun a => !(del a)) := by
  induction l with
  | nil => intro i; rfl
  | cons a rest ih =>
    intro i
    rw [DeleteFunc, List.filter_cons, ih (i + 1)]
    cases h : del a <;> simp [h]

theorem DeleteFunc_false {α : Type} (l : List α) :
    ∀ i : Nat, DeleteFunc (fun _ (_ : α) => false) i l = l := by
  induction l with
  | nil => intro i; rfl
  | cons a rest ih =>
    intro i
    rw [DeleteFunc, ih (i + 1)]
    rfl

/-- The response of `ListAdSpots` once both query parameters have passed and the storage
query has returned rows. -/
theorem ListAdSpots_of_rows
    (find : Option Placement → Option Bool → Except String (List AdSpot))
    (placement status : String) (clock : Nat → Int) (w : ResponseWriter) (rows : List AdSpot)
    (hp : placement = "" ∨ (Placement.Parse ⟨0⟩ placement).1 = none)
    (hs : status = "" ∨ status = "active" ∨ status = "inactive")
    (hfind : find (if placement ≠ "" then some (Placement.Parse ⟨0⟩ placement).2 else none)
      (if status ≠ "" then some (decide (status = "active")) else none) = Except.ok rows) :
    Server.ListAdSpots find placement status clock w =
      (w.Set "Content-Type" "application/json; charset=utf-8").Encode
        (Body.spots
          (DeleteFunc (fun i a => decide (status = "active") && a.IsExpired (clock i)) 0
            rows)) := by
  have h1 : ¬ (placement ≠ "" ∧ (Placement.Parse ⟨0⟩ placement).1 ≠ none) := by
    rintro ⟨ha, hb⟩
    rcases hp with hp | hp
    · exact ha hp
    · exact hb hp
  have h2 : ¬ (status ≠ "" ∧ status ≠ "active" ∧ status ≠ "inactive") := by
    rintro ⟨ha, hb, hc⟩
    rcases hs with hs | hs | hs
    · exact ha hs
    · exact hb hs
    · exact hc hs
  unfold Server.ListAdSpots
  dsimp only
  rw [if_neg h1, if_neg h2, hfind]

/-- C17. List post-filter: whatever rows the storage query returns, `ListAdSpots` answers,
when `status` is `active`, with exactly the rows that `IsExpired` does not report expired,
each at the clock reading of its own check and so, when the clock stands at `now` during the
call, at `now`, in their original order; and when `status` is `inactive` or absent, with the
rows unchanged.  For the four rows of the test (active without TTL, active with TTL 120,
active with TTL 30, inactive), one hour after their creation `status=active` returns exactly
the first two. -/
theorem C17_list_post_filter :
    (∀ (find : Option Placement → Option Bool → Except String (List AdSpot))
        (placement status : String) (clock : Nat → Int) (w : ResponseWriter)
        (rows : List AdSpot),
        placement = "" ∨ (Placement.Parse ⟨0⟩ placement).1 = none →
        find (if placement ≠ "" then some (Placement.Parse ⟨0⟩ placement).2 else none)
          (if status ≠ "" then some (decide (status = "active")) else none) = Except.ok rows →
        (status = "active" →
          (Server.ListAdSpots find placement status clock w).body =
              Body.spots
                (((rows.enumFrom 0).filter (fun p => !(p.2.IsExpired (clock p.1)))).map
                  Prod.snd) ∧
            ∀ now : Int, (∀ i : Nat, clock i = now) →
              (Server.ListAdSpots find placement status clock w).body =
                Body.spots (rows.filter (fun a => !(a.IsExpired now)))) ∧
          (status = "inactive" ∨ status = "" →
            (Server.ListAdSpots find placement status clock w).body = Body.spots rows) ∧
          (status = "active" ∨ status = "inactive" ∨ status = "" →
            (Server.ListAdSpots find placement status clock w).status = w.status)) ∧
      (Server.ListAdSpots (fun p s => Except.ok (Store.find testRows p s)) "" "active"
          (fun _ => 60 * Minute) ResponseWriter.fresh).body =
        Body.spots (testRows.take 2) := by
  refine ⟨?_, by decide⟩
  intro find placement status clock w rows hp hfind
  refine ⟨?_, ?_, ?_⟩
  · intro hs
    have h := ListAdSpots_of_rows find placement status clock w rows hp
      (Or.inr (Or.inl hs)) hfind
    rw [h]
    subst hs
    constructor
    · show Body.spots _ = Body.spots _
      rw [DeleteFunc_eq_filter_enumFrom]
      simp
    · intro now hnow
      show Body.spots _ = Body.spots _
      have hc : clock = fun _ => now := funext hnow
      subst hc
      have := DeleteFunc_const (fun a : AdSpot => a.IsExpired now) rows 0
      simp only [decide_True, Bool.true_and]
      rw [this]
  · intro hs
    have hs2 : status = "" ∨ status = "active" ∨ status = "inactive" := by
      rcases hs with hs | hs
      · exact Or.inr (Or.inr hs)
      · exact Or.inl hs
    have hna : decide (status = "active") = false := by
      rcases hs with hs | hs <;> subst hs <;> decide
    have h := ListAdSpots_of_rows find placement status clock w rows hp hs2 hfind
    rw [h]
    show Body.spots _ = Body.spots _
    simp only [hna, Bool.false_and]
    rw [DeleteFunc_false]
  · intro hs
    have hs2 : status = "" ∨ status = "active" ∨ status = "inactive" := by
      rcases hs with hs | hs | hs
      · exact Or.inr (Or.inl hs)
      · exact Or.inr (Or.inr hs)
      · exact Or.inl hs
    rw [ListAdSpots_of_rows find placement status clock w rows hp hs2 hfind]
    rfl

theorem C17_list_post_filter_witness :
    (Server.ListAdSpots (fun _ _ => Except.ok testRows) "" "inactive" (fun _ => 60 * Minute)
        ResponseWriter.fresh).body = Body.spots testRows :=
  (C17_list_post_filter.1 (fun _ _ => Except.ok testRows) "" "inactive"
    (fun _ => 60 * Minute) ResponseWriter.fresh testRows (Or.inl rfl) rfl).2.1
    (Or.inl rfl)

/-! ## Creation -/

/-- The validation errors that `CreateAdSpot` collects for a payload that has a placement,
in the order of the source. -/
theorem CreateAdSpot_of_placement (dbErr : Option String) (db : List AdSpot)
    (title imageURL : Option String) (placementValue : String) (ttl : Option Int)
    (newID : String) (now : Int) (w : ResponseWriter)
    (herr : title = none ∨ imageURL = none ∨ (Placement.Parse ⟨0⟩ placementValue).1 ≠ none) :
    Server.CreateAdSpot dbErr db ⟨title, imageURL, some placementValue, ttl⟩ newID now w =
      Outcome.done
        (JSONError w
          [("what", Field.str "Failed to validate JSON payload"),
            ("context", Field.list
              ((if title = none then ["Title field cannot be missing"] else []) ++
                (if imageURL = none then ["Image URL field cannot be missing"] else []) ++
                (if (Placement.Parse ⟨0⟩ placementValue).1 ≠ none then
                  ["Invalid value for placement field"] else [])))] 400, db) := by
  unfold Server.CreateAdSpot
  cases title <;> cases imageURL <;>
    by_cases hp : (Placement.Parse ⟨0⟩ placementValue).1 = none <;>
    simp [hp] at herr ⊢

/-- C18. Create validation, and where the code leaves it.  A payload without `placement`,
whatever its other fields, the table and the storage, makes `CreateAdSpot` panic on the nil
`payload.Placement` before it answers: no 400 response with "Placement field cannot be
missing" is written.  For a payload that has a `placement`, every missing `title` or
`imageUrl` and an invalid placement are reported together in one 400 response. -/
theorem C18_create_panics_without_placement :
    (∀ (dbErr : Option String) (db : List AdSpot) (title imageURL : Option String)
        (ttl : Option Int) (newID : String) (now : Int) (w : ResponseWriter),
        Server.CreateAdSpot dbErr db ⟨title, imageURL, none, ttl⟩ newID now w =
          Outcome.panic) ∧
      Server.CreateAdSpot none [] ⟨some "Sale", some "https://example.com/image.png", none, none⟩
          "id-1" 0 ResponseWriter.fresh = Outcome.panic ∧
      (∀ (dbErr : Option String) (db : List AdSpot) (title imageURL : Option String)
        (placementValue : String) (ttl : Option Int) (newID : String) (now : Int)
        (w : ResponseWriter),
        title = none ∨ imageURL = none ∨ (Placement.Parse ⟨0⟩ placementValue).1 ≠ none →
        Server.CreateAdSpot dbErr db ⟨title, imageURL, some placementValue, ttl⟩ newID now w =
          Outcome.done
            (JSONError w
              [("what", Field.str "Failed to validate JSON payload"),
                ("context", Field.list
                  ((if title = none then ["Title field cannot be missing"] else []) ++
                    (if imageURL = none then ["Image URL field cannot be missing"] else []) ++
                    (if (Placement.Parse ⟨0⟩ placementValue).1 ≠ none then
                      ["Invalid value for placement field"] else [])))] 400, db)) := by
  refine ⟨?_, by decide, ?_⟩
  · intro dbErr db title imageURL ttl newID now w
    rfl
  · intro dbErr db title imageURL placementValue ttl newID now w herr
    exact CreateAdSpot_of_placement dbErr db title imageURL placementValue ttl newID now w herr

theorem C18_create_panics_without_placement_witness :
    Server.CreateAdSpot none [] ⟨none, none, some "banner", none⟩ "id-1" 0
        ResponseWriter.fresh =
      Outcome.done
        (JSONError ResponseWriter.fresh
          [("what", Field.str "Failed to validate JSON payload"),
            ("context", Field.list
              ((if (none : Option String) = none then ["Title field cannot be missing"]
                  else []) ++
                (if (none : Option String) = none then ["Image URL field cannot be missing"]
                  else []) ++
                (if (Placement.Parse ⟨0⟩ "banner").1 ≠ none then
                  ["Invalid value for placement field"] else [])))] 400, []) :=
  C18_create_panics_without_placement.2.2 none [] none none "banner" none "id-1" 0
    ResponseWriter.fresh (Or.inl rfl)

/-! ## Deactivation -/

theorem filter_length_eq_zero_iff {α : Type} (p : α → Bool) (l : List α) :
    (l.filter p).length = 0 ↔ ∀ a ∈ l, p a = false := by
  induction l with
  | nil => simp
  | cons a rest ih =>
    cases h : p a
    · simp [List.filter_cons, h, ih]
    · simp [List.filter_cons, h]

theorem map_eq_self_of_forall {α : Type} (f : α → α) (l : List α)
    (h : ∀ a ∈ l, f a = a) : l.map f = l := by
  induction l with
  | nil => rfl
  | cons a rest ih =>
    rw [List.map_cons, h a (List.mem_cons_self _ _),
      ih (fun b hb => h b (List.mem_cons_of_mem _ hb))]

/-- The conditional update matches no row exactly when no row has the id and is active,
and then it leaves the table as it was. -/
theorem deactivate_of_no_match (db : List AdSpot) (id : String) (now : Int)
    (h : ∀ a ∈ db, ¬ (a.ID = id ∧ a.Status = some true)) :
    Store.deactivate db id now = (0, db) := by
  unfold Store.deactivate
  have h1 : (db.filter (fun a => decide (a.ID = id ∧ a.Status = some true))).length = 0 := by
    rw [filter_length_eq_zero_iff]
    intro a ha
    exact decide_eq_false (h a ha)
  have h2 : db.map (fun a =>
      if a.ID = id ∧ a.Status = some true then
        { a with Status := some false, DeactivatedAt := some (ISO8601.Value now) }
      else a) = db :=
    map_eq_self_of_forall _ db (fun a ha => if_neg (h a ha))
  rw [h1, h2]

theorem deactivate_of_match (db : List AdSpot) (id : String) (now : Int)
    (h : ∃ a ∈ db, a.ID = id ∧ a.Status = some true) :
    (Store.deactivate db id now).1 ≠ 0 := by
  intro h0
  unfold Store.deactivate at h0
  rw [filter_length_eq_zero_iff] at h0
  rcases h with ⟨a, ha, hm⟩
  have := h0 a ha
  rw [decide_eq_true hm] at this
  cases this

/-- After the conditional update no row with the id is active. -/
theorem deactivate_no_match_after (db : List AdSpot) (id : String) (now : Int) :
    ∀ a ∈ (Store.deactivate db id now).2, ¬ (a.ID = id ∧ a.Status = some true) := by
  intro a ha
  unfold Store.deactivate at ha
  rcases List.mem_map.1 ha with ⟨b, _, hb⟩
  by_cases hm : b.ID = id ∧ b.Status = some true
  · rw [if_pos hm] at hb
    rw [← hb]
    rintro ⟨_, hs⟩
    cases hs
  · rw [if_neg hm] at hb
    rw [← hb]
    exact hm

theorem DeactivateAdSpot_of_id (db : List AdSpot) (id : String) (now : Int)
    (w : ResponseWriter) (hid : id ≠ "") :
    Server.DeactivateAdSpot none db id now w =
      if (Store.deactivate db id now).1 = 0 then
        (JSONError w
          [("what", Field.str "Ad spot was not found, or was already inactive")] 400,
          (Store.deactivate db id now).2)
      else
        ((((w.Set "Content-Type" "application/json; charset=utf-8").WriteHeader 200).Encode
          (Body.object
            [("message", Field.str "Ad spot deactivated successfully"),
              ("id", Field.str id)])),
          (Store.deactivate db id now).2) := by
  unfold Server.DeactivateAdSpot
  rw [if_neg hid]

/-- C19 (as amended). Deactivate is a conditional one-way update: for every table of rows,
every id that is not empty and every time `now`, when the storage call succeeds: if a row
with that id is active, `DeactivateAdSpot` answers 200 and, in the table, the active rows of
that id have status inactive and `deactivatedAt` set to `now` in whole seconds (the text form
of `ISO8601.Value()` keeps no fraction of a second: the stored instant is the last whole
second up to `now`), and nothing else is changed; otherwise the table is unchanged and it
answers 400 "Ad spot was not found, or was already inactive".  A second deactivate of the
same id, at any time, answers that 400 and leaves the table, so `deactivatedAt` stays.  For
the empty id the table is unchanged and the answer is 400 "ID parameter is missing". -/
theorem C19_deactivate_conditional_update (db : List AdSpot) (id : String) (now : Int)
    (w : ResponseWriter) :
    (id ≠ "" → (∃ a ∈ db, a.ID = id ∧ a.Status = some true) →
        (Server.DeactivateAdSpot none db id now w).1.status = 200 ∧
          (Server.DeactivateAdSpot none db id now w).1.body =
            Body.object
              [("message", Field.str "Ad spot deactivated successfully"),
                ("id", Field.str id)] ∧
          (Server.DeactivateAdSpot none db id now w).2 =
            db.map (fun a =>
              if a.ID = id ∧ a.Status = some true then
                { a with Status := some false, DeactivatedAt := some (ISO8601.Value now) }
              else a)) ∧
      (id ≠ "" → (∀ a ∈ db, ¬ (a.ID = id ∧ a.Status = some true)) →
        Server.DeactivateAdSpot none db id now w =
          (JSONError w
            [("what", Field.str "Ad spot was not found, or was already inactive")] 400, db)) ∧
      (id ≠ "" → ∀ (later : Int) (w2 : ResponseWriter),
        Server.DeactivateAdSpot none (Server.DeactivateAdSpot none db id now w).2 id later w2 =
          (JSONError w2
            [("what", Field.str "Ad spot was not found, or was already inactive")] 400,
            (Server.DeactivateAdSpot none db id now w).2)) ∧
      (id = "" →
        Server.DeactivateAdSpot none db id now w =
          (JSONError w [("what", Field.str "ID parameter is missing")] 400, db)) ∧
      (ISO8601.Value now ≤ now ∧ now < ISO8601.Value now + Second ∧
        ISO8601.Value now % Second = 0) := by
  refine ⟨?_, ?_, ?_, ?_, ?_⟩
  · intro hid hm
    rw [DeactivateAdSpot_of_id db id now w hid, if_neg (deactivate_of_match db id now hm)]
    exact ⟨rfl, rfl, rfl⟩
  · intro hid hn
    rw [DeactivateAdSpot_of_id db id now w hid, deactivate_of_no_match db id now hn]
    rfl
  · intro hid later w2
    have hsnd : (Server.DeactivateAdSpot none db id now w).2 = (Store.deactivate db id now).2 := by
      rw [DeactivateAdSpot_of_id db id now w hid]
      split <;> rfl
    rw [hsnd, DeactivateAdSpot_of_id _ id later w2 hid,
      deactivate_of_no_match _ id later (deactivate_no_match_after db id now)]
    rfl
  · intro hid
    unfold Server.DeactivateAdSpot
    rw [if_pos hid]
  · unfold ISO8601.Value Second
    omega

theorem C19_deactivate_conditional_update_witness :
    (Server.DeactivateAdSpot none testRows "active_no_ttl" (5 * Minute)
        ResponseWriter.fresh).1.status = 200 ∧
      (Server.DeactivateAdSpot none testRows "active_no_ttl" (5 * Minute)
        ResponseWriter.fresh).1.body =
          Body.object
            [("message", Field.str "Ad spot deactivated successfully"),
              ("id", Field.str "active_no_ttl")] ∧
      (Server.DeactivateAdSpot none testRows "active_no_ttl" (5 * Minute)
        ResponseWriter.fresh).2 =
          testRows.map (fun a =>
            if a.ID = "active_no_ttl" ∧ a.Status = some true then
              { a with Status := some false, DeactivatedAt := some (ISO8601.Value (5 * Minute)) }
            else a) :=
  (C19_deactivate_conditional_update testRows "active_no_ttl" (5 * Minute)
    ResponseWriter.fresh).1 (by decide)
    ⟨⟨"active_no_ttl", "Test ad: active_no_ttl", "https://example.com/image.png",
      PlacementHomeScreen, some true, none, 0, none⟩, by decide, by decide⟩

/-- C19 (counterexample). With the empty id, which no row of the test table has,
`DeactivateAdSpot` answers 400 with "ID parameter is missing" and not with "Ad spot was not
found, or was already inactive"; and on a table whose active row has the empty id it answers
that 400 too and leaves the row active.  And a deactivation at `now` = 300.7 s stores
`deactivatedAt` = 300 s, not `now`. -/
theorem C19_counterexample :
    (∀ a ∈ testRows, ¬ (a.ID = "" ∧ a.Status = some true)) ∧
      (Server.DeactivateAdSpot none testRows "" (5 * Minute) ResponseWriter.fresh).1.body =
        Body.object [("what", Field.str "ID parameter is missing")] ∧
      (Server.DeactivateAdSpot none testRows "" (5 * Minute) ResponseWriter.fresh).1.body ≠
        Body.object [("what", Field.str "Ad spot was not found, or was already inactive")] ∧
      (Server.DeactivateAdSpot none
          [⟨"", "t", "u", PlacementHomeScreen, some true, none, 0, none⟩] "" (5 * Minute)
          ResponseWriter.fresh).1.status = 400 ∧
      (Server.DeactivateAdSpot none
          [⟨"", "t", "u", PlacementHomeScreen, some true, none, 0, none⟩] "" (5 * Minute)
          ResponseWriter.fresh).2 =
        [⟨"", "t", "u", PlacementHomeScreen, some true, none, 0, none⟩] ∧
      (Server.DeactivateAdSpot none
          [⟨"a", "t", "u", PlacementHomeScreen, some true, none, 0, none⟩] "a" 300700000000
          ResponseWriter.fresh).2 =
        [⟨"a", "t", "u", PlacementHomeScreen, some false, none, 0, some 300000000000⟩] ∧
      (300000000000 : Int) ≠ 300700000000 := by
  refine ⟨by decide, by decide, by decide, by decide, by decide, by decide, by decide⟩

/-! ## Lifetime bound -/

theorem added_cons (tb : TokenBucket) (now : Int) (rest : List Int) :
    tb.added (now :: rest) =
      (if tb.tokensToAdd now > 0 then tb.tokensToAdd now else 0) +
        (tb.Allow now).2.added rest := rfl

/-- One call: the tokens it leaves and the admission it grants are paid by the tokens
before it and the tokens its refill block adds; and the token count stays an `int64`. -/
theorem Allow_tokens_le (tb : TokenBucket) (now : Int) (hlo : MinInt64 ≤ tb.tokens)
    (hc : MinInt64 ≤ tb.capacity) :
    (if (tb.Allow now).1 then 1 else 0) + (tb.Allow now).2.tokens ≤
        tb.tokens + (if tb.tokensToAdd now > 0 then tb.tokensToAdd now else 0) ∧
      MinInt64 ≤ (tb.Allow now).2.tokens := by
  have hre : (tb.refill now).tokens ≤
      tb.tokens + (if tb.tokensToAdd now > 0 then tb.tokensToAdd now else 0) ∧
      MinInt64 ≤ (tb.refill now).tokens := by
    by_cases h : 0 < tb.tokensToAdd now
    · have hif : (if tb.tokensToAdd now > 0 then tb.tokensToAdd now else 0) =
          tb.tokensToAdd now := if_pos h
      have hw := wrapInt64_bounds (tb.tokens + tb.tokensToAdd now)
      rw [hif, refill_of_pos tb now h]
      dsimp only
      split <;> omega
    · have hif : (if tb.tokensToAdd now > 0 then tb.tokensToAdd now else 0) = 0 := if_neg h
      rw [hif, refill_of_not_pos tb now h]
      omega
  by_cases hp : 0 < (tb.refill now).tokens
  · rw [Allow_of_pos tb now hp]
    dsimp only
    simp only [if_true]
    unfold MinInt64 at *
    omega
  · rw [Allow_of_not_pos tb now hp]
    dsimp only
    simp only [Bool.false_eq_true, if_false]
    omega

/-- Over a run the admissions and the tokens left are paid by the tokens at the start and
the tokens added. -/
theorem run_count_le_added (times : List Int) :
    ∀ tb : TokenBucket, MinInt64 ≤ tb.tokens → MinInt64 ≤ tb.capacity →
      (((tb.run times).1.count true : Nat) : Int) + (tb.run times).2.tokens ≤
        tb.tokens + tb.added times := by
  induction times with
  | nil =>
    intro tb _ _
    simp [TokenBucket.run, TokenBucket.added]
  | cons now rest ih =>
    intro tb hlo hc
    have h1 := Allow_tokens_le tb now hlo hc
    have h2 := ih (tb.Allow now).2 h1.2 (by rw [Allow_capacity]; exact hc)
    rw [run_cons_fst, run_cons_snd, count_true_cons, added_cons]
    omega

/-- The tokens added over a run, on top of those added before, are covered by the time from
`t0` to the last refill, while the time from `lastRefill` to the latest call is worth less
than `2^20` tokens. -/
theorem run_added_le (times : List Int) :
    ∀ (tb : TokenBucket) (t0 acc T : Int), 0 ≤ tb.refillRate → (∀ x ∈ times, x ≤ T) →
      (T - tb.lastRefill) * tb.refillRate < 1048576 * Second →
      Second * acc ≤ (tb.lastRefill - t0) * tb.refillRate →
      Second * (acc + tb.added times) ≤
        ((tb.run times).2.lastRefill - t0) * tb.refillRate := by
  induction times with
  | nil =>
    intro tb t0 acc T _ _ _ h
    simpa [TokenBucket.run, TokenBucket.added] using h
  | cons now rest ih =>
    intro tb t0 acc T hr hall hsm h
    have hnT : now ≤ T := hall now (List.mem_cons_self _ _)
    have hall2 : ∀ x ∈ rest, x ≤ T := fun y hy => hall y (List.mem_cons_of_mem _ hy)
    rw [run_cons_snd, added_cons]
    by_cases hp : 0 < tb.tokensToAdd now
    · have hL0 : tb.lastRefill ≤ now := by
        by_contra hcon
        have := tokensToAdd_of_le tb now hr (by omega)
        omega
      have hxs : (now - tb.lastRefill) * tb.refillRate < 1048576 * Second :=
        lt_of_le_of_lt (elapsed_le _ _ _ _ hnT hr) hsm
      have hs := tokensToAdd_of_small tb now hL0 hr hxs
      have hm : Second * tb.tokensToAdd now ≤ (now - tb.lastRefill) * tb.refillRate := by
        unfold Second at hs ⊢
        omega
      have hL : (tb.Allow now).2.lastRefill = now := by
        rw [Allow_lastRefill, refill_of_pos tb now hp]
      have hsplit : (now - t0) * tb.refillRate =
          (tb.lastRefill - t0) * tb.refillRate + (now - tb.lastRefill) * tb.refillRate := by
        ring
      have hsm2 : (T - now) * tb.refillRate ≤ (T - tb.lastRefill) * tb.refillRate :=
        mul_le_mul_of_nonneg_right (by omega) hr
      have hnext := ih (tb.Allow now).2 t0 (acc + tb.tokensToAdd now) T
        (by rw [Allow_refillRate]; exact hr) hall2
        (by rw [hL, Allow_refillRate]; omega)
        (by rw [hL, Allow_refillRate, hsplit, mul_add]; omega)
      rw [Allow_refillRate] at hnext
      rw [if_pos (by simpa using hp), ← add_assoc]
      exact hnext
    · have hL : (tb.Allow now).2.lastRefill = tb.lastRefill := by
        rw [Allow_lastRefill, refill_of_not_pos tb now hp]
      have hnext := ih (tb.Allow now).2 t0 acc T
        (by rw [Allow_refillRate]; exact hr) hall2
        (by rw [hL, Allow_refillRate]; exact hsm)
        (by rw [hL, Allow_refillRate]; exact h)
      rw [Allow_refillRate] at hnext
      rw [if_neg (by simpa using hp), zero_add]
      exact hnext

/-- C23 (as amended). Lifetime admission bound: on a bucket built by `NewTokenBucket` at `t0`
with capacity and refill rate of at least one, called at non-decreasing instants none of
which is after `T ≥ t0`, where the time from `t0` to `T` is worth less than `2^20` tokens of
refill, the calls that return true number at most `capacity + floor((T - t0) × refillRate)`.
Behind it: under the same bound on `T` (for any capacity, a rate that is not negative and
calls in any order) the tokens added by all refills of a run never exceed
`floor((lastRefill - t0) × refillRate)`; and for every `int` capacity, rate and instants the
admissions plus the tokens left never exceed the capacity plus the tokens added. -/
theorem C23_lifetime_admission_bound :
    (∀ (capacity refillRate t0 T : Int) (times : List Int),
        1 ≤ capacity → 1 ≤ refillRate →
        List.Chain (· ≤ ·) t0 times → (∀ x ∈ times, x ≤ T) → t0 ≤ T →
        (T - t0) * refillRate < 1048576 * Second →
        ((((NewTokenBucket capacity refillRate t0).run times).1.count true : Nat) : Int) ≤
          capacity + ((T - t0) * refillRate) / Second) ∧
      (∀ (capacity refillRate t0 T : Int) (times : List Int), 0 ≤ refillRate →
        (∀ x ∈ times, x ≤ T) → (T - t0) * refillRate < 1048576 * Second →
        (NewTokenBucket capacity refillRate t0).added times ≤
          ((((NewTokenBucket capacity refillRate t0).run times).2.lastRefill - t0) *
            refillRate) / Second) ∧
      (∀ (capacity refillRate t0 : Int) (times : List Int), MinInt64 ≤ capacity →
        ((((NewTokenBucket capacity refillRate t0).run times).1.count true : Nat) : Int) +
            ((NewTokenBucket capacity refillRate t0).run times).2.tokens ≤
          capacity + (NewTokenBucket capacity refillRate t0).added times) := by
  refine ⟨?_, ?_, ?_⟩
  · intro capacity refillRate t0 T times hc hr hch hall hT hsm
    have h := run_count_le_credit times (NewTokenBucket capacity refillRate t0) t0 T hch
      (le_refl _) hT hall (by simp only [NewTokenBucket]; omega)
      (by simp only [NewTokenBucket]; unfold MinInt64; omega) (le_refl _) hc hsm
    have hcr : credit (NewTokenBucket capacity refillRate t0) T =
        Second * max capacity 0 + (T - t0) * refillRate := rfl
    rw [hcr] at h
    unfold Second at h ⊢
    omega
  · intro capacity refillRate t0 T times hr hall hsm
    have h := run_added_le times (NewTokenBucket capacity refillRate t0) t0 0 T hr hall hsm
      (by simp [NewTokenBucket])
    have hrr : (NewTokenBucket capacity refillRate t0).refillRate = refillRate := rfl
    rw [hrr, zero_add] at h
    unfold Second at h ⊢
    omega
  · intro capacity refillRate t0 times hc
    exact run_count_le_added times (NewTokenBucket capacity refillRate t0) hc hc

theorem C23_lifetime_admission_bound_witness :
    ((((NewTokenBucket 3 1 0).run [0, 0, 0, 0, 1100000000, 1100000000]).1.count true : Nat) :
        Int) ≤ 3 + ((1100000000 - 0) * 1) / Second :=
  C23_lifetime_admission_bound.1 3 1 0 1100000000 [0, 0, 0, 0, 1100000000, 1100000000]
    (by decide) (by decide)
    (List.Chain.cons (by decide) (List.Chain.cons (by decide) (List.Chain.cons (by decide)
      (List.Chain.cons (by decide) (List.Chain.cons (by decide)
        (List.Chain.cons (by decide) List.Chain.nil))))))
    (by decide) (by decide) (by decide)

/-- C23 (counterexample). At rate 1 the elapsed time 16777216.999999999 s rounds, in
`float64`, to 16777217 s: the one call at that instant adds 16777217 tokens, where
`floor((lastRefill - t0) × refillRate) = 16777216`.  So the bucket of capacity 16777217 built
at instant 0, called 16777217 times at once and 16777217 times at that instant (a
non-decreasing sequence that ends at `T`), allows all 33554434 calls, one more than
`capacity + floor((T - t0) × refillRate) = 33554433`. -/
theorem C23_counterexample :
    (NewTokenBucket 1 1 0).added [16777216999999999] = 16777217 ∧
      ((((NewTokenBucket 1 1 0).run [16777216999999999]).2.lastRefill - 0) * 1) / Second =
        16777216 ∧
      List.Chain (· ≤ ·) (0 : Int)
        (List.replicate 16777217 0 ++ List.replicate 16777217 16777216999999999) ∧
      (((((NewTokenBucket 16777217 1 0).run
        (List.replicate 16777217 0 ++ List.replicate 16777217 16777216999999999)).1.count
          true : Nat) : Int) = 33554434) ∧
      16777217 + ((16777216999999999 - 0) * 1) / Second = 33554433 :=
  ⟨by decide, by decide, run_rounded_up.1, run_rounded_up.2, by decide⟩

/-! ## Query parameters of the list -/

theorem Parse_fst_eq_none_iff (p : Placement) (value : String) :
    (p.Parse value).1 = none ↔
      value = "home_screen" ∨ value = "ride_summary" ∨ value = "map_view" := by
  by_cases h1 : value = "home_screen"
  · subst h1
    rw [Parse_home_screen]
    exact ⟨fun _ => Or.inl rfl, fun _ => rfl⟩
  · by_cases h2 : value = "ride_summary"
    · subst h2
      rw [Parse_ride_summary]
      exact ⟨fun _ => Or.inr (Or.inl rfl), fun _ => rfl⟩
    · by_cases h3 : value = "map_view"
      · subst h3
        rw [Parse_map_view]
        exact ⟨fun _ => Or.inr (Or.inr rfl), fun _ => rfl⟩
      · rw [Parse_of_other p value h1 h2 h3]
        constructor
        · intro h; cases h
        · rintro (h | h | h)
          · exact absurd h h1
          · exact absurd h h2
          · exact absurd h h3

theorem Parse_snd_String (p : Placement) (value : String)
    (h : value = "home_screen" ∨ value = "ride_summary" ∨ value = "map_view") :
    (p.Parse value).2.String = value := by
  rcases h with h | h | h
  · subst h
    rw [Parse_home_screen]
    exact String_of_variants.1
  · subst h
    rw [Parse_ride_summary]
    exact String_of_variants.2.1
  · subst h
    rw [Parse_map_view]
    exact String_of_variants.2.2

theorem ListAdSpots_of_bad_placement
    (find : Option Placement → Option Bool → Except String (List AdSpot))
    (placement status : String) (clock : Nat → Int) (w : ResponseWriter)
    (h : placement ≠ "" ∧ (Placement.Parse ⟨0⟩ placement).1 ≠ none) :
    Server.ListAdSpots find placement status clock w =
      JSONError w [("what", Field.str "Invalid value for placement field")] 400 := by
  unfold Server.ListAdSpots
  dsimp only
  rw [if_pos h]

theorem ListAdSpots_of_bad_status
    (find : Option Placement → Option Bool → Except String (List AdSpot))
    (placement status : String) (clock : Nat → Int) (w : ResponseWriter)
    (hp : ¬ (placement ≠ "" ∧ (Placement.Parse ⟨0⟩ placement).1 ≠ none))
    (h : status ≠ "" ∧ status ≠ "active" ∧ status ≠ "inactive") :
    Server.ListAdSpots find placement status clock w =
      JSONError w [("what", Field.str "Invalid value for status field")] 400 := by
  unfold Server.ListAdSpots
  dsimp only
  rw [if_neg hp, if_pos h]

theorem ListAdSpots_of_good
    (find : Option Placement → Option Bool → Except String (List AdSpot))
    (placement status : String) (clock : Nat → Int) (w : ResponseWriter)
    (hp : ¬ (placement ≠ "" ∧ (Placement.Parse ⟨0⟩ placement).1 ≠ none))
    (hs : ¬ (status ≠ "" ∧ status ≠ "active" ∧ status ≠ "inactive")) :
    Server.ListAdSpots find placement status clock w =
      match find (if placement ≠ "" then some (Placement.Parse ⟨0⟩ placement).2 else none)
          (if status ≠ "" then some (decide (status = "active")) else none) with
      | Except.error err =>
        JSONError w
          [("what", Field.str "Failed to execute database query"), ("context", Field.str err)]
          500
      | Except.ok rows =>
        (w.Set "Content-Type" "application/json; charset=utf-8").Encode
          (Body.spots
            (DeleteFunc (fun i a => decide (status = "active") && a.IsExpired (clock i)) 0
              rows)) := by
  unfold Server.ListAdSpots
  dsimp only
  rw [if_neg hp, if_neg hs]

/-- The rows that the storage query returns are the rows of the table that pass both
equality filters. -/
theorem mem_Store_find (db : List AdSpot) (placement : Option Placement)
    (status : Option Bool) (a : AdSpot) :
    a ∈ Store.find db placement status ↔
      a ∈ db ∧ (∀ p : Placement, placement = some p → a.Placement = p) ∧
        (∀ s : Bool, status = some s → a.Status = some s) := by
  unfold Store.find
  rw [(List.perm_insertionSort _ _).mem_iff, List.mem_filter]
  cases placement <;> cases status <;> simp

/-- C21. List query-parameter validation: `ListAdSpots` answers 400 iff the placement
parameter is non-empty and not one of the three enum strings, or the status parameter is
non-empty and neither `active` nor `inactive`; that answer is an error object, no rows, and
the storage is not asked.  Otherwise the storage is asked with no filter for an empty
parameter, with the equality filter on the parsed placement for a valid placement, and with
the equality filter on the boolean `status = "active"` for a valid status; on the table
behind the adapter these filters select exactly the rows with that placement and that
status. -/
theorem C21_list_parameter_validation :
    (∀ (find : Option Placement → Option Bool → Except String (List AdSpot))
        (placement status : String) (clock : Nat → Int),
        (Server.ListAdSpots find placement status clock ResponseWriter.fresh).status = 400 ↔
          (placement ≠ "" ∧
              ¬ (placement = "home_screen" ∨ placement = "ride_summary" ∨
                placement = "map_view")) ∨
            (status ≠ "" ∧ status ≠ "active" ∧ status ≠ "inactive")) ∧
      (∀ (find : Option Placement → Option Bool → Except String (List AdSpot))
        (placement status : String) (clock : Nat → Int) (w : ResponseWriter),
        (placement ≠ "" ∧
            ¬ (placement = "home_screen" ∨ placement = "ride_summary" ∨
              placement = "map_view")) ∨
          (status ≠ "" ∧ status ≠ "active" ∧ status ≠ "inactive") →
        (∃ what : String,
            Server.ListAdSpots find placement status clock w =
              JSONError w [("what", Field.str what)] 400) ∧
          ∀ find2 : Option Placement → Option Bool → Except String (List AdSpot),
            Server.ListAdSpots find2 placement status clock w =
              Server.ListAdSpots find placement status clock w) ∧
      (∀ (find : Option Placement → Option Bool → Except String (List AdSpot))
        (placement status : String) (clock : Nat → Int) (w : ResponseWriter),
        ¬ ((placement ≠ "" ∧
            ¬ (placement = "home_screen" ∨ placement = "ride_summary" ∨
              placement = "map_view")) ∨
          (status ≠ "" ∧ status ≠ "active" ∧ status ≠ "inactive")) →
        Server.ListAdSpots find placement status clock w =
            (match find
                (if placement ≠ "" then some (Placement.Parse ⟨0⟩ placement).2 else none)
                (if status ≠ "" then some (decide (status = "active")) else none) with
              | Except.error err =>
                JSONError w
                  [("what", Field.str "Failed to execute database query"),
                    ("context", Field.str err)] 500
              | Except.ok rows =>
                (w.Set "Content-Type" "application/json; charset=utf-8").Encode
                  (Body.spots
                    (DeleteFunc
                      (fun i a => decide (status = "active") && a.IsExpired (clock i)) 0
                      rows))) ∧
          (placement ≠ "" → (Placement.Parse ⟨0⟩ placement).2.String = placement)) ∧
      (∀ (db : List AdSpot) (placement : Option Placement) (status : Option Bool)
        (a : AdSpot),
        a ∈ Store.find db placement status ↔
          a ∈ db ∧ (∀ p : Placement, placement = some p → a.Placement = p) ∧
            (∀ s : Bool, status = some s → a.Status = some s)) := by
  have hbad : ∀ placement : String,
      (placement ≠ "" ∧ (Placement.Parse ⟨0⟩ placement).1 ≠ none) ↔
        (placement ≠ "" ∧
          ¬ (placement = "home_screen" ∨ placement = "ride_summary" ∨
            placement = "map_view")) := by
    intro placement
    have hiff := Parse_fst_eq_none_iff ⟨0⟩ placement
    constructor
    · rintro ⟨h1, h2⟩
      exact ⟨h1, fun h => h2 (hiff.2 h)⟩
    · rintro ⟨h1, h2⟩
      exact ⟨h1, fun h => h2 (hiff.1 h)⟩
  refine ⟨?_, ?_, ?_, mem_Store_find⟩
  · intro find placement status clock
    by_cases hp : placement ≠ "" ∧ (Placement.Parse ⟨0⟩ placement).1 ≠ none
    · rw [ListAdSpots_of_bad_placement find placement status clock _ hp]
      exact ⟨fun _ => Or.inl ((hbad placement).1 hp), fun _ => rfl⟩
    · by_cases hs : status ≠ "" ∧ status ≠ "active" ∧ status ≠ "inactive"
      · rw [ListAdSpots_of_bad_status find placement status clock _ hp hs]
        exact ⟨fun _ => Or.inr hs, fun _ => rfl⟩
      · rw [ListAdSpots_of_good find placement status clock _ hp hs]
        constructor
        · intro h
          exfalso
          revert h
          cases find (if placement ≠ "" then some (Placement.Parse ⟨0⟩ placement).2 else none)
              (if status ≠ "" then some (decide (status = "active")) else none) with
          | error err => intro h; cases h
          | ok rows => intro h; cases h
        · rintro (h | h)
          · exact absurd ((hbad placement).2 h) hp
          · exact absurd h hs
  · intro find placement status clock w hbadparam
    by_cases hp : placement ≠ "" ∧ (Placement.Parse ⟨0⟩ placement).1 ≠ none
    · refine ⟨⟨"Invalid value for placement field",
        ListAdSpots_of_bad_placement find placement status clock w hp⟩, fun find2 => ?_⟩
      rw [ListAdSpots_of_bad_placement find placement status clock w hp,
        ListAdSpots_of_bad_placement find2 placement status clock w hp]
    · have hs : status ≠ "" ∧ status ≠ "active" ∧ status ≠ "inactive" := by
        rcases hbadparam with h | h
        · exact absurd ((hbad placement).2 h) hp
        · exact h
      refine ⟨⟨"Invalid value for status field",
        ListAdSpots_of_bad_status find placement status clock w hp hs⟩, fun find2 => ?_⟩
      rw [ListAdSpots_of_bad_status find placement status clock w hp hs,
        ListAdSpots_of_bad_status find2 placement status clock w hp hs]
  · intro find placement status clock w hgood
    have hp : ¬ (placement ≠ "" ∧ (Placement.Parse ⟨0⟩ placement).1 ≠ none) :=
      fun h => hgood (Or.inl ((hbad placement).1 h))
    have hs : ¬ (status ≠ "" ∧ status ≠ "active" ∧ status ≠ "inactive") :=
      fun h => hgood (Or.inr h)
    refine ⟨ListAdSpots_of_good find placement status clock w hp hs, fun hne => ?_⟩
    apply Parse_snd_String
    by_contra hnot
    exact hgood (Or.inl ⟨hne, hnot⟩)

theorem C21_list_parameter_validation_witness :
    (∃ what : String,
        Server.ListAdSpots (fun p s => Except.ok (Store.find testRows p s)) "banner" "active"
            (fun _ => 60 * Minute) ResponseWriter.fresh =
          JSONError ResponseWriter.fresh [("what", Field.str what)] 400) ∧
      ∀ find2 : Option Placement → Option Bool → Except String (List AdSpot),
        Server.ListAdSpots find2 "banner" "active" (fun _ => 60 * Minute)
            ResponseWriter.fresh =
          Server.ListAdSpots (fun p s => Except.ok (Store.find testRows p s)) "banner" "active"
            (fun _ => 60 * Minute) ResponseWriter.fresh :=
  C21_list_parameter_validation.2.1 (fun p s => Except.ok (Store.find testRows p s)) "banner"
    "active" (fun _ => 60 * Minute) ResponseWriter.fresh (Or.inl (by decide))

/-! ## Concurrent calls -/

theorem lookupPtr_cons (k id : String) (p : Nat) (l : List (String × Nat)) :
    lookupPtr k ((id, p) :: l) = if id = k then some p else lookupPtr k l := rfl

theorem lookupPtr_eq_none (k : String) (l : List (String × Nat))
    (h : lookupPtr k l = none) : k ∉ l.map Prod.fst := by
  induction l with
  | nil => simp
  | cons e rest ih =>
    by_cases hek : e.1 = k
    · simp [lookupPtr, hek] at h
    · simp only [lookupPtr, hek, if_false] at h
      intro hmem
      rw [List.map_cons, List.mem_cons] at hmem
      rcases hmem with hmem | hmem
      · exact hek hmem.symm
      · exact ih h hmem

/-- The pointer read under an id is an entry of the map. -/
theorem lookupPtr_mem (k : String) (p : Nat) (l : List (String × Nat))
    (h : lookupPtr k l = some p) : (k, p) ∈ l := by
  induction l with
  | nil => cases h
  | cons e rest ih =>
    by_cases hek : e.1 = k
    · simp only [lookupPtr, hek, if_true] at h
      have he : e = (k, p) := by
        rcases e with ⟨a, b⟩
        simp only at hek
        cases h
        rw [hek]
      rw [he]
      exact List.mem_cons_self _ _
    · simp only [lookupPtr, hek, if_false] at h
      exact List.mem_cons_of_mem _ (ih h)

/-- In a map with one entry per id, an entry is what the read under its id gives. -/
theorem lookupPtr_of_mem (k : String) (p : Nat) (l : List (String × Nat))
    (hnd : (l.map Prod.fst).Nodup) (h : (k, p) ∈ l) : lookupPtr k l = some p := by
  induction l with
  | nil => cases h
  | cons e rest ih =>
    rw [List.map_cons, List.nodup_cons] at hnd
    rcases List.mem_cons.1 h with he | hrest
    · rw [← he]
      simp [lookupPtr]
    · have hne : e.1 ≠ k := by
        intro hek
        apply hnd.1
        rw [hek]
        exact List.mem_map.2 ⟨(k, p), hrest, rfl⟩
      simp only [lookupPtr, hne, if_false]
      exact ih hnd.2 hrest

theorem step_start (s : SharedLimiter) (id : String) (now : Int) :
    s.step ⟨id, Progress.start⟩ now =
      match lookupPtr id s.buckets with
      | some p => (s, ⟨id, Progress.holding p⟩)
      | none => (s, ⟨id, Progress.missed⟩) := rfl

theorem step_missed (s : SharedLimiter) (id : String) (now : Int) :
    s.step ⟨id, Progress.missed⟩ now =
      match lookupPtr id s.buckets with
      | some p => (s, ⟨id, Progress.holding p⟩)
      | none =>
        ({ s with
            heap := s.heap ++ [NewTokenBucket s.capacity s.refillRate now]
            buckets := (id, s.heap.length) :: s.buckets },
          ⟨id, Progress.holding s.heap.length⟩) := rfl

theorem step_holding (s : SharedLimiter) (id : String) (q : Nat) (now : Int) :
    s.step ⟨id, Progress.holding q⟩ now =
      match s.heap[q]? with
      | some tb =>
        ({ s with heap := s.heap.set q (tb.Allow now).2 },
          ⟨id, Progress.returned q (tb.Allow now).1⟩)
      | none => (s, ⟨id, Progress.holding q⟩) := rfl

theorem step_returned (s : SharedLimiter) (id : String) (q : Nat) (ok : Bool) (now : Int) :
    s.step ⟨id, Progress.returned q ok⟩ now = (s, ⟨id, Progress.returned q ok⟩) := rfl

/-- What one critical section of a call does to the shared memory and to the call: either
the map and the number of buckets stay, and a pointer the call then has is one it had or the
registered one; or the id was absent, and one bucket is allocated, registered under the id
and handed to the call. -/
theorem step_cases (s : SharedLimiter) (c : Caller) (now : Int) :
    (s.step c now).2.clientID = c.clientID ∧
      (((s.step c now).1.buckets = s.buckets ∧
          (s.step c now).1.heap.length = s.heap.length ∧
          ∀ p : Nat, (s.step c now).2.bucket = some p →
            c.bucket = some p ∨ lookupPtr c.clientID s.buckets = some p) ∨
        (lookupPtr c.clientID s.buckets = none ∧
          (s.step c now).1.buckets = (c.clientID, s.heap.length) :: s.buckets ∧
          (s.step c now).1.heap.length = s.heap.length + 1 ∧
          (s.step c now).2.bucket = some s.heap.length)) := by
  rcases c with ⟨id, pc⟩
  cases pc with
  | start =>
    rw [step_start]
    cases h : lookupPtr id s.buckets with
    | none =>
      refine ⟨rfl, Or.inl ⟨rfl, rfl, ?_⟩⟩
      intro p hp
      cases hp
    | some q =>
      refine ⟨rfl, Or.inl ⟨rfl, rfl, ?_⟩⟩
      intro p hp
      exact Or.inr hp
  | missed =>
    rw [step_missed]
    cases h : lookupPtr id s.buckets with
    | none =>
      refine ⟨rfl, Or.inr ⟨rfl, rfl, ?_, rfl⟩⟩
      exact List.length_append _ _
    | some q =>
      refine ⟨rfl, Or.inl ⟨rfl, rfl, ?_⟩⟩
      intro p hp
      exact Or.inr hp
  | holding q =>
    rw [step_holding]
    cases h : s.heap[q]? with
    | none =>
      refine ⟨rfl, Or.inl ⟨rfl, rfl, ?_⟩⟩
      intro p hp
      exact Or.inl hp
    | some tb =>
      refine ⟨rfl, Or.inl ⟨rfl, List.length_set _ _ _, ?_⟩⟩
      intro p hp
      exact Or.inl hp
  | returned q ok =>
    rw [step_returned]
    refine ⟨rfl, Or.inl ⟨rfl, rfl, ?_⟩⟩
    intro p hp
    exact Or.inl hp

/-- A critical section of a call keeps the settings of the limiter; a bucket then in memory
was there before, with the same two constants, or is the new one, with the limiter's
settings. -/
theorem step_heap (s : SharedLimiter) (c : Caller) (now : Int) :
    (s.step c now).1.capacity = s.capacity ∧ (s.step c now).1.refillRate = s.refillRate ∧
      (s.step c now).1.cleanup = s.cleanup ∧
      ∀ (p : Nat) (tb : TokenBucket), (s.step c now).1.heap[p]? = some tb →
        (∃ tb0 : TokenBucket, s.heap[p]? = some tb0 ∧ tb.capacity = tb0.capacity ∧
          tb.refillRate = tb0.refillRate) ∨
        (p = s.heap.length ∧ tb.capacity = s.capacity ∧ tb.refillRate = s.refillRate) := by
  rcases c with ⟨id, pc⟩
  cases pc with
  | start =>
    rw [step_start]
    cases h : lookupPtr id s.buckets <;>
      exact ⟨rfl, rfl, rfl, fun p tb hp => Or.inl ⟨tb, hp, rfl, rfl⟩⟩
  | missed =>
    rw [step_missed]
    cases h : lookupPtr id s.buckets with
    | some q => exact ⟨rfl, rfl, rfl, fun p tb hp => Or.inl ⟨tb, hp, rfl, rfl⟩⟩
    | none =>
      refine ⟨rfl, rfl, rfl, ?_⟩
      intro p tb hp
      dsimp only at hp
      rcases Nat.lt_or_ge p s.heap.length with hlt | hge
      · rw [List.getElem?_append_left hlt] at hp
        exact Or.inl ⟨tb, hp, rfl, rfl⟩
      · rw [List.getElem?_append_right hge] at hp
        rcases Nat.eq_or_lt_of_le hge with heq | hgt
        · rw [← heq, Nat.sub_self] at hp
          simp only [List.getElem?_cons_zero, Option.some.injEq] at hp
          rw [← hp]
          exact Or.inr ⟨heq.symm, rfl, rfl⟩
        · have hpos : 0 < p - s.heap.length := by omega
          have hnone : [NewTokenBucket s.capacity s.refillRate now][p - s.heap.length]? = none :=
            List.getElem?_eq_none (by simp only [List.length_singleton]; omega)
          rw [hnone] at hp
          cases hp
  | holding q =>
    rw [step_holding]
    cases h : s.heap[q]? with
    | none => exact ⟨rfl, rfl, rfl, fun p tb hp => Or.inl ⟨tb, hp, rfl, rfl⟩⟩
    | some tb1 =>
      refine ⟨rfl, rfl, rfl, ?_⟩
      intro p tb hp
      dsimp only at hp
      by_cases hqp : q = p
      · subst hqp
        rw [List.getElem?_set] at hp
        simp only [if_true] at hp
        split at hp
        · cases hp
          exact Or.inl ⟨tb1, h, Allow_capacity tb1 now, Allow_refillRate tb1 now⟩
        · cases hp
      · rw [List.getElem?_set_ne hqp] at hp
        exact Or.inl ⟨tb, hp, rfl, rfl⟩
  | returned q ok =>
    rw [step_returned]
    exact ⟨rfl, rfl, rfl, fun p tb hp => Or.inl ⟨tb, hp, rfl, rfl⟩⟩

/-- A registration is never replaced by a critical section of a call. -/
theorem step_lookup_mono (s : SharedLimiter) (c : Caller) (now : Int) (id : String)
    (p : Nat) (h : lookupPtr id s.buckets = some p) :
    lookupPtr id (s.step c now).1.buckets = some p := by
  rcases (step_cases s c now).2 with ⟨hb, _, _⟩ | ⟨hnone, hb, _, _⟩
  · rw [hb]
    exact h
  · rw [hb, lookupPtr_cons]
    by_cases hid : c.clientID = id
    · rw [hid, h] at hnone
      cases hnone
    · rw [if_neg hid]
      exact h

theorem stepCall_of_none (sys : System) (i : Nat) (now : Int)
    (h : sys.callers[i]? = none) : sys.stepCall i now = sys := by
  unfold System.stepCall
  rw [h]

theorem stepCall_of_some (sys : System) (i : Nat) (now : Int) (c : Caller)
    (h : sys.callers[i]? = some c) :
    sys.stepCall i now =
      { shared := (sys.shared.step c now).1
        callers := sys.callers.set i (sys.shared.step c now).2 } := by
  unfold System.stepCall
  rw [h]

/-- One critical section of a call keeps: every call that has a pointer has the registered
one of its id. -/
theorem stepCall_registered (sys : System) (i : Nat) (now : Int)
    (hinv : ∀ c ∈ sys.callers, ∀ p : Nat, c.bucket = some p →
      lookupPtr c.clientID sys.shared.buckets = some p) :
    ∀ c ∈ (sys.stepCall i now).callers, ∀ p : Nat, c.bucket = some p →
      lookupPtr c.clientID (sys.stepCall i now).shared.buckets = some p := by
  cases hget : sys.callers[i]? with
  | none =>
    rw [stepCall_of_none sys i now hget]
    exact hinv
  | some c0 =>
    rw [stepCall_of_some sys i now c0 hget]
    have hc0 : c0 ∈ sys.callers := List.getElem?_mem hget
    have hcases := step_cases sys.shared c0 now
    intro d hd p hp
    dsimp only at hd ⊢
    rcases List.mem_or_eq_of_mem_set hd with hold | hnew
    · exact step_lookup_mono sys.shared c0 now d.clientID p (hinv d hold p hp)
    · subst hnew
      rw [hcases.1]
      rcases hcases.2 with ⟨hb, _, hptr⟩ | ⟨_, hb, _, hptr⟩
      · rw [hb]
        rcases hptr p hp with h1 | h1
        · exact hinv c0 hc0 p h1
        · exact h1
      · rw [hb, lookupPtr_cons, if_pos rfl]
        rw [hptr] at hp
        exact hp

theorem stepCall_lookup_mono (sys : System) (i : Nat) (now : Int) (id : String) (p : Nat)
    (h : lookupPtr id sys.shared.buckets = some p) :
    lookupPtr id (sys.stepCall i now).shared.buckets = some p := by
  cases hget : sys.callers[i]? with
  | none =>
    rw [stepCall_of_none sys i now hget]
    exact h
  | some c0 =>
    rw [stepCall_of_some sys i now c0 hget]
    exact step_lookup_mono sys.shared c0 now id p h

/-- One critical section of a call keeps the count: as many buckets are allocated as ids
are registered. -/
theorem stepCall_count (sys : System) (i : Nat) (now : Int) :
    (sys.stepCall i now).shared.heap.length + sys.shared.buckets.length =
      sys.shared.heap.length + (sys.stepCall i now).shared.buckets.length := by
  cases hget : sys.callers[i]? with
  | none => rw [stepCall_of_none sys i now hget]
  | some c0 =>
    rw [stepCall_of_some sys i now c0 hget]
    dsimp only
    rcases (step_cases sys.shared c0 now).2 with ⟨hb, hl, _⟩ | ⟨_, hb, hl, _⟩
    · rw [hb, hl]
    · rw [hb, hl, List.length_cons]
      omega

/-- One critical section of a call keeps: every bucket allocated from position `h0` on is
registered. -/
theorem stepCall_allocated (sys : System) (i : Nat) (now : Int) (h0 : Nat)
    (hinv : ∀ p : Nat, h0 ≤ p → p < sys.shared.heap.length →
      ∃ id : String, lookupPtr id sys.shared.buckets = some p) :
    ∀ p : Nat, h0 ≤ p → p < (sys.stepCall i now).shared.heap.length →
      ∃ id : String, lookupPtr id (sys.stepCall i now).shared.buckets = some p := by
  cases hget : sys.callers[i]? with
  | none =>
    rw [stepCall_of_none sys i now hget]
    exact hinv
  | some c0 =>
    intro p hp hlt
    have hmono := stepCall_lookup_mono sys i now
    rw [stepCall_of_some sys i now c0 hget] at hlt hmono ⊢
    dsimp only at hlt hmono ⊢
    rcases (step_cases sys.shared c0 now).2 with ⟨_, hl, _⟩ | ⟨_, hb, hl, _⟩
    · rw [hl] at hlt
      obtain ⟨id, hid⟩ := hinv p hp hlt
      exact ⟨id, hmono id p hid⟩
    · rw [hl] at hlt
      by_cases hpl : p < sys.shared.heap.length
      · obtain ⟨id, hid⟩ := hinv p hp hpl
        exact ⟨id, hmono id p hid⟩
      · have hpe : p = sys.shared.heap.length := by omega
        refine ⟨c0.clientID, ?_⟩
        rw [hb, lookupPtr_cons, if_pos rfl, hpe]

/-- One critical section of a call keeps the system well formed. -/
theorem stepCall_wellFormed (sys : System) (i : Nat) (now : Int) (h0 : Nat)
    (capacity refillRate : Int) (h : sys.wellFormed h0 capacity refillRate) :
    (sys.stepCall i now).wellFormed h0 capacity refillRate := by
  cases hget : sys.callers[i]? with
  | none =>
    rw [stepCall_of_none sys i now hget]
    exact h
  | some c0 =>
    rw [stepCall_of_some sys i now c0 hget]
    obtain ⟨hptr, hnd, hcall, hcap, hrate, hh0, hset⟩ := h
    have hc0 : c0 ∈ sys.callers := List.getElem?_mem hget
    have hcases := step_cases sys.shared c0 now
    have hheap := step_heap sys.shared c0 now
    have hlen : sys.shared.heap.length ≤ (sys.shared.step c0 now).1.heap.length := by
      rcases hcases.2 with ⟨_, hl, _⟩ | ⟨_, _, hl, _⟩ <;> omega
    unfold System.wellFormed
    dsimp only
    refine ⟨?_, ?_, ?_, ?_, ?_, ?_, ?_⟩
    · intro e he
      rcases hcases.2 with ⟨hb, hl, _⟩ | ⟨_, hb, hl, _⟩
      · rw [hb] at he
        rw [hl]
        exact hptr e he
      · rw [hb] at he
        rw [hl]
        rcases List.mem_cons.1 he with h1 | h1
        · rw [h1]
          exact Nat.lt_succ_self _
        · exact Nat.lt_succ_of_lt (hptr e h1)
    · rcases hcases.2 with ⟨hb, _, _⟩ | ⟨hnone, hb, _, _⟩
      · rw [hb]
        exact hnd
      · rw [hb, List.map_cons, List.nodup_cons]
        exact ⟨lookupPtr_eq_none _ _ hnone, hnd⟩
    · intro d hd p hp
      rcases List.mem_or_eq_of_mem_set hd with hold | hnew
      · exact lt_of_lt_of_le (hcall d hold p hp) hlen
      · subst hnew
        rcases hcases.2 with ⟨_, _, hptr2⟩ | ⟨_, _, hl, hptr2⟩
        · rcases hptr2 p hp with h1 | h1
          · exact lt_of_lt_of_le (hcall c0 hc0 p h1) hlen
          · exact lt_of_lt_of_le (hptr _ (lookupPtr_mem _ _ _ h1)) hlen
        · rw [hptr2] at hp
          cases hp
          rw [hl]
          exact Nat.lt_succ_self _
    · rw [hheap.1]
      exact hcap
    · rw [hheap.2.1]
      exact hrate
    · exact le_trans hh0 hlen
    · intro p tb hp htb
      rcases hheap.2.2.2 p tb htb with ⟨tb0, h1, h2, h3⟩ | ⟨_, h2, h3⟩
      · have := hset p tb0 hp h1
        rw [h2, h3]
        exact this
      · rw [h2, h3]
        exact ⟨hcap, hrate⟩

/-- What the reclaimer leaves of the map is part of it, in order. -/
theorem foldl_cleanupPtrStep_sublist (heap : List TokenBucket) (cutoff : Int)
    (es : List (String × Nat)) :
    ∀ m : List (String × Nat), (es.foldl (cleanupPtrStep heap cutoff) m).Sublist m := by
  induction es with
  | nil => intro m; exact List.Sublist.refl m
  | cons e rest ih =>
    intro m
    rw [List.foldl_cons]
    have h1 : (cleanupPtrStep heap cutoff m e).Sublist m := by
      unfold cleanupPtrStep
      split
      · split
        · exact List.filter_sublist m
        · exact List.Sublist.refl m
      · exact List.Sublist.refl m
    exact List.Sublist.trans (ih _) h1

/-- A run of the reclaimer keeps the system well formed. -/
theorem cleanup_wellFormed (sys : System) (now : Int) (h0 : Nat)
    (capacity refillRate : Int) (h : sys.wellFormed h0 capacity refillRate) :
    System.wellFormed { sys with shared := sys.shared.cleanupOldBuckets now } h0 capacity
      refillRate := by
  obtain ⟨hptr, hnd, hcall, hcap, hrate, hh0, hset⟩ := h
  have hsub := foldl_cleanupPtrStep_sublist sys.shared.heap (now + (-sys.shared.cleanup))
    sys.shared.buckets sys.shared.buckets
  unfold System.wellFormed SharedLimiter.cleanupOldBuckets
  dsimp only
  exact ⟨fun e he => hptr e (hsub.subset he), (hsub.map Prod.fst).nodup hnd, hcall, hcap,
    hrate, hh0, hset⟩

theorem System_run_cons (sys : System) (e : Step) (rest : List Step) :
    sys.run (e :: rest) = (sys.step e).run rest := rfl

/-- Every interleaving, the reclaimer included, keeps the system well formed. -/
theorem run_wellFormed (schedule : List Step) :
    ∀ (sys : System) (h0 : Nat) (capacity refillRate : Int),
      sys.wellFormed h0 capacity refillRate →
      (sys.run schedule).wellFormed h0 capacity refillRate := by
  induction schedule with
  | nil => intro sys h0 capacity refillRate h; exact h
  | cons e rest ih =>
    intro sys h0 capacity refillRate h
    rw [System_run_cons]
    apply ih
    cases e with
    | call i now => exact stepCall_wellFormed sys i now h0 capacity refillRate h
    | cleanup now => exact cleanup_wellFormed sys now h0 capacity refillRate h

/-- What every interleaving of critical sections of calls keeps, from any system on. -/
theorem System_run_invariants (schedule : List Step) :
    ∀ (sys : System) (h0 : Nat), (∀ e ∈ schedule, e.isCall = true) →
      (∀ c ∈ sys.callers, ∀ p : Nat, c.bucket = some p →
        lookupPtr c.clientID sys.shared.buckets = some p) →
      (∀ p : Nat, h0 ≤ p → p < sys.shared.heap.length →
        ∃ id : String, lookupPtr id sys.shared.buckets = some p) →
      (∀ c ∈ (sys.run schedule).callers, ∀ p : Nat, c.bucket = some p →
          lookupPtr c.clientID (sys.run schedule).shared.buckets = some p) ∧
        (∀ (id : String) (p : Nat), lookupPtr id sys.shared.buckets = some p →
          lookupPtr id (sys.run schedule).shared.buckets = some p) ∧
        (sys.run schedule).shared.heap.length + sys.shared.buckets.length =
          sys.shared.heap.length + (sys.run schedule).shared.buckets.length ∧
        (∀ p : Nat, h0 ≤ p → p < (sys.run schedule).shared.heap.length →
          ∃ id : String, lookupPtr id (sys.run schedule).shared.buckets = some p) := by
  induction schedule with
  | nil =>
    intro sys h0 _ h1 h2
    exact ⟨h1, fun _ _ h => h, rfl, h2⟩
  | cons e rest ih =>
    intro sys h0 hcalls h1 h2
    have he := hcalls e (List.mem_cons_self _ _)
    have hrest : ∀ e2 ∈ rest, e2.isCall = true :=
      fun e2 h => hcalls e2 (List.mem_cons_of_mem _ h)
    cases e with
    | cleanup now => cases he
    | call i now =>
      have hstep := ih (sys.stepCall i now) h0 hrest (stepCall_registered sys i now h1)
        (stepCall_allocated sys i now h0 h2)
      have hcount := stepCall_count sys i now
      rw [System_run_cons]
      refine ⟨hstep.1, ?_, ?_, hstep.2.2.2⟩
      · intro id p h
        exact hstep.2.1 id p (stepCall_lookup_mono sys i now id p h)
      · have := hstep.2.2.1
        have e1 : sys.step (Step.call i now) = sys.stepCall i now := rfl
        rw [e1]
        omega

theorem init_no_bucket (s : SharedLimiter) (ids : List String) :
    ∀ c ∈ (System.init s ids).callers, ∀ p : Nat, c.bucket = some p →
      lookupPtr c.clientID (System.init s ids).shared.buckets = some p := by
  intro c hc p hp
  unfold System.init at hc
  rcases List.mem_map.1 hc with ⟨id, _, hid⟩
  rw [← hid] at hp
  cases hp

theorem init_wellFormed (s : SharedLimiter) (ids : List String)
    (hptr : ∀ e ∈ s.buckets, e.2 < s.heap.length)
    (hkeys : (s.buckets.map Prod.fst).Nodup) :
    (System.init s ids).wellFormed s.heap.length s.capacity s.refillRate := by
  unfold System.wellFormed
  refine ⟨hptr, hkeys, ?_, rfl, rfl, le_refl _, ?_⟩
  · intro c hc p hp
    have := init_no_bucket s ids c hc p hp
    exact hptr _ (lookupPtr_mem _ _ _ this)
  · intro p tb hp htb
    have hlt : p < s.heap.length := by
      have := (List.getElem?_eq_some.1 htb).1
      exact this
    omega

/-- C22 (as amended). No duplicate bucket creation under concurrency, as long as the
reclaimer does not run in between.  Let any number of calls of `rl.Allow` / `rl.GetBucket`,
for any client ids, run on one limiter whose map has one entry per id and points to allocated
buckets (as a Go map of pointers does), their critical sections (the read under `RLock`, the
re-check and insertion under `Lock`, `bucket.Allow()` under the bucket's lock) interleaved in
any order with each other and with runs of `cleanupOldBuckets`.
At the end of every such schedule the map still has one entry per id, and every call that has
obtained a bucket holds an allocated one, which has the settings of the limiter when it was
made during the schedule; and the section under `Lock` always hands the call a bucket that is
then registered under its id.
When no entry of the schedule is a run of the reclaimer: each call that has obtained a bucket
holds the one registered for its client id, so two calls for the same id hold the same
bucket; a registration is never replaced, at the start or later; exactly as many buckets have
been allocated as ids have been registered, and every bucket allocated is registered, so no
call works on a discarded bucket. -/
theorem C22_single_bucket_per_client (s0 : SharedLimiter) (ids : List String)
    (schedule : List Step)
    (hptr : ∀ e ∈ s0.buckets, e.2 < s0.heap.length)
    (hkeys : (s0.buckets.map Prod.fst).Nodup) :
    ((((System.init s0 ids).run schedule).shared.buckets.map Prod.fst).Nodup ∧
      (∀ c ∈ ((System.init s0 ids).run schedule).callers, ∀ p : Nat, c.bucket = some p →
        ∃ tb : TokenBucket, ((System.init s0 ids).run schedule).shared.heap[p]? = some tb ∧
          (s0.heap.length ≤ p →
            tb.capacity = s0.capacity ∧ tb.refillRate = s0.refillRate))) ∧
      (∀ (s : SharedLimiter) (id : String) (now : Int),
        ∃ p : Nat, (s.step ⟨id, Progress.missed⟩ now).2 = ⟨id, Progress.holding p⟩ ∧
          (id, p) ∈ (s.step ⟨id, Progress.missed⟩ now).1.buckets ∧
          (lookupPtr id s.buckets = none →
            (s.step ⟨id, Progress.missed⟩ now).1.heap[p]? =
              some (NewTokenBucket s.capacity s.refillRate now))) ∧
      ((∀ e ∈ schedule, e.isCall = true) →
        (∀ c ∈ ((System.init s0 ids).run schedule).callers, ∀ p : Nat, c.bucket = some p →
          (c.clientID, p) ∈ ((System.init s0 ids).run schedule).shared.buckets ∧
            lookupPtr c.clientID ((System.init s0 ids).run schedule).shared.buckets =
              some p) ∧
        (∀ c1 ∈ ((System.init s0 ids).run schedule).callers,
          ∀ c2 ∈ ((System.init s0 ids).run schedule).callers,
          c1.clientID = c2.clientID → ∀ p q : Nat, c1.bucket = some p → c2.bucket = some q →
            p = q) ∧
        (∀ (id : String) (p : Nat), lookupPtr id s0.buckets = some p →
          lookupPtr id ((System.init s0 ids).run schedule).shared.buckets = some p) ∧
        (∀ (later : List Step), (∀ e ∈ later, e.isCall = true) → ∀ (id : String) (p : Nat),
          lookupPtr id ((System.init s0 ids).run schedule).shared.buckets = some p →
          lookupPtr id (((System.init s0 ids).run schedule).run later).shared.buckets =
            some p) ∧
        ((System.init s0 ids).run schedule).shared.heap.length + s0.buckets.length =
          s0.heap.length + ((System.init s0 ids).run schedule).shared.buckets.length ∧
        (∀ p : Nat, s0.heap.length ≤ p →
          p < ((System.init s0 ids).run schedule).shared.heap.length →
          ∃ id : String,
            (id, p) ∈ ((System.init s0 ids).run schedule).shared.buckets)) := by
  have hwf := run_wellFormed schedule (System.init s0 ids) s0.heap.length s0.capacity
    s0.refillRate (init_wellFormed s0 ids hptr hkeys)
  obtain ⟨_, hnd, hcall, _, _, _, hset⟩ := hwf
  refine ⟨⟨hnd, ?_⟩, ?_, ?_⟩
  · intro c hc p hp
    have hlt := hcall c hc p hp
    refine ⟨((System.init s0 ids).run schedule).shared.heap[p], ?_, ?_⟩
    · exact List.getElem?_eq_some.2 ⟨hlt, rfl⟩
    · intro h0p
      exact hset p _ h0p (List.getElem?_eq_some.2 ⟨hlt, rfl⟩)
  · intro s id now
    rw [step_missed]
    cases h : lookupPtr id s.buckets with
    | some q =>
      refine ⟨q, rfl, lookupPtr_mem _ _ _ h, ?_⟩
      intro hn
      cases hn
    | none =>
      refine ⟨s.heap.length, rfl, List.mem_cons_self _ _, ?_⟩
      intro _
      dsimp only
      rw [List.getElem?_append_right (le_refl _), Nat.sub_self]
      rfl
  · intro hcalls
    have hinit := init_no_bucket s0 ids
    have hall := System_run_invariants schedule (System.init s0 ids) s0.heap.length hcalls
      hinit
      (fun p hp hlt => absurd hlt (by
        have : (System.init s0 ids).shared.heap.length = s0.heap.length := rfl
        omega))
    refine ⟨?_, ?_, hall.2.1, ?_, hall.2.2.1, ?_⟩
    · intro c hc p hp
      exact ⟨lookupPtr_mem _ _ _ (hall.1 c hc p hp), hall.1 c hc p hp⟩
    · intro c1 hc1 c2 hc2 hid p q hp hq
      have h1 := hall.1 c1 hc1 p hp
      have h2 := hall.1 c2 hc2 q hq
      rw [hid, h2] at h1
      cases h1
      rfl
    · intro later hlater id p h
      exact (System_run_invariants later ((System.init s0 ids).run schedule)
        ((System.init s0 ids).run schedule).shared.heap.length hlater hall.1
        (fun q hq hlt => absurd hlt (by omega))).2.1 id p h
    · intro p hp hlt
      obtain ⟨id, hid⟩ := hall.2.2.2 p hp hlt
      exact ⟨id, lookupPtr_mem _ _ _ hid⟩

theorem C22_single_bucket_per_client_witness :
    (∃ tb : TokenBucket,
      ((System.init ⟨[], [], 2, 1, Second⟩
        ["192.168.1.1", "192.168.1.1", "192.168.1.2"]).run
          [Step.call 0 0, Step.call 1 0, Step.call 0 5, Step.call 1 6, Step.call 2 7,
            Step.call 2 8, Step.call 0 9, Step.call 1 9, Step.call 2 9]).shared.heap[0]? =
        some tb ∧
        ((⟨[], [], 2, 1, Second⟩ : SharedLimiter).heap.length ≤ 0 →
          tb.capacity = (⟨[], [], 2, 1, Second⟩ : SharedLimiter).capacity ∧
            tb.refillRate = (⟨[], [], 2, 1, Second⟩ : SharedLimiter).refillRate)) ∧
      ((Caller.mk "192.168.1.1" (Progress.returned 0 true)).clientID, 0) ∈
          ((System.init ⟨[], [], 2, 1, Second⟩
            ["192.168.1.1", "192.168.1.1", "192.168.1.2"]).run
              [Step.call 0 0, Step.call 1 0, Step.call 0 5, Step.call 1 6, Step.call 2 7,
                Step.call 2 8, Step.call 0 9, Step.call 1 9,
                Step.call 2 9]).shared.buckets ∧
        lookupPtr (Caller.mk "192.168.1.1" (Progress.returned 0 true)).clientID
            ((System.init ⟨[], [], 2, 1, Second⟩
              ["192.168.1.1", "192.168.1.1", "192.168.1.2"]).run
                [Step.call 0 0, Step.call 1 0, Step.call 0 5, Step.call 1 6, Step.call 2 7,
                  Step.call 2 8, Step.call 0 9, Step.call 1 9,
                  Step.call 2 9]).shared.buckets = some 0 :=
  ⟨(C22_single_bucket_per_client ⟨[], [], 2, 1, Second⟩
      ["192.168.1.1", "192.168.1.1", "192.168.1.2"]
      [Step.call 0 0, Step.call 1 0, Step.call 0 5, Step.call 1 6, Step.call 2 7,
        Step.call 2 8, Step.call 0 9, Step.call 1 9, Step.call 2 9]
      (by decide) (by decide)).1.2
      (Caller.mk "192.168.1.1" (Progress.returned 0 true)) (by decide) 0 (by decide),
    ((C22_single_bucket_per_client ⟨[], [], 2, 1, Second⟩
      ["192.168.1.1", "192.168.1.1", "192.168.1.2"]
      [Step.call 0 0, Step.call 1 0, Step.call 0 5, Step.call 1 6, Step.call 2 7,
        Step.call 2 8, Step.call 0 9, Step.call 1 9, Step.call 2 9]
      (by decide) (by decide)).2.2 (by decide)).1
      (Caller.mk "192.168.1.1" (Progress.returned 0 true)) (by decide) 0 (by decide)⟩

/-- C22 (counterexample). A limiter with capacity 2, rate 1 and cleanup interval 1 s, empty
at the start, and two calls of `rl.Allow` for the same id, absent from the map.  The first
call makes bucket 0 at instant 0 and holds it; the reclaimer runs at 5 s and evicts it (its
`lastRefill` 0 is before the cutoff 4 s); the second call finds no bucket, makes bucket 1 and
spends a token of it; the first call then spends a token of the evicted bucket 0.  Two calls
for one id have obtained two buckets, two buckets were allocated for one id registered, and
the map keeps only bucket 1, so the decrement of the first call is lost. -/
theorem C22_counterexample :
    lookupPtr "192.168.1.1" (⟨[], [], 2, 1, Second⟩ : SharedLimiter).buckets = none ∧
      ((System.init ⟨[], [], 2, 1, Second⟩ ["192.168.1.1", "192.168.1.1"]).run
        [Step.call 0 0, Step.call 0 0, Step.cleanup (5 * Second),
          Step.call 1 (5 * Second), Step.call 1 (5 * Second), Step.call 1 (5 * Second),
          Step.call 0 (6 * Second)]) =
        { shared :=
            { heap := [⟨2, 1, 1, 6 * Second⟩, ⟨2, 1, 1, 5 * Second⟩]
              buckets := [("192.168.1.1", 1)]
              capacity := 2
              refillRate := 1
              cleanup := Second }
          callers :=
            [⟨"192.168.1.1", Progress.returned 0 true⟩,
              ⟨"192.168.1.1", Progress.returned 1 true⟩] } ∧
      (Caller.mk "192.168.1.1" (Progress.returned 0 true)).bucket ≠
        (Caller.mk "192.168.1.1" (Progress.returned 1 true)).bucket := by
  refine ⟨by decide, by decide, by decide⟩

end Adspots
